import Mathlib

/-!
Verification of the Houjicha language front-end: an indentation-sensitive
lexer and a recursive-descent parser for a legal-reasoning DSL, embedded
shallowly from the TypeScript sources (`lexer.ts`, `parser.ts`, `ast.ts`).

The lexer is modelled as a step function on an explicit lexer state driven
by a fuel counter that is provably sufficient (each step consumes a source
character or clears the line-start flag).  The parser is modelled as a
family of mutually recursive functions on a parser state, again driven by
fuel; a sufficiency theorem shows a fuel budget linear in the token count
always completes, which is the termination claim of the specification.
-/

namespace Houjicha

/-- `Position {line, column, offset}`, zero-based (`ast.ts`). -/
structure Position where
  line : Nat
  column : Nat
  offset : Nat
deriving DecidableEq

/-- `Range {start, end}` (`ast.ts`).  The `end` field is named `stop`
because `end` is a Lean keyword. -/
structure Range where
  start : Position
  stop : Position
deriving DecidableEq

/-- The token kinds of `lexer.ts` (`enum TokenType`). -/
inductive TokenType where
  | HASH | CARET | COLON | DOUBLE_COLON | ARROW_LEFT | ARROW_RIGHT
  | QUESTION | PERCENT | AT | TILDE_ARROW | IMPLIES | SEMICOLON
  | AND | OR
  | PLUS | EXCLAIM
  | LPAREN | RPAREN | LBRACKET_JP | RBRACKET_JP | ASTERISK
  | AS
  | DOLLAR | TEXT | IDENTIFIER
  | NEWLINE | INDENT | DEDENT | COMMENT | EOF | ERROR
deriving DecidableEq

/-- The string value of each `TokenType` enum member (used only in the
interpolated "unexpected token" parser error message). -/
def TokenType.toName : TokenType → String
  | .HASH => "HASH" | .CARET => "CARET" | .COLON => "COLON"
  | .DOUBLE_COLON => "DOUBLE_COLON" | .ARROW_LEFT => "ARROW_LEFT"
  | .ARROW_RIGHT => "ARROW_RIGHT" | .QUESTION => "QUESTION"
  | .PERCENT => "PERCENT" | .AT => "AT" | .TILDE_ARROW => "TILDE_ARROW"
  | .IMPLIES => "IMPLIES" | .SEMICOLON => "SEMICOLON" | .AND => "AND"
  | .OR => "OR" | .PLUS => "PLUS" | .EXCLAIM => "EXCLAIM"
  | .LPAREN => "LPAREN" | .RPAREN => "RPAREN"
  | .LBRACKET_JP => "LBRACKET_JP" | .RBRACKET_JP => "RBRACKET_JP"
  | .ASTERISK => "ASTERISK" | .AS => "AS" | .DOLLAR => "DOLLAR"
  | .TEXT => "TEXT" | .IDENTIFIER => "IDENTIFIER" | .NEWLINE => "NEWLINE"
  | .INDENT => "INDENT" | .DEDENT => "DEDENT" | .COMMENT => "COMMENT"
  | .EOF => "EOF" | .ERROR => "ERROR"

/-- `Token {type, value, range}` (`lexer.ts`). -/
structure Token where
  type : TokenType
  value : String
  range : Range
deriving DecidableEq

/-- `LexerError {message, range}` (`lexer.ts`). -/
structure LexerError where
  message : String
  range : Range
deriving DecidableEq

/-- The characters removed by JavaScript's `String.prototype.trim`
(WhiteSpace and LineTerminator code points). -/
def isJsWhitespace (c : Char) : Bool :=
  [' ', '\t', '\n', '\r', '\x0b', '\x0c', '\u00A0', '\u1680',
   '\u2000', '\u2001', '\u2002', '\u2003', '\u2004', '\u2005', '\u2006',
   '\u2007', '\u2008', '\u2009', '\u200A', '\u2028', '\u2029', '\u202F',
   '\u205F', '\u3000', '\uFEFF'].contains c

def trimChars (cs : List Char) : List Char :=
  ((cs.dropWhile isJsWhitespace).reverse.dropWhile isJsWhitespace).reverse

/-- JavaScript `s.trim()`. -/
def trimJs (s : String) : String := String.mk (trimChars s.data)

/-- `Lexer.isSpecialChar` (`lexer.ts`): the fixed special-character set. -/
def isSpecialChar (c : Char) : Bool :=
  ['#', '＃', '^', ':', '：', '<', '>', '?', '？',
   '%', '％', '@', '＠', '~', '=', '&', '＆', '|', '｜',
   '+', '＋', '!', '！', '(', '（', ')', '）',
   '「', '」', '$', '＄', '/', '\\', ';', '；',
   '*', '＊',
   ' ', '\t', '\u3000'].contains c

/-- The mutable state of `class Lexer`: the fixed source, the scanning
cursor (`pos`/`line`/`column`), the token and error accumulators, the
indentation stack (top element first; the TypeScript array keeps the top
at the back) and the `atLineStart` flag. -/
structure LexState where
  src : List Char
  pos : Nat
  line : Nat
  column : Nat
  tokens : List Token
  errors : List LexerError
  indentStack : List Nat
  atLineStart : Bool

namespace LexState

/-- `Lexer.isAtEnd`. -/
def isAtEnd (st : LexState) : Bool := st.src.length ≤ st.pos

/-- `Lexer.peek(offset)`; out-of-range reads yield `'\0'`. -/
def peekChar (st : LexState) (k : Nat := 0) : Char :=
  st.src.getD (st.pos + k) '\x00'

/-- `Lexer.createPosition()`. -/
def createPosition (st : LexState) : Position :=
  ⟨st.line, st.column, st.pos⟩

/-- `Lexer.advance()`: read the current character, move the cursor, and
update line/column and the line-start flag on a newline. -/
def advanceChar (st : LexState) : Char × LexState :=
  let c := st.src.getD st.pos '\x00'
  let st := { st with pos := st.pos + 1 }
  if c = '\n' then
    (c, { st with line := st.line + 1, column := 0, atLineStart := true })
  else
    (c, { st with column := st.column + 1 })

/-- Cursor effect of `advance()` repeated over `k` non-newline
characters (indent runs, comment bodies, text runs contain no `'\n'`). -/
def bulk (st : LexState) (k : Nat) : LexState :=
  { st with pos := st.pos + k, column := st.column + k }

/-- `Lexer.addToken(type, value, startPos)`. -/
def addToken (st : LexState) (t : TokenType) (v : String) (startPos : Position) :
    LexState :=
  { st with tokens := st.tokens ++ [⟨t, v, ⟨startPos, st.createPosition⟩⟩] }

/-- `Lexer.addError(message, startPos)`. -/
def addLexError (st : LexState) (msg : String) (startPos : Position) : LexState :=
  { st with errors := st.errors ++ [⟨msg, ⟨startPos, st.createPosition⟩⟩] }

end LexState

/-- The indentation-counting loop at the head of `handleIndentation`:
space counts 1, tab counts 4, full-width space (U+3000) counts 2.
Returns the counted width and the number of characters consumed. -/
def countIndentLoop : List Char → Nat × Nat
  | [] => (0, 0)
  | c :: rest =>
    if c = ' ' then
      let (w, k) := countIndentLoop rest; (w + 1, k + 1)
    else if c = '\t' then
      let (w, k) := countIndentLoop rest; (w + 4, k + 1)
    else if c = '\u3000' then
      let (w, k) := countIndentLoop rest; (w + 2, k + 1)
    else (0, 0)

/-- The dedent-popping loop of `handleIndentation`: pop while the stack has
more than one level and its top exceeds the new indent, counting one DEDENT
token per pop.  Returns the remaining stack and the number of pops. -/
def dedentSteps : List Nat → Nat → List Nat × Nat
  | top :: next :: rest, indent =>
    if indent < top then
      let (s, n) := dedentSteps (next :: rest) indent
      (s, n + 1)
    else (top :: next :: rest, 0)
  | s, _ => (s, 0)

/-- `Lexer.handleIndentation()`. -/
def handleIndentation (st : LexState) : LexState :=
  let startPos := st.createPosition
  let (indent, k) := countIndentLoop (st.src.drop st.pos)
  let st := st.bulk k
  let st := { st with atLineStart := false }
  -- 空行のみインデント処理をスキップ（コメント行はインデント処理を行う）
  if st.peekChar = '\n' ∨ st.peekChar = '\r' then st
  else
    let currentIndent := st.indentStack.headD 0
    if currentIndent < indent then
      ({ st with indentStack := indent :: st.indentStack }).addToken .INDENT "" startPos
    else if indent < currentIndent then
      let (stack, n) := dedentSteps st.indentStack indent
      { st with indentStack := stack,
                tokens := st.tokens ++
                  List.replicate n (⟨.DEDENT, "", ⟨startPos, st.createPosition⟩⟩ : Token) }
    else st

/-- `Lexer.scanComment(startPos)`: both slashes are already consumed;
take everything up to the next newline and emit one trimmed COMMENT token. -/
def scanComment (startPos : Position) (st : LexState) : LexState :=
  let text := (st.src.drop st.pos).takeWhile (fun c => ¬ c = '\n')
  let st := st.bulk text.length
  st.addToken .COMMENT (trimJs (String.mk text)) startPos

/-- `Lexer.scanText(startPos, initial)`: accumulate non-special characters,
then emit an AS token for the literal `as`, a TEXT token for other nonempty
trimmed text, and nothing for text that trims to empty. -/
def scanText (startPos : Position) (initial : String) (st : LexState) : LexState :=
  let more := (st.src.drop st.pos).takeWhile
    (fun c => ¬ (isSpecialChar c ∨ c = '\n' ∨ c = '\r'))
  let st := st.bulk more.length
  let trimmed := trimJs (initial ++ String.mk more)
  if trimmed = "as" then st.addToken .AS trimmed startPos
  else if trimmed.length > 0 then st.addToken .TEXT trimmed startPos
  else st

/-- `Lexer.scanToken()`: either line-start indentation handling, or the
single-character dispatch switch (with one-character lookahead for the
two-character operators). -/
def scanToken (st : LexState) : LexState :=
  if st.atLineStart then handleIndentation st
  else
    let startPos := st.createPosition
    let (c, st) := st.advanceChar
    if c = ' ' ∨ c = '\t' ∨ c = '\u3000' then st
    else if c = '\n' then st.addToken .NEWLINE "\n" startPos
    else if c = '\r' then
      let st := if st.peekChar = '\n' then (st.advanceChar).2 else st
      st.addToken .NEWLINE "\n" startPos
    else if c = '/' then
      if st.peekChar = '/' then scanComment startPos (st.advanceChar).2
      else st.addLexError ("予期しない文字: " ++ String.singleton c) startPos
    else if c = '#' ∨ c = '＃' then st.addToken .HASH (String.singleton c) startPos
    else if c = '^' then st.addToken .CARET (String.singleton c) startPos
    else if c = ':' then
      if st.peekChar = ':' then ((st.advanceChar).2).addToken .DOUBLE_COLON "::" startPos
      else st.addToken .COLON ":" startPos
    else if c = '：' then
      if st.peekChar = '：' then ((st.advanceChar).2).addToken .DOUBLE_COLON "：：" startPos
      else st.addToken .COLON "：" startPos
    else if c = '<' then
      if st.peekChar = '=' then ((st.advanceChar).2).addToken .ARROW_LEFT "<=" startPos
      else scanText startPos (String.singleton c) st
    else if c = '>' then
      if st.peekChar = '>' then ((st.advanceChar).2).addToken .ARROW_RIGHT ">>" startPos
      else scanText startPos (String.singleton c) st
    else if c = '?' ∨ c = '？' then st.addToken .QUESTION (String.singleton c) startPos
    else if c = '%' ∨ c = '％' then st.addToken .PERCENT (String.singleton c) startPos
    else if c = '@' ∨ c = '＠' then st.addToken .AT (String.singleton c) startPos
    else if c = ';' ∨ c = '；' then st.addToken .SEMICOLON (String.singleton c) startPos
    else if c = '~' then
      if st.peekChar = '>' then ((st.advanceChar).2).addToken .TILDE_ARROW "~>" startPos
      else scanText startPos (String.singleton c) st
    else if c = '=' then
      if st.peekChar = '>' then ((st.advanceChar).2).addToken .IMPLIES "=>" startPos
      else scanText startPos (String.singleton c) st
    else if c = '&' ∨ c = '＆' then st.addToken .AND (String.singleton c) startPos
    else if c = '|' ∨ c = '｜' then st.addToken .OR (String.singleton c) startPos
    else if c = '+' ∨ c = '＋' then st.addToken .PLUS (String.singleton c) startPos
    else if c = '!' ∨ c = '！' then st.addToken .EXCLAIM (String.singleton c) startPos
    else if c = '(' ∨ c = '（' then st.addToken .LPAREN (String.singleton c) startPos
    else if c = ')' ∨ c = '）' then st.addToken .RPAREN (String.singleton c) startPos
    else if c = '「' then st.addToken .LBRACKET_JP (String.singleton c) startPos
    else if c = '」' then st.addToken .RBRACKET_JP (String.singleton c) startPos
    else if c = '*' ∨ c = '＊' then st.addToken .ASTERISK (String.singleton c) startPos
    else if c = '$' ∨ c = '＄' then st.addToken .DOLLAR (String.singleton c) startPos
    else if c = '\\' then
      if st.isAtEnd then st
      else
        let (escaped, st) := st.advanceChar
        if escaped = '&' then st.addToken .AND "\\&" startPos
        else scanText startPos (String.mk [c, escaped]) st
    else scanText startPos (String.singleton c) st

/-- The main `tokenize` loop: `while (!this.isAtEnd()) this.scanToken()`,
driven by fuel. -/
def lexLoop : Nat → LexState → LexState
  | 0, st => st
  | fuel + 1, st => if st.isAtEnd then st else lexLoop fuel (scanToken st)

/-- The fuel budget that provably completes the lexer loop: every step
consumes a character (worth 2) or clears the line-start flag (worth 1). -/
def lexMeasure (st : LexState) : Nat :=
  2 * (st.src.length - st.pos) + (if st.atLineStart then 1 else 0)

/-- `tokenize(source)` (`lexer.ts`): run the scanning loop, flush the
remaining indentation levels as trailing DEDENT tokens, and append EOF. -/
def tokenize (source : String) : List Token × List LexerError :=
  let st : LexState := ⟨source.data, 0, 0, 0, [], [], [0], true⟩
  let st := lexLoop (lexMeasure st) st
  let n := st.indentStack.length - 1
  let st := { st with
    indentStack := st.indentStack.drop n,
    tokens := st.tokens ++
      List.replicate n (⟨.DEDENT, "", ⟨st.createPosition, st.createPosition⟩⟩ : Token) }
  let st := st.addToken .EOF "" st.createPosition
  (st.tokens, st.errors)

/-! ## AST node model (`ast.ts`) -/

/-- The `'positive' | 'negative'` conclusion marker. -/
inductive Concluded where
  | positive
  | negative
deriving DecidableEq

/-- The `'and' | 'or'` operator of a compound Fact or Reason. -/
inductive FactOp where
  | and
  | or
deriving DecidableEq

/-- `Reference` node: citation text after `^`. -/
structure Reference where
  citation : String
  range : Range
deriving DecidableEq

/-- `Evaluation` node: text after `@`. -/
structure Evaluation where
  content : String
  range : Range
deriving DecidableEq

/-- `Comment` node. -/
structure Comment where
  text : String
  range : Range
deriving DecidableEq

/-- `Effect` node: text after `>>`. -/
structure Effect where
  content : String
  range : Range
deriving DecidableEq

/-- `ReasonStatement` node: text after `;`. -/
structure ReasonStatement where
  content : String
  range : Range
deriving DecidableEq

/-- `Reason` node (inside an Issue). -/
structure Reason where
  content : String
  operator : Option FactOp
  range : Range
deriving DecidableEq

/-- `Fact` node: a leaf (`content`, optional `evaluation`) or a compound
(`operator`, `children`); unset TypeScript fields are `none`. -/
inductive Fact where
  | mk (content : String) (evaluation : Option Evaluation)
       (operator : Option FactOp) (children : Option (List Fact))
       (range : Range)

def Fact.content : Fact → String
  | .mk c _ _ _ _ => c

def Fact.evaluation : Fact → Option Evaluation
  | .mk _ e _ _ _ => e

def Fact.operator : Fact → Option FactOp
  | .mk _ _ o _ _ => o

def Fact.children : Fact → Option (List Fact)
  | .mk _ _ _ ch _ => ch

def Fact.range : Fact → Range
  | .mk _ _ _ _ r => r

mutual

/-- `Norm` node (`ast.ts`): conclusion marker, content text, optional
reference, optional nested sub-norm, optional fact, optional
sub-requirements (attached only by Issue parsing), and the constant
definition/reference names. -/
inductive Norm where
  | mk (concluded : Option Concluded) (content : String)
       (reference : Option Reference) (subNorm : Option Norm)
       (fact : Option Fact) (subRequirements : Option (List Requirement))
       (constantDefinition : Option String) (constantReference : Option String)
       (range : Range)

/-- `Requirement` node (`ast.ts`). -/
inductive Requirement where
  | mk (concluded : Option Concluded) (name : String) (norm : Option Norm)
       (fact : Option Fact) (subRequirements : Option (List Requirement))
       (issue : Option Issue) (reasonStatements : Option (List ReasonStatement))
       (range : Range)

/-- `Issue` node (`ast.ts`); `conclusion` is never set by the parser. -/
inductive Issue where
  | mk (question : String) (reasons : Option (List Reason)) (norm : Norm)
       (range : Range)

end

def Norm.concluded : Norm → Option Concluded
  | .mk c _ _ _ _ _ _ _ _ => c

def Norm.content : Norm → String
  | .mk _ c _ _ _ _ _ _ _ => c

def Norm.reference : Norm → Option Reference
  | .mk _ _ r _ _ _ _ _ _ => r

def Norm.subNorm : Norm → Option Norm
  | .mk _ _ _ sn _ _ _ _ _ => sn

def Norm.fact : Norm → Option Fact
  | .mk _ _ _ _ f _ _ _ _ => f

def Norm.subRequirements : Norm → Option (List Requirement)
  | .mk _ _ _ _ _ sr _ _ _ => sr

def Norm.constantDefinition : Norm → Option String
  | .mk _ _ _ _ _ _ cd _ _ => cd

def Norm.constantReference : Norm → Option String
  | .mk _ _ _ _ _ _ _ cr _ => cr

def Norm.range : Norm → Range
  | .mk _ _ _ _ _ _ _ _ r => r

/-- `norm.fact = ...` (the in-place mutation in `parseNormAsRequirement`). -/
def Norm.setFact : Norm → Option Fact → Norm
  | .mk c ct r sn _ sr cd cr rg, f => .mk c ct r sn f sr cd cr rg

/-- `norm.subRequirements.push(...)` with lazy initialisation (the in-place
mutation in `parseIssue`). -/
def Norm.pushSubRequirement : Norm → Requirement → Norm
  | .mk c ct r sn f sr cd cr rg, req =>
    .mk c ct r sn f (some ((sr.getD []) ++ [req])) cd cr rg

def Requirement.concluded : Requirement → Option Concluded
  | .mk c _ _ _ _ _ _ _ => c

def Requirement.name : Requirement → String
  | .mk _ n _ _ _ _ _ _ => n

def Requirement.norm : Requirement → Option Norm
  | .mk _ _ n _ _ _ _ _ => n

def Requirement.fact : Requirement → Option Fact
  | .mk _ _ _ f _ _ _ _ => f

def Requirement.subRequirements : Requirement → Option (List Requirement)
  | .mk _ _ _ _ sr _ _ _ => sr

def Requirement.issue : Requirement → Option Issue
  | .mk _ _ _ _ _ i _ _ => i

def Requirement.reasonStatements : Requirement → Option (List ReasonStatement)
  | .mk _ _ _ _ _ _ rs _ => rs

def Requirement.range : Requirement → Range
  | .mk _ _ _ _ _ _ _ r => r

def Issue.question : Issue → String
  | .mk q _ _ _ => q

def Issue.reasons : Issue → Option (List Reason)
  | .mk _ r _ _ => r

def Issue.norm : Issue → Norm
  | .mk _ _ n _ => n

def Issue.range : Issue → Range
  | .mk _ _ _ r => r

/-- `ConstantDefinition` node: the symbol-table entry for `as name`. -/
structure ConstantDefinition where
  name : String
  value : Norm
  range : Range

/-- `Claim` node (`ast.ts`). -/
structure Claim where
  concluded : Option Concluded
  name : String
  reference : Option Reference
  fact : Option Fact
  requirements : List Requirement
  effect : Option Effect
  reasonStatements : Option (List ReasonStatement)
  range : Range

/-- A child of a `Namespace`: `Claim | Comment`. -/
inductive NsChild where
  | claim (c : Claim)
  | comment (c : Comment)

/-- `Namespace` node. -/
structure Namespace where
  name : String
  children : List NsChild
  range : Range

/-- A top-level child of a `Document`: `Namespace | Claim | Comment`. -/
inductive DocChild where
  | ns (n : Namespace)
  | claim (c : Claim)
  | comment (c : Comment)

/-- `Document` node: top-level children plus the constants map (modelled
as an insertion-ordered association list, mirroring a JavaScript `Map`). -/
structure Document where
  children : List DocChild
  constants : List (String × ConstantDefinition)
  range : Range

/-- `ParseError {message, range}` (`parser.ts`). -/
structure ParseError where
  message : String
  range : Range
deriving DecidableEq

/-- `ParseResult {document, errors}` (`parser.ts`). -/
structure ParseResult where
  document : Document
  errors : List ParseError

/-- `Map.get`: the value stored under `k`, if any. -/
def mapGet (m : List (String × ConstantDefinition)) (k : String) :
    Option ConstantDefinition :=
  (m.find? (fun p => p.1 == k)).map (·.2)

/-- `Map.set`: overwrite the entry under `k` in place, or append a new one
(JavaScript `Map` keeps first-insertion order). -/
def mapSet (m : List (String × ConstantDefinition)) (k : String)
    (v : ConstantDefinition) : List (String × ConstantDefinition) :=
  if m.any (fun p => p.1 == k) then
    m.map (fun p => if p.1 == k then (k, v) else p)
  else m ++ [(k, v)]

/-! ## Parser state and primitive operations (`class Parser`) -/

/-- The mutable state of `class Parser`: the materialised token array, the
cursor, the accumulated errors (seeded with the lexer errors), and the
constants map. -/
structure PState where
  tokens : List Token
  pos : Nat
  errors : List ParseError
  constants : List (String × ConstantDefinition)

/-- The default token used for out-of-range list reads.
`Parser.peek` clamps the index to the last element, so this value is never
produced for the token arrays `tokenize` builds (they are nonempty). -/
def dummyToken : Token := ⟨.EOF, "", ⟨⟨0, 0, 0⟩, ⟨0, 0, 0⟩⟩⟩

namespace PState

/-- `Parser.peek(offset)`: the token at `pos + offset`, clamped to the
last token of the array. -/
def peekN (st : PState) (k : Nat) : Token :=
  if st.pos + k < st.tokens.length then st.tokens.getD (st.pos + k) dummyToken
  else st.tokens.getD (st.tokens.length - 1) dummyToken

/-- `Parser.peek()`. -/
def peek (st : PState) : Token := st.peekN 0

/-- `Parser.isAtEnd()`. -/
def isAtEnd (st : PState) : Bool := st.peek.type == .EOF

/-- `Parser.check(type)`. -/
def check (st : PState) (t : TokenType) : Bool := st.peek.type == t

/-- `Parser.advance()`: move past the current token unless at EOF, and
return the token that was current.  (When already at EOF the TypeScript
code returns `tokens[pos-1]`; that value is discarded at every call site
reachable at EOF, so the current token is returned instead.) -/
def advanceT (st : PState) : Token × PState :=
  if st.isAtEnd then (st.peek, st)
  else (st.peek, { st with pos := st.pos + 1 })

/-- `Parser.match(type)` (single-type form, the only one used). -/
def matchT (st : PState) (t : TokenType) : Bool × PState :=
  if st.check t then (true, (st.advanceT).2) else (false, st)

/-- `Parser.addError(message)` (cursor-anchored form). -/
def addErr (st : PState) (msg : String) : PState :=
  { st with errors := st.errors ++ [⟨msg, st.peek.range⟩] }

/-- `Parser.addError(message, range)` (explicit-range form). -/
def addErrAt (st : PState) (msg : String) (r : Range) : PState :=
  { st with errors := st.errors ++ [⟨msg, r⟩] }

/-- `Parser.expect(type, message)`: consume on success; on failure report
an error without consuming and return the current (mismatched) token. -/
def expectT (st : PState) (t : TokenType) (msg : String) : Token × PState :=
  if st.check t then st.advanceT else (st.peek, st.addErr msg)

end PState

/-- Local fuel budget for the simple scanning loops: an upper bound on the
number of tokens left plus one. -/
def PState.restFuel (st : PState) : Nat := st.tokens.length + 1 - st.pos

/-- `Parser.skipNewlines()` loop body. -/
def skipNewlinesF : Nat → PState → PState
  | 0, st => st
  | fuel + 1, st =>
    if st.check .NEWLINE then skipNewlinesF fuel (st.advanceT).2 else st

/-- `Parser.skipNewlines()`. -/
def PState.skipNewlines (st : PState) : PState := skipNewlinesF st.restFuel st

/-- The generic text-accumulation loop used throughout the parser:
`while (!isAtEnd && peek not in stops) acc += advance().value + sep`. -/
def scanAccF (stops : List TokenType) (sep : String) :
    Nat → PState → String → String × PState
  | 0, st, acc => (acc, st)
  | fuel + 1, st, acc =>
    if st.isAtEnd ∨ stops.contains st.peek.type then (acc, st)
    else
      let (t, st') := st.advanceT
      scanAccF stops sep fuel st' (acc ++ t.value ++ sep)

/-- Entry point of the accumulation loop starting from the empty string. -/
def PState.scanAcc (st : PState) (stops : List TokenType) (sep : String) :
    String × PState :=
  scanAccF stops sep st.restFuel st ""

/-- The `skipUntilNewline` loop body. -/
def skipUntilNewlineF : Nat → PState → PState
  | 0, st => st
  | fuel + 1, st =>
    if st.isAtEnd ∨ st.check .NEWLINE then st
    else skipUntilNewlineF fuel (st.advanceT).2

/-- `Parser.skipUntilNewline()`: skip to end of line, then consume the
newline itself if present. -/
def PState.skipUntilNewline (st : PState) : PState :=
  let st := skipUntilNewlineF st.restFuel st
  if st.check .NEWLINE then (st.advanceT).2 else st

/-- The depth-counting loop of `skipOrphanedIndentedBlock`. -/
def skipOrphanF : Nat → PState → Nat → PState
  | 0, st, _ => st
  | fuel + 1, st, depth =>
    if st.isAtEnd ∨ depth = 0 then st
    else
      let depth :=
        if st.check .INDENT then depth + 1
        else if st.check .DEDENT then depth - 1
        else depth
      skipOrphanF fuel (st.advanceT).2 depth

/-- `Parser.skipOrphanedIndentedBlock()`: consume the INDENT, then skip
tokens while tracking nested INDENT/DEDENT depth. -/
def PState.skipOrphanedIndentedBlock (st : PState) : PState :=
  let st := (st.advanceT).2
  skipOrphanF st.restFuel st 1

/-- `Parser.createRange(start, end)`. -/
def createRange (a b : Position) : Range := ⟨a, b⟩

/-- `Parser.parseComment()`. -/
def PState.parseComment (st : PState) : Comment × PState :=
  let (tok, st) := st.advanceT
  (⟨tok.value, tok.range⟩, st)

/-- `Parser.parseReasonStatement()`. -/
def PState.parseReasonStatement (st : PState) : ReasonStatement × PState :=
  let startPos := st.peek.range.start
  let st := (st.advanceT).2
  let (content, st) := st.scanAcc [.NEWLINE] " "
  let endPos := st.peek.range.start
  (⟨trimJs content, createRange startPos endPos⟩, st)

/-- `Parser.parseReference()`. -/
def PState.parseReference (st : PState) : Reference × PState :=
  let startPos := st.peek.range.start
  let (citation, st) := st.scanAcc [.ARROW_LEFT, .COLON, .NEWLINE] " "
  let endPos := st.peek.range.start
  (⟨trimJs citation, createRange startPos endPos⟩, st)

/-- `Parser.parseEvaluation()`. -/
def PState.parseEvaluation (st : PState) : Evaluation × PState :=
  let startPos := st.peek.range.start
  let (content, st) := st.scanAcc
    [.COLON, .AND, .OR, .RPAREN, .ARROW_RIGHT, .AT, .SEMICOLON, .NEWLINE] " "
  let endPos := st.peek.range.start
  (⟨trimJs content, createRange startPos endPos⟩, st)

/-- `Parser.parseEffect()`. -/
def PState.parseEffect (st : PState) : Effect × PState :=
  let startPos := st.peek.range.start
  let (_, st) := st.expectT .ARROW_RIGHT "効果には >> が必要です"
  let (content, st) := st.scanAcc [.NEWLINE] " "
  let endPos := st.peek.range.start
  (⟨trimJs content, createRange startPos endPos⟩, st)

/-- The name-scanning loop of `parseRequirement`: accumulate token values
with no separator, remembering the end position of the last consumed
token. -/
def scanReqNameF : Nat → PState → String → Position → String × Position × PState
  | 0, st, acc, lastEnd => (acc, lastEnd, st)
  | fuel + 1, st, acc, lastEnd =>
    if st.isAtEnd ∨ st.check .RPAREN ∨ st.check .NEWLINE then (acc, lastEnd, st)
    else
      let (t, st') := st.advanceT
      scanReqNameF fuel st' (acc ++ t.value) t.range.stop

/-- Entry point of the requirement-name scan. -/
def PState.scanReqName (st : PState) (lastEnd : Position) :
    String × Position × PState :=
  scanReqNameF st.restFuel st "" lastEnd

/-- The flat-fact scanning loop of `parseFact`: accumulate content text and
collect every `@evaluation` encountered, in order. -/
def flatFactScanF : Nat → PState → String → List Evaluation →
    String × List Evaluation × PState
  | 0, st, acc, evs => (acc, evs, st)
  | fuel + 1, st, acc, evs =>
    if st.isAtEnd ∨
       [TokenType.COLON, .AND, .OR, .RPAREN, .ARROW_RIGHT, .SEMICOLON,
        .NEWLINE].contains st.peek.type then
      (acc, evs, st)
    else if st.check .AT then
      let st := (st.advanceT).2
      let (ev, st) := st.parseEvaluation
      flatFactScanF fuel st acc (evs ++ [ev])
    else
      let (t, st') := st.advanceT
      flatFactScanF fuel st' (acc ++ t.value ++ " ") evs

/-- Entry point of the flat-fact scan. -/
def PState.flatFactScan (st : PState) : String × List Evaluation × PState :=
  flatFactScanF st.restFuel st "" []

/-- The `while (check AND || check OR)` loop of `parseReasons`: note the
source consumes the operator via `match(AND)` and then unconditionally
`advance()`s once more, so for `&` the first token of the next reason is
consumed as well. -/
def parseReasonsLoopF : Nat → PState → List Reason → List Reason × PState
  | 0, st, acc => (acc, st)
  | fuel + 1, st, acc =>
    if st.check .AND ∨ st.check .OR then
      let (isAnd, st) := st.matchT .AND
      let op : FactOp := if isAnd then .and else .or
      let st := (st.advanceT).2
      let reasonStart := st.peek.range.start
      let (reasonContent, st) := st.scanAcc [.AND, .OR, .RPAREN] " "
      parseReasonsLoopF fuel st
        (acc ++ [⟨trimJs reasonContent, some op,
                  createRange reasonStart st.peek.range.start⟩])
    else (acc, st)

/-- `Parser.parseReasons()`. -/
def PState.parseReasons (st : PState) : List Reason × PState :=
  let startPos := st.peek.range.start
  let (hasParen, st) := st.matchT .LPAREN
  if hasParen then
    let (content, st) := st.scanAcc [.AND, .OR, .RPAREN] " "
    let first : Reason :=
      ⟨trimJs content, none, createRange startPos st.peek.range.start⟩
    let (reasons, st) := parseReasonsLoopF st.restFuel st [first]
    let (_, st) := st.expectT .RPAREN "閉じ括弧 ) が必要です"
    (reasons, st)
  else
    let (content, st) := st.scanAcc [.IMPLIES, .NEWLINE] " "
    ([⟨trimJs content, none, createRange startPos st.peek.range.start⟩], st)

/-- The conclusion-marker prologue shared by `parseClaim`,
`parseRequirement` and `parseNorm`: `+` sets positive, else `!` sets
negative. -/
def PState.concludedMarker (st : PState) : Option Concluded × PState :=
  let (isPlus, st) := st.matchT .PLUS
  if isPlus then (some Concluded.positive, st)
  else
    let (isEx, st) := st.matchT .EXCLAIM
    ((if isEx then some Concluded.negative else none), st)

/-- The optional `^reference` step shared by `parseClaim` and
`parseNorm`. -/
def PState.optionalReference (st : PState) : Option Reference × PState :=
  let (hasCaret, st) := st.matchT .CARET
  if hasCaret then
    let (r, st) := st.parseReference
    (some r, st)
  else (none, st)

/-- The `if (this.check(DEDENT)) this.advance()` epilogue of every
indented block. -/
def PState.consumeDedent (st : PState) : PState :=
  if st.check .DEDENT then (st.advanceT).2 else st

/-- The outer-indentation effect step at the end of `parseClaim`
(`if (this.check(ARROW_RIGHT)) effect = this.parseEffect()`). -/
def PState.optionalEffect (st : PState) (eff : Option Effect) :
    Option Effect × PState :=
  if st.check .ARROW_RIGHT then
    let (e, st) := st.parseEffect
    (some e, st)
  else (eff, st)

/-- The optional `~> reasons` step of `parseIssue`. -/
def PState.optionalReasons (st : PState) : List Reason × PState :=
  let (hasTilde, st) := st.matchT .TILDE_ARROW
  if hasTilde then st.parseReasons else ([], st)

/-- The optional trailing `@evaluation` step of `parseCompoundFact`. -/
def PState.optionalEvaluation (st : PState) : Option Evaluation × PState :=
  let (hasAt, st) := st.matchT .AT
  if hasAt then
    let (e, st) := st.parseEvaluation
    (some e, st)
  else (none, st)

/-- The closing-bracket step of `parseRequirement`: if the name scan
stopped at a newline or at EOF, report the missing `)` anchored at the
opening bracket's position; otherwise consume the `)`. -/
def PState.closeBracket (st : PState) (openPos lastEnd : Position) : PState :=
  if st.check .NEWLINE || st.isAtEnd then
    st.addErrAt "閉じ括弧)が見つかりません" ⟨openPos, lastEnd⟩
  else (st.advanceT).2

/-! ## The recursive-descent core (`parser.ts`), driven by fuel

Each function consumes one unit of fuel on entry and hands the rest to
every callee and loop continuation; `none` means the budget ran out.
A later theorem shows a budget linear in the token count never runs out,
which is exactly the termination property of the source loops (every
iteration advances the cursor). -/

mutual

/-- `Parser.parseFact()`: a parenthesised compound fact or a flat scan
that keeps only the first of the collected evaluations. -/
def parseFact : Nat → PState → Option (Fact × PState)
  | 0, _ => none
  | fuel + 1, st =>
    let startPos := st.peek.range.start
    let (isL, st) := st.matchT .LPAREN
    if isL then parseCompoundFact fuel st startPos
    else
      let (content, evaluations, st) := st.flatFactScan
      let endPos := st.peek.range.start
      -- 最初の評価をmain evaluationとして使用（後方互換性）
      let mainEvaluation := evaluations.head?
      some (.mk (trimJs content) mainEvaluation none none
              (createRange startPos endPos), st)

/-- `Parser.parseCompoundFact(startPos)` (after the `(` is consumed). -/
def parseCompoundFact : Nat → PState → Position → Option (Fact × PState)
  | 0, _, _ => none
  | fuel + 1, st, startPos =>
    match parseFact fuel st with
    | none => none
    | some (c1, st) =>
      match cfLoop fuel st [c1] none with
      | none => none
      | some (children, operator, st) =>
        let (_, st) := st.expectT .RPAREN "閉じ括弧 ) が必要です"
        let (evaluation, st) := st.optionalEvaluation
        let endPos := st.peek.range.start
        some (.mk "" evaluation operator (some children)
                (createRange startPos endPos), st)

/-- The operator/operand loop of `parseCompoundFact`: the operator field is
overwritten by each operator token, so the last one consumed wins. -/
def cfLoop : Nat → PState → List Fact → Option FactOp →
    Option (List Fact × Option FactOp × PState)
  | 0, _, _, _ => none
  | fuel + 1, st, children, operator =>
    if st.check .AND then
      let st := (st.advanceT).2
      match parseFact fuel st with
      | none => none
      | some (c, st) => cfLoop fuel st (children ++ [c]) (some .and)
    else if st.check .OR then
      let st := (st.advanceT).2
      match parseFact fuel st with
      | none => none
      | some (c, st) => cfLoop fuel st (children ++ [c]) (some .or)
    else some (children, operator, st)

end

/-- The `if (this.match(ARROW_LEFT)) fact = this.parseFact()` idiom shared
by `parseClaim`, `parseRequirement`, `parseNorm` and
`parseConstantReference`: optionally parse a fact after `<=`, keeping the
given default otherwise. -/
def arrowFactOpt (fuel : Nat) (st : PState) (dflt : Option Fact) :
    Option (Option Fact × PState) :=
  let (hasArrow, st) := st.matchT .ARROW_LEFT
  if hasArrow then
    match parseFact fuel st with
    | none => none
    | some (f, st) => some (some f, st)
  else some (dflt, st)

/-- The tail of `parseNorm`: the optional `as name` constant definition
(with its optional trailing `<= fact`), the unconditional synchronous
registration into the constants map, and the construction of the returned
Norm node. -/
def normFinish (fuel : Nat) (st : PState) (startPos : Position)
    (concluded : Option Concluded) (content : String)
    (reference : Option Reference) (subNorm : Option Norm)
    (fact : Option Fact) : Option (Norm × PState) :=
  let (hasAs, st) := st.matchT .AS
  if hasAs then
    let (constName, st) := st.scanAcc [.ARROW_LEFT, .NEWLINE] " "
    let constantDefinition := trimJs constName
    match arrowFactOpt fuel st fact with
    | none => none
    | some (fact, st) =>
      -- 定数を登録（同名の既存定義は上書き）
      let regRange := createRange startPos st.peek.range.start
      let regNorm : Norm :=
        .mk concluded content reference subNorm fact none none none regRange
      let newConstants := mapSet st.constants constantDefinition
        ⟨constantDefinition, regNorm, regRange⟩
      let st := { st with constants := newConstants }
      let endPos := st.peek.range.start
      some (.mk concluded content reference subNorm fact none
              (some constantDefinition) none (createRange startPos endPos), st)
  else
    let endPos := st.peek.range.start
    some (.mk concluded content reference subNorm fact none none none
            (createRange startPos endPos), st)

/-- `Parser.parseConstantReference(startPos, concluded)`: the `$name`
production; the map is consulted as currently populated. -/
def parseConstantReference : Nat → PState → Position → Option Concluded →
    Option (Norm × PState)
  | 0, _, _, _ => none
  | fuel + 1, st, startPos, concluded =>
    let (constNameRaw, st) := st.scanAcc
      [.ARROW_LEFT, .COLON, .SEMICOLON, .NEWLINE] " "
    let constName := trimJs constNameRaw
    let (content, reference, st) :=
      match mapGet st.constants constName with
      | some constDef => (constDef.value.content, constDef.value.reference, st)
      | none =>
        (constName, (none : Option Reference),
         st.addErr ("定数 " ++ constName ++ " が定義されていません"))
    match arrowFactOpt fuel st none with
    | none => none
    | some (fact, st) =>
      let endPos := st.peek.range.start
      some (.mk concluded content reference none fact none none (some constName)
              (createRange startPos endPos), st)

/-- `Parser.parseNorm()`. -/
def parseNorm : Nat → PState → Option (Norm × PState)
  | 0, _ => none
  | fuel + 1, st =>
    let startPos := st.peek.range.start
    let (concluded, st) := st.concludedMarker
    let (isDollar, st) := st.matchT .DOLLAR
    if isDollar then parseConstantReference fuel st startPos concluded
    else
      let (_, st) := st.expectT .PERCENT "規範には % が必要です"
      let (content, st) := st.scanAcc
        [.CARET, .ARROW_LEFT, .COLON, .AS, .SEMICOLON, .NEWLINE] " "
      let content := trimJs content
      let (reference, st) := st.optionalReference
      let (hasColon, st) := st.matchT .COLON
      match (if hasColon then
               if st.check .PERCENT || st.check .PLUS || st.check .EXCLAIM then
                 match parseNorm fuel st with
                 | none => none
                 | some (sn, st) =>
                   -- 下位規範のあてはめを引き継ぐ（`fact` is still unset here)
                   some ((some sn : Option Norm), sn.fact, st)
               else some ((none : Option Norm), (none : Option Fact), st)
             else some ((none : Option Norm), (none : Option Fact), st)) with
      | none => none
      | some (subNorm, fact, st) =>
        match arrowFactOpt fuel st fact with
        | none => none
        | some (fact, st) =>
          normFinish fuel st startPos concluded content reference subNorm fact

/-- The inline compound step of `parseRequirement`:
`(name): %norm` / `(name): $const` / `(name): <= fact` / `(name) <= fact`. -/
def reqInlineCompound (fuel : Nat) (st : PState) :
    Option (Option Norm × Option Fact × PState) :=
  let (hasColon, st) := st.matchT .COLON
  if hasColon then
    if st.check .PERCENT || st.check .DOLLAR ||
       st.check .PLUS || st.check .EXCLAIM then
      match parseNorm fuel st with
      | none => none
      | some (n, st) => some (some n, n.fact, st)
    else
      match arrowFactOpt fuel st none with
      | none => none
      | some (f, st) => some (none, f, st)
  else
    match arrowFactOpt fuel st none with
    | none => none
    | some (f, st) => some (none, f, st)

/-- The four mutually recursive requirement-parsing methods at one fuel
level, bundled so that the recursion (in `reqFns`) is on the fuel alone. -/
structure ReqFns where
  req : PState → Option (Requirement × PState)
  reqLoop : PState → Option Fact → List Requirement → List ReasonStatement →
    Option (Option Fact × List Requirement × List ReasonStatement × PState)
  nar : PState → Option (Requirement × PState)
  narLoop : PState → Norm → List Requirement → List ReasonStatement →
    Option (Norm × List Requirement × List ReasonStatement × PState)

/-- The body of `Parser.parseRequirement()`; `p` holds the group's methods
at the next smaller fuel level. -/
def parseRequirementB (fuel : Nat) (p : ReqFns) (st : PState) :
    Option (Requirement × PState) :=
  let startPos := st.peek.range.start
  let (concluded, st) := st.concludedMarker
  let (openBracket, st) := st.expectT .LPAREN "要件には(が必要です"
  let openBracketPos := openBracket.range.start
  let (name, lastTokenEnd, st) := st.scanReqName openBracket.range.stop
  let st := st.closeBracket openBracketPos lastTokenEnd
  match reqInlineCompound fuel st with
  | none => none
  | some (norm, fact, st) =>
    let st := st.skipNewlines
    match (if st.check .INDENT then
             let st := (st.advanceT).2
             match p.reqLoop st fact [] [] with
             | none => none
             | some (fact, subs, rss, st) => some (fact, subs, rss, st.consumeDedent)
           else
             some (fact, ([] : List Requirement),
                   ([] : List ReasonStatement), st)) with
    | none => none
    | some (fact, subRequirements, reasonStatements, st) =>
      let endPos := st.peek.range.start
      some (⟨concluded, name, norm, fact,
             (if subRequirements.isEmpty then none else some subRequirements),
             none,
             (if reasonStatements.isEmpty then none else some reasonStatements),
             createRange startPos endPos⟩, st)

/-- The body of the indented sub-block loop of `parseRequirement`; a bare
`<= fact` inside it overwrites the requirement's current fact. -/
def reqLoopB (fuel : Nat) (p : ReqFns) (st : PState) (fact : Option Fact)
    (subs : List Requirement) (rss : List ReasonStatement) :
    Option (Option Fact × List Requirement × List ReasonStatement × PState) :=
  if st.isAtEnd || st.check .DEDENT then some (fact, subs, rss, st)
  else if st.check .PERCENT || st.check .DOLLAR ||
          (st.check .PLUS && ((st.peekN 1).type == .PERCENT || (st.peekN 1).type == .DOLLAR)) ||
          (st.check .EXCLAIM && ((st.peekN 1).type == .PERCENT || (st.peekN 1).type == .DOLLAR)) then
    match p.nar st with
    | none => none
    | some (r, st) => p.reqLoop st fact (subs ++ [r]) rss
  else if st.check .LPAREN ||
          (st.check .PLUS && (st.peekN 1).type == .LPAREN) ||
          (st.check .EXCLAIM && (st.peekN 1).type == .LPAREN) then
    match p.req st with
    | none => none
    | some (r, st) => p.reqLoop st fact (subs ++ [r]) rss
  else if st.check .ARROW_LEFT then
    let st := (st.advanceT).2
    match parseFact fuel st with
    | none => none
    | some (f, st) => p.reqLoop st (some f) subs rss
  else if st.check .SEMICOLON then
    let (r, st) := st.parseReasonStatement
    p.reqLoop st fact subs (rss ++ [r])
  else if st.check .NEWLINE then p.reqLoop (st.advanceT).2 fact subs rss
  else if st.check .COMMENT then p.reqLoop (st.advanceT).2 fact subs rss
  else some (fact, subs, rss, st)

/-- The body of `Parser.parseNormAsRequirement()`. -/
def parseNormAsRequirementB (fuel : Nat) (p : ReqFns) (st : PState) :
    Option (Requirement × PState) :=
  let startPos := st.peek.range.start
  match parseNorm fuel st with
  | none => none
  | some (norm, st) =>
    let st := st.skipNewlines
    match (if st.check .INDENT then
             let st := (st.advanceT).2
             match p.narLoop st norm [] [] with
             | none => none
             | some (norm, subs, rss, st) => some (norm, subs, rss, st.consumeDedent)
           else
             some (norm, ([] : List Requirement),
                   ([] : List ReasonStatement), st)) with
    | none => none
    | some (norm, subRequirements, reasonStatements, st) =>
      let endPos := st.peek.range.start
      some (⟨norm.concluded, norm.content, some norm, norm.fact,
             (if subRequirements.isEmpty then none else some subRequirements),
             none,
             (if reasonStatements.isEmpty then none else some reasonStatements),
             createRange startPos endPos⟩, st)

/-- The body of the indented sub-block loop of `parseNormAsRequirement`;
a bare `<= fact` inside it updates the norm's fact in place. -/
def narLoopB (fuel : Nat) (p : ReqFns) (st : PState) (norm : Norm)
    (subs : List Requirement) (rss : List ReasonStatement) :
    Option (Norm × List Requirement × List ReasonStatement × PState) :=
  if st.isAtEnd || st.check .DEDENT then some (norm, subs, rss, st)
  else if st.check .PERCENT || st.check .DOLLAR ||
          (st.check .PLUS && ((st.peekN 1).type == .PERCENT || (st.peekN 1).type == .DOLLAR)) ||
          (st.check .EXCLAIM && ((st.peekN 1).type == .PERCENT || (st.peekN 1).type == .DOLLAR)) then
    match p.nar st with
    | none => none
    | some (r, st) => p.narLoop st norm (subs ++ [r]) rss
  else if st.check .LPAREN ||
          (st.check .PLUS && (st.peekN 1).type == .LPAREN) ||
          (st.check .EXCLAIM && (st.peekN 1).type == .LPAREN) then
    match p.req st with
    | none => none
    | some (r, st) => p.narLoop st norm (subs ++ [r]) rss
  else if st.check .ARROW_LEFT then
    let st := (st.advanceT).2
    match parseFact fuel st with
    | none => none
    | some (f, st) => p.narLoop st (norm.setFact (some f)) subs rss
  else if st.check .SEMICOLON then
    let (r, st) := st.parseReasonStatement
    p.narLoop st norm subs (rss ++ [r])
  else if st.check .NEWLINE then p.narLoop (st.advanceT).2 norm subs rss
  else if st.check .COMMENT then p.narLoop (st.advanceT).2 norm subs rss
  else some (norm, subs, rss, st)

/-- The fuelled fixpoint of the four-method requirement-parsing group:
with zero fuel every method fails, and at `fuel + 1` each body may call
any of the methods at `fuel`. -/
def reqFns (fuel : Nat) : ReqFns :=
  Nat.rec
    ⟨fun _ => none, fun _ _ _ _ => none, fun _ => none, fun _ _ _ _ => none⟩
    (fun fuel p =>
      ⟨parseRequirementB fuel p, reqLoopB fuel p,
       parseNormAsRequirementB fuel p, narLoopB fuel p⟩)
    fuel

/-- `Parser.parseRequirement()`. -/
def parseRequirement (fuel : Nat) (st : PState) :
    Option (Requirement × PState) := (reqFns fuel).req st

/-- The indented sub-block loop of `parseRequirement`. -/
def reqLoop (fuel : Nat) (st : PState) (fact : Option Fact)
    (subs : List Requirement) (rss : List ReasonStatement) :
    Option (Option Fact × List Requirement × List ReasonStatement × PState) :=
  (reqFns fuel).reqLoop st fact subs rss

/-- `Parser.parseNormAsRequirement()`. -/
def parseNormAsRequirement (fuel : Nat) (st : PState) :
    Option (Requirement × PState) := (reqFns fuel).nar st

/-- The indented sub-block loop of `parseNormAsRequirement`. -/
def narLoop (fuel : Nat) (st : PState) (norm : Norm)
    (subs : List Requirement) (rss : List ReasonStatement) :
    Option (Norm × List Requirement × List ReasonStatement × PState) :=
  (reqFns fuel).narLoop st norm subs rss

/-- The indented sub-block loop of `parseIssue`: its entries become the
norm's own sub-requirements (mutating the already-built Norm). -/
def issueLoop : Nat → PState → Norm → Option (Norm × PState)
  | 0, _, _ => none
  | fuel + 1, st, norm =>
    if st.isAtEnd || st.check .DEDENT then some (norm, st)
    else if st.check .PERCENT || st.check .PLUS || st.check .EXCLAIM then
      match parseNormAsRequirement fuel st with
      | none => none
      | some (r, st) => issueLoop fuel st (norm.pushSubRequirement r)
    else if st.check .NEWLINE then issueLoop fuel (st.advanceT).2 norm
    else some (norm, st)

/-- `Parser.parseIssue()`. -/
def parseIssue : Nat → PState → Option (Issue × PState)
  | 0, _ => none
  | fuel + 1, st =>
    let startPos := st.peek.range.start
    let (_, st) := st.expectT .QUESTION "論点には ? が必要です"
    let (question, st) := st.scanAcc [.TILDE_ARROW, .IMPLIES, .NEWLINE] " "
    let question := trimJs question
    let (reasons, st) := st.optionalReasons
    let (_, st) := st.expectT .IMPLIES "論点には => が必要です"
    match parseNorm fuel st with
    | none => none
    | some (norm, st) =>
      let st := st.skipNewlines
      match (if st.check .INDENT then
               let st := (st.advanceT).2
               match issueLoop fuel st norm with
               | none => none
               | some (norm, st) => some (norm, st.consumeDedent)
             else some (norm, st)) with
      | none => none
      | some (norm, st) =>
        let endPos := st.peek.range.start
        some (⟨question, (if reasons.isEmpty then none else some reasons), norm,
               createRange startPos endPos⟩, st)

/-- `Parser.parseIssueAsRequirement()`. -/
def parseIssueAsRequirement : Nat → PState → Option (Requirement × PState)
  | 0, _ => none
  | fuel + 1, st =>
    let startPos := st.peek.range.start
    match parseIssue fuel st with
    | none => none
    | some (issue, st) =>
      let endPos := st.peek.range.start
      some (⟨issue.norm.concluded, issue.question, none, none, none,
             some issue, none, createRange startPos endPos⟩, st)

/-- The indented-body loop of `parseClaim`. -/
def claimLoop : Nat → PState → List Requirement → List ReasonStatement →
    Option Effect → Option (List Requirement × List ReasonStatement × Option Effect × PState)
  | 0, _, _, _, _ => none
  | fuel + 1, st, reqs, rss, eff =>
    if st.isAtEnd || st.check .DEDENT then some (reqs, rss, eff, st)
    else if st.check .LPAREN then
      match parseRequirement fuel st with
      | none => none
      | some (r, st) => claimLoop fuel st (reqs ++ [r]) rss eff
    else if st.check .PERCENT || st.check .DOLLAR ||
            (st.check .PLUS && ((st.peekN 1).type == .PERCENT || (st.peekN 1).type == .DOLLAR)) ||
            (st.check .PLUS && (st.peekN 1).type == .LPAREN) ||
            (st.check .EXCLAIM && ((st.peekN 1).type == .PERCENT || (st.peekN 1).type == .DOLLAR)) ||
            (st.check .EXCLAIM && (st.peekN 1).type == .LPAREN) then
      if (st.peekN 1).type == .LPAREN then
        match parseRequirement fuel st with
        | none => none
        | some (r, st) => claimLoop fuel st (reqs ++ [r]) rss eff
      else
        match parseNormAsRequirement fuel st with
        | none => none
        | some (r, st) => claimLoop fuel st (reqs ++ [r]) rss eff
    else if st.check .PLUS || st.check .EXCLAIM then
      match parseNormAsRequirement fuel st with
      | none => none
      | some (r, st) => claimLoop fuel st (reqs ++ [r]) rss eff
    else if st.check .QUESTION then
      match parseIssueAsRequirement fuel st with
      | none => none
      | some (r, st) => claimLoop fuel st (reqs ++ [r]) rss eff
    else if st.check .ARROW_RIGHT then
      let (e, st) := st.parseEffect
      claimLoop fuel st reqs rss (some e)
    else if st.check .SEMICOLON then
      let (r, st) := st.parseReasonStatement
      claimLoop fuel st reqs (rss ++ [r]) eff
    else if st.check .NEWLINE then claimLoop fuel (st.advanceT).2 reqs rss eff
    else if st.check .COMMENT then claimLoop fuel (st.advanceT).2 reqs rss eff
    else some (reqs, rss, eff, st)

/-- `Parser.parseClaim()`. -/
def parseClaim : Nat → PState → Option (Claim × PState)
  | 0, _ => none
  | fuel + 1, st =>
    let startPos := st.peek.range.start
    let (concluded, st) := st.concludedMarker
    let (_, st) := st.expectT .HASH "主張には # が必要です"
    let (name, st) := st.scanAcc [.CARET, .ARROW_LEFT, .COLON, .NEWLINE] " "
    let name := trimJs name
    let (reference, st) := st.optionalReference
    match arrowFactOpt fuel st none with
    | none => none
    | some (fact, st) =>
      let (hasReq, st) := st.matchT .COLON
      let st := st.skipNewlines
      match (if hasReq && st.check .INDENT then
               let st := (st.advanceT).2
               match claimLoop fuel st [] [] none with
               | none => none
               | some (reqs, rss, eff, st) => some (reqs, rss, eff, st.consumeDedent)
             else
               some (([] : List Requirement), ([] : List ReasonStatement),
                     (none : Option Effect), st)) with
      | none => none
      | some (requirements, reasonStatements, effect, st) =>
        let (effect, st) := st.optionalEffect effect
        let endPos := st.peek.range.start
        some (⟨concluded, name, reference, fact, requirements, effect,
               (if reasonStatements.isEmpty then none else some reasonStatements),
               createRange startPos endPos⟩, st)

/-- The child loop of `parseNamespace`. -/
def nsLoop : Nat → PState → List NsChild → Option (List NsChild × PState)
  | 0, _, _ => none
  | fuel + 1, st, acc =>
    if st.isAtEnd || st.check .DEDENT then some (acc, st)
    else if st.check .COMMENT then
      let (c, st) := st.parseComment
      nsLoop fuel st (acc ++ [.comment c])
    else if st.check .HASH || st.check .PLUS || st.check .EXCLAIM then
      match parseClaim fuel st with
      | none => none
      | some (c, st) => nsLoop fuel st (acc ++ [.claim c])
    else if st.check .NEWLINE then nsLoop fuel (st.advanceT).2 acc
    else some (acc, st)

/-- `Parser.parseNamespace()`. -/
def parseNamespace : Nat → PState → Option (Namespace × PState)
  | 0, _ => none
  | fuel + 1, st =>
    let (startToken, st) := st.advanceT
    let startPos := startToken.range.start
    let (name, st) := st.scanAcc [.NEWLINE] " "
    let name := trimJs name
    let st := st.skipNewlines
    if st.check .INDENT then
      let st := (st.advanceT).2
      match nsLoop fuel st [] with
      | none => none
      | some (children, st) =>
        let st := st.consumeDedent
        let endPos := st.peek.range.start
        some (⟨name, children, createRange startPos endPos⟩, st)
    else
      let endPos := st.peek.range.start
      some (⟨name, [], createRange startPos endPos⟩, st)

/-- The `while (!this.isAtEnd())` dispatch loop of `parseDocument`. -/
def docLoop : Nat → PState → List DocChild → Option (List DocChild × PState)
  | 0, _, _ => none
  | fuel + 1, st, acc =>
    if st.isAtEnd then some (acc, st)
    else if st.check .DOUBLE_COLON then
      match parseNamespace fuel st with
      | none => none
      | some (n, st) => docLoop fuel st (acc ++ [.ns n])
    else if st.check .COMMENT then
      let (c, st) := st.parseComment
      docLoop fuel st (acc ++ [.comment c])
    else if st.check .HASH || st.check .PLUS || st.check .EXCLAIM then
      match parseClaim fuel st with
      | none => none
      | some (c, st) => docLoop fuel st (acc ++ [.claim c])
    else if st.check .NEWLINE then
      docLoop fuel (st.advanceT).2 acc
    else if st.check .SEMICOLON then
      let (_, st) := st.parseReasonStatement
      docLoop fuel st acc
    else if st.check .INDENT then
      let st := st.addErr "インデントされた内容は主張（#）または名前空間（::）の内部に記述してください"
      docLoop fuel st.skipOrphanedIndentedBlock acc
    else if st.check .LPAREN then
      docLoop fuel ((st.addErr "要件()は主張（#）の内部に記述してください").skipUntilNewline) acc
    else if st.check .PERCENT then
      docLoop fuel ((st.addErr "規範（%）は主張（#）の内部に記述してください").skipUntilNewline) acc
    else if st.check .QUESTION then
      docLoop fuel ((st.addErr "論点（?）は主張（#）の内部に記述してください").skipUntilNewline) acc
    else if st.check .ARROW_RIGHT then
      docLoop fuel ((st.addErr "効果（>>）は主張（#）の後に記述してください").skipUntilNewline) acc
    else
      docLoop fuel (((st.addErr ("予期しないトークン: " ++ st.peek.type.toName)).advanceT).2) acc

/-- `Parser.parseDocument()` (header and footer; the dispatch loop is
`docLoop`). -/
def parseDocument : Nat → PState → Option (Document × PState)
  | 0, _ => none
  | fuel + 1, st =>
    let startPos := st.peek.range.start
    let st := st.skipNewlines
    match docLoop fuel st [] with
    | none => none
    | some (children, st) =>
      let endPos := st.peek.range.stop
      some (⟨children, st.constants, createRange startPos endPos⟩, st)

/-- The fuel budget used by `parseOpt`: linear in the token count, and
provably sufficient. -/
def parserFuel (tokens : List Token) : Nat := 16 * tokens.length + 16

/-- `Parser.parse()` / the module-level `parse(source)` convenience
function, with the fuel budget made explicit: `none` would mean the budget
ran out (the sufficiency theorem shows it never does). -/
def parseOpt (source : String) : Option ParseResult :=
  let (tokens, lexerErrors) := tokenize source
  let st : PState := ⟨tokens, 0,
    lexerErrors.map (fun e => (⟨e.message, e.range⟩ : ParseError)), []⟩
  (parseDocument (parserFuel tokens) st).map (fun p => ⟨p.1, p.2.errors⟩)

/-- The (never used) fallback result for `parse`. -/
def emptyParseResult : ParseResult :=
  ⟨⟨[], [], ⟨⟨0, 0, 0⟩, ⟨0, 0, 0⟩⟩⟩, []⟩

/-- `parse(source)`: the total entry point. -/
def parse (source : String) : ParseResult :=
  (parseOpt source).getD emptyParseResult

/-! ## Specification predicates -/

/-- The token array ends in an EOF token (true of every `tokenize` output;
the parser's clamping `peek` relies on it). -/
def LastEOF (ts : List Token) : Prop :=
  ts.getLast?.map Token.type = some TokenType.EOF

/-- Well-formed parser state: EOF-terminated token array and in-range
cursor. -/
def Wf (st : PState) : Prop :=
  LastEOF st.tokens ∧ st.pos < st.tokens.length

/-- What every parser step guarantees: the token array is untouched, the
cursor never moves backwards, errors are only appended, and
well-formedness is preserved. -/
def ExtOk (st st' : PState) : Prop :=
  st'.tokens = st.tokens ∧ st.pos ≤ st'.pos ∧
  (∃ t, st'.errors = st.errors ++ t) ∧ (Wf st → Wf st')

/-- What the pure scanning loops additionally guarantee: they touch
neither the error list nor the constants map. -/
def ScanOk (st st' : PState) : Prop :=
  st'.tokens = st.tokens ∧ st.pos ≤ st'.pos ∧
  st'.errors = st.errors ∧ st'.constants = st.constants ∧ (Wf st → Wf st')

/-- The remaining-token measure that bounds all parser loops. -/
def pm (st : PState) : Nat := st.tokens.length - st.pos

/-- Number of INDENT tokens in a token list. -/
def cntI (ts : List Token) : Nat := ts.countP (fun t => t.type == .INDENT)

/-- Number of DEDENT tokens in a token list. -/
def cntD (ts : List Token) : Nat := ts.countP (fun t => t.type == .DEDENT)

/-- Number of EOF tokens in a token list. -/
def cntE (ts : List Token) : Nat := ts.countP (fun t => t.type == .EOF)

/-- The lexer's running indentation invariant: the indent stack is never
empty, the INDENT surplus equals the number of still-open levels, every
prefix has at least as many INDENTs as DEDENTs, and no EOF has been
emitted yet. -/
def LexInv (ts : List Token) (stack : List Nat) : Prop :=
  1 ≤ stack.length ∧
  cntI ts = cntD ts + (stack.length - 1) ∧
  (∀ k, cntD (ts.take k) ≤ cntI (ts.take k)) ∧
  cntE ts = 0

/-! ## Helpers for stating the verified claims -/

/-- The first top-level `Claim` of a parse result. -/
def firstClaim (r : ParseResult) : Option Claim :=
  r.document.children.findSome? fun c => match c with
    | .claim c => some c
    | _ => none

/-- A fresh parser state over the tokens of a source string, as `parseOpt`
builds it (here without lexer errors). -/
def initSt (source : String) : PState := ⟨(tokenize source).1, 0, [], []⟩

/-- Fallback `Norm` used to read off concrete parser runs. -/
def dfltNorm : Norm :=
  .mk none "" none none none none none none ⟨⟨0, 0, 0⟩, ⟨0, 0, 0⟩⟩

/-- Fallback `Fact` used to read off concrete parser runs. -/
def dfltFact : Fact := .mk "" none none none ⟨⟨0, 0, 0⟩, ⟨0, 0, 0⟩⟩

/-- Fallback `Requirement` used to read off concrete parser runs. -/
def dfltReq : Requirement :=
  .mk none "" none none none none none ⟨⟨0, 0, 0⟩, ⟨0, 0, 0⟩⟩

/-- Fallback parser state used to read off concrete parser runs. -/
def dfltPSt : PState := ⟨[], 0, [], []⟩

/-- A parser state sitting on its EOF token. -/
def eofSt : PState := ⟨[dummyToken], 0, [], []⟩

/-- A parser state sitting on a TEXT token (matched by no production). -/
def textSt : PState :=
  ⟨[⟨.TEXT, "a", ⟨⟨0, 0, 0⟩, ⟨0, 0, 1⟩⟩⟩, dummyToken], 0, [], []⟩

/-- A parser state sitting on an AND operator token. -/
def andSt : PState :=
  ⟨[⟨.AND, "&", ⟨⟨0, 0, 0⟩, ⟨0, 0, 1⟩⟩⟩, dummyToken], 0, [], []⟩

/-- A concrete `parseNormAsRequirement` run on the norm `%x`. -/
def narWitPair : Requirement × PState :=
  (parseNormAsRequirement 16 (initSt "%x")).getD (dfltReq, dfltPSt)

/-- A concrete `parseConstantReference` run on the undefined constant `C`. -/
def crWitPair : Norm × PState :=
  (parseConstantReference 8 (initSt "C") ⟨0, 0, 0⟩ none).getD (dfltNorm, dfltPSt)

/-- A concrete flat `parseFact` run on `x @e`. -/
def ffWitPair : Fact × PState :=
  (parseFact 8 (initSt "x @e")).getD (dfltFact, dfltPSt)

/-- A lexer state at the start of an indentation-only line followed by a
newline. -/
def c7WitSt : LexState := ⟨"  \nx".data, 0, 0, 0, [], [], [0], true⟩

/-- A token matched by no top-level production of `docLoop`: its type is
none of the dispatched kinds and not EOF, so only the fallback branch of
the document loop can consume it. -/
def isMalformed (t : Token) : Bool :=
  !(t.type == .DOUBLE_COLON || t.type == .COMMENT || t.type == .HASH ||
    t.type == .PLUS || t.type == .EXCLAIM || t.type == .NEWLINE ||
    t.type == .SEMICOLON || t.type == .INDENT || t.type == .LPAREN ||
    t.type == .PERCENT || t.type == .QUESTION || t.type == .ARROW_RIGHT ||
    t.type == .EOF)

/-! ## Primitive-step lemmas -/

theorem ExtOk.refl (st : PState) : ExtOk st st :=
  ⟨Eq.refl _, le_refl _, ⟨[], by simp⟩, id⟩

theorem ExtOk.trans {a b c : PState} (h1 : ExtOk a b) (h2 : ExtOk b c) :
    ExtOk a c := by
  obtain ⟨t1, he1⟩ := h1.2.2.1
  obtain ⟨t2, he2⟩ := h2.2.2.1
  exact ⟨h2.1.trans h1.1, h1.2.1.trans h2.2.1,
    ⟨t1 ++ t2, by simp [he2, he1]⟩, fun w => h2.2.2.2 (h1.2.2.2 w)⟩

theorem ScanOk.toExtOk {a b : PState} (h : ScanOk a b) : ExtOk a b :=
  ⟨h.1, h.2.1, ⟨[], by simp [h.2.2.1]⟩, h.2.2.2.2⟩

theorem ScanOk.refl' (st : PState) : ScanOk st st :=
  ⟨Eq.refl _, le_refl _, Eq.refl _, Eq.refl _, id⟩

theorem ScanOk.trans' {a b c : PState} (h1 : ScanOk a b) (h2 : ScanOk b c) :
    ScanOk a c :=
  ⟨h2.1.trans h1.1, h1.2.1.trans h2.2.1, h2.2.2.1.trans h1.2.2.1,
   h2.2.2.2.1.trans h1.2.2.2.1, fun w => h2.2.2.2.2 (h1.2.2.2.2 w)⟩

theorem peek_congr {a b : PState} (ht : b.tokens = a.tokens)
    (hp : b.pos = a.pos) : b.peek = a.peek := by
  simp [PState.peek, PState.peekN, ht, hp]

theorem check_iff {st : PState} {t : TokenType} :
    st.check t = true ↔ st.peek.type = t := by
  simp [PState.check]

theorem isAtEnd_iff {st : PState} :
    st.isAtEnd = true ↔ st.peek.type = .EOF := by
  simp [PState.isAtEnd]

theorem check_congr {a b : PState} (ht : b.tokens = a.tokens)
    (hp : b.pos = a.pos) (t : TokenType) : b.check t = a.check t := by
  simp [PState.check, peek_congr ht hp]

theorem isAtEnd_congr {a b : PState} (ht : b.tokens = a.tokens)
    (hp : b.pos = a.pos) : b.isAtEnd = a.isAtEnd := by
  simp [PState.isAtEnd, peek_congr ht hp]

theorem peek_of_wf {st : PState} (h : Wf st) :
    st.peek = st.tokens.getD st.pos dummyToken := by
  simp [PState.peek, PState.peekN, h.2]

/-- Under well-formedness, a non-EOF cursor is not on the last token. -/
theorem wf_succ {st : PState} (h : Wf st) (he : st.isAtEnd = false) :
    st.pos + 1 < st.tokens.length := by
  by_contra hc
  have hp : st.pos < st.tokens.length := h.2
  have hpos : st.pos = st.tokens.length - 1 := by omega
  have h1 := h.1
  rw [LastEOF, List.getLast?_eq_getElem?, Option.map_eq_some'] at h1
  obtain ⟨t, hget, htype⟩ := h1
  have hpe : st.peek = t := by
    rw [peek_of_wf h, List.getD_eq_getElem?_getD, hpos, hget]
    rfl
  have : st.isAtEnd = true := isAtEnd_iff.mpr (by rw [hpe, htype])
  rw [this] at he
  exact absurd he (by simp)

theorem advanceT_of_atEnd {st : PState} (h : st.isAtEnd = true) :
    st.advanceT = (st.peek, st) := by
  simp [PState.advanceT, h]

theorem advanceT_of_not_atEnd {st : PState} (h : st.isAtEnd = false) :
    st.advanceT = (st.peek, { st with pos := st.pos + 1 }) := by
  simp [PState.advanceT, h]

theorem advanceT_scanOk (st : PState) : ScanOk st (st.advanceT).2 := by
  by_cases h : st.isAtEnd = true
  · rw [advanceT_of_atEnd h]; exact ScanOk.refl' st
  · rw [advanceT_of_not_atEnd (by simpa using h)]
    refine ⟨rfl, by simp, rfl, rfl, fun w => ⟨w.1, ?_⟩⟩
    exact wf_succ w (by simpa using h)

theorem advanceT_strict {st : PState} (h : st.isAtEnd = false) :
    st.pos < ((st.advanceT).2).pos := by
  rw [advanceT_of_not_atEnd h]; simp

theorem matchT_of_check {st : PState} {t : TokenType} (h : st.check t = true) :
    st.matchT t = (true, (st.advanceT).2) := by
  simp [PState.matchT, h]

theorem matchT_of_not_check {st : PState} {t : TokenType}
    (h : st.check t = false) : st.matchT t = (false, st) := by
  simp [PState.matchT, h]

theorem matchT_scanOk (st : PState) (t : TokenType) :
    ScanOk st (st.matchT t).2 := by
  by_cases h : st.check t = true
  · rw [matchT_of_check h]; exact advanceT_scanOk st
  · rw [matchT_of_not_check (by simpa using h)]; exact ScanOk.refl' st

theorem check_not_atEnd {st : PState} {t : TokenType} (h : st.check t = true)
    (ht : t ≠ .EOF) : st.isAtEnd = false := by
  rcases Bool.eq_false_or_eq_true st.isAtEnd with htr | hf
  · have h1 : st.peek.type = t := check_iff.mp h
    have h2 : st.peek.type = .EOF := isAtEnd_iff.mp htr
    exact absurd (h1.symm.trans h2) ht
  · exact hf

theorem matchT_strict {st : PState} {t : TokenType} (h : st.check t = true)
    (ht : t ≠ .EOF) : st.pos < ((st.matchT t).2).pos := by
  rw [matchT_of_check h]
  exact advanceT_strict (check_not_atEnd h ht)

theorem addErr_scan (st : PState) (msg : String) :
    (st.addErr msg).tokens = st.tokens ∧ (st.addErr msg).pos = st.pos ∧
    (st.addErr msg).constants = st.constants ∧
    (st.addErr msg).errors = st.errors ++ [⟨msg, st.peek.range⟩] := by
  simp [PState.addErr]

theorem addErr_extOk (st : PState) (msg : String) : ExtOk st (st.addErr msg) := by
  refine ⟨rfl, le_refl _, ⟨[⟨msg, st.peek.range⟩], rfl⟩, fun w => ?_⟩
  exact ⟨w.1, w.2⟩

theorem addErrAt_extOk (st : PState) (msg : String) (r : Range) :
    ExtOk st (st.addErrAt msg r) := by
  refine ⟨rfl, le_refl _, ⟨[⟨msg, r⟩], rfl⟩, fun w => ⟨w.1, w.2⟩⟩

theorem expectT_of_check {st : PState} {t : TokenType} {msg : String}
    (h : st.check t = true) : st.expectT t msg = st.advanceT := by
  simp [PState.expectT, h]

theorem expectT_of_not_check {st : PState} {t : TokenType} {msg : String}
    (h : st.check t = false) : st.expectT t msg = (st.peek, st.addErr msg) := by
  simp [PState.expectT, h]

theorem expectT_extOk (st : PState) (t : TokenType) (msg : String) :
    ExtOk st ((st.expectT t msg)).2 := by
  by_cases h : st.check t = true
  · rw [expectT_of_check h]; exact (advanceT_scanOk st).toExtOk
  · rw [expectT_of_not_check (by simpa using h)]
    exact addErr_extOk st msg

theorem expectT_strict {st : PState} {t : TokenType} {msg : String}
    (h : st.check t = true) (ht : t ≠ .EOF) :
    st.pos < ((st.expectT t msg)).2.pos := by
  rw [expectT_of_check h]
  have := matchT_strict h ht
  rwa [matchT_of_check h] at this

/-! ## Scan-loop lemmas -/

theorem restFuel_succ {st : PState} (h : Wf st) : ∃ k, st.restFuel = k + 1 := by
  have := h.2
  exact ⟨st.tokens.length - st.pos, by unfold PState.restFuel; omega⟩

theorem skipNewlinesF_scanOk (fuel : Nat) (st : PState) :
    ScanOk st (skipNewlinesF fuel st) := by
  induction fuel generalizing st with
  | zero => exact ScanOk.refl' st
  | succ fuel ih =>
    rw [skipNewlinesF]
    by_cases h : st.check .NEWLINE = true
    · simp only [h, if_true]
      exact (advanceT_scanOk st).trans' (ih _)
    · simp only [h, if_false, Bool.false_eq_true]
      exact ScanOk.refl' st

theorem skipNewlines_scanOk (st : PState) : ScanOk st st.skipNewlines :=
  skipNewlinesF_scanOk _ st

theorem skipNewlines_strict {st : PState} (hw : Wf st)
    (h : st.check .NEWLINE = true) : st.pos < (st.skipNewlines).pos := by
  obtain ⟨k, hk⟩ := restFuel_succ hw
  unfold PState.skipNewlines
  rw [hk, skipNewlinesF]
  simp only [h, if_true]
  exact Nat.lt_of_lt_of_le (advanceT_strict (check_not_atEnd h (by simp)))
    (skipNewlinesF_scanOk k _).2.1

theorem scanAccF_scanOk (stops : List TokenType) (sep : String) (fuel : Nat)
    (st : PState) (acc : String) :
    ScanOk st (scanAccF stops sep fuel st acc).2 := by
  induction fuel generalizing st acc with
  | zero => exact ScanOk.refl' st
  | succ fuel ih =>
    rw [scanAccF]
    by_cases h : (st.isAtEnd = true ∨ stops.contains st.peek.type = true)
    · rw [if_pos (by simpa using h)]
      exact ScanOk.refl' st
    · rw [if_neg (by simpa using h)]
      exact (advanceT_scanOk st).trans' (ih _ _)

theorem scanAccF_stop {stops : List TokenType} {sep : String} {fuel : Nat}
    {st : PState} {acc : String}
    (h : st.isAtEnd = true ∨ stops.contains st.peek.type = true) :
    scanAccF stops sep fuel st acc = (acc, st) := by
  cases fuel with
  | zero => rfl
  | succ fuel => rw [scanAccF, if_pos (by simpa using h)]

theorem scanAcc_scanOk (st : PState) (stops : List TokenType) (sep : String) :
    ScanOk st (st.scanAcc stops sep).2 :=
  scanAccF_scanOk stops sep _ st ""

theorem scanAcc_stop {st : PState} {stops : List TokenType} {sep : String}
    (h : st.isAtEnd = true ∨ stops.contains st.peek.type = true) :
    st.scanAcc stops sep = ("", st) :=
  scanAccF_stop h

theorem scanAcc_strict {st : PState} {stops : List TokenType} {sep : String}
    (hw : Wf st) (he : st.isAtEnd = false)
    (hs : stops.contains st.peek.type = false) :
    st.pos < (st.scanAcc stops sep).2.pos := by
  obtain ⟨k, hk⟩ := restFuel_succ hw
  unfold PState.scanAcc
  rw [hk, scanAccF]
  rw [if_neg (by rw [not_or]; exact ⟨by simp [he], by rw [hs]; simp⟩)]
  exact Nat.lt_of_lt_of_le (advanceT_strict he) (scanAccF_scanOk _ _ k _ _).2.1

theorem skipUntilNewlineF_scanOk (fuel : Nat) (st : PState) :
    ScanOk st (skipUntilNewlineF fuel st) := by
  induction fuel generalizing st with
  | zero => exact ScanOk.refl' st
  | succ fuel ih =>
    rw [skipUntilNewlineF]
    by_cases h : (st.isAtEnd = true ∨ st.check .NEWLINE = true)
    · rw [if_pos (by simpa using h)]
      exact ScanOk.refl' st
    · rw [if_neg (by simpa using h)]
      exact (advanceT_scanOk st).trans' (ih _)

theorem skipUntilNewlineF_stop {fuel : Nat} {st : PState}
    (h : st.isAtEnd = true ∨ st.check .NEWLINE = true) :
    skipUntilNewlineF fuel st = st := by
  cases fuel with
  | zero => rfl
  | succ fuel => rw [skipUntilNewlineF, if_pos (by simpa using h)]

theorem skipUntilNewline_scanOk (st : PState) : ScanOk st st.skipUntilNewline := by
  have h1 : ScanOk st (skipUntilNewlineF st.restFuel st) :=
    skipUntilNewlineF_scanOk _ st
  unfold PState.skipUntilNewline
  simp only
  by_cases h : (skipUntilNewlineF st.restFuel st).check .NEWLINE = true
  · simp only [h, if_true]
    exact h1.trans' (advanceT_scanOk _)
  · simp only [h, if_false, Bool.false_eq_true]
    exact h1

theorem skipUntilNewline_strict {st : PState} (hw : Wf st)
    (he : st.isAtEnd = false) : st.pos < (st.skipUntilNewline).pos := by
  unfold PState.skipUntilNewline
  simp only
  by_cases h : st.check .NEWLINE = true
  · rw [skipUntilNewlineF_stop (Or.inr h)]
    simp only [h, if_true]
    exact advanceT_strict he
  · have hstrict : st.pos < (skipUntilNewlineF st.restFuel st).pos := by
      obtain ⟨k, hk⟩ := restFuel_succ hw
      rw [hk, skipUntilNewlineF,
        if_neg (by rw [not_or]; exact ⟨by simp [he], by simp [h]⟩)]
      exact Nat.lt_of_lt_of_le (advanceT_strict he)
        (skipUntilNewlineF_scanOk k _).2.1
    by_cases h2 : (skipUntilNewlineF st.restFuel st).check .NEWLINE = true
    · simp only [h2, if_true]
      exact Nat.lt_of_lt_of_le hstrict (advanceT_scanOk _).2.1
    · simp only [h2, if_false, Bool.false_eq_true]
      exact hstrict

theorem skipOrphanF_scanOk (fuel : Nat) (st : PState) (depth : Nat) :
    ScanOk st (skipOrphanF fuel st depth) := by
  induction fuel generalizing st depth with
  | zero => exact ScanOk.refl' st
  | succ fuel ih =>
    rw [skipOrphanF]
    by_cases h : (st.isAtEnd = true ∨ depth = 0)
    · rw [if_pos (by simpa using h)]
      exact ScanOk.refl' st
    · rw [if_neg (by simpa using h)]
      exact (advanceT_scanOk st).trans' (ih _ _)

theorem skipOrphanedIndentedBlock_scanOk (st : PState) :
    ScanOk st st.skipOrphanedIndentedBlock :=
  (advanceT_scanOk st).trans' (skipOrphanF_scanOk _ _ _)

theorem skipOrphanedIndentedBlock_strict {st : PState}
    (he : st.isAtEnd = false) : st.pos < (st.skipOrphanedIndentedBlock).pos :=
  Nat.lt_of_lt_of_le (advanceT_strict he) (skipOrphanF_scanOk _ _ _).2.1

theorem scanReqNameF_scanOk (fuel : Nat) (st : PState) (acc : String)
    (lastEnd : Position) :
    ScanOk st (scanReqNameF fuel st acc lastEnd).2.2 := by
  induction fuel generalizing st acc lastEnd with
  | zero => exact ScanOk.refl' st
  | succ fuel ih =>
    rw [scanReqNameF]
    by_cases h : (st.isAtEnd = true ∨ st.check .RPAREN = true ∨
        st.check .NEWLINE = true)
    · rw [if_pos (by simpa using h)]
      exact ScanOk.refl' st
    · rw [if_neg (by simpa using h)]
      exact (advanceT_scanOk st).trans' (ih _ _ _)

theorem scanReqName_scanOk (st : PState) (lastEnd : Position) :
    ScanOk st (st.scanReqName lastEnd).2.2 :=
  scanReqNameF_scanOk _ st "" lastEnd

theorem scanReqNameF_stop {fuel : Nat} {st : PState} {acc : String}
    {lastEnd : Position}
    (h : st.isAtEnd = true ∨ st.check .RPAREN = true ∨
      st.check .NEWLINE = true) :
    scanReqNameF fuel st acc lastEnd = (acc, lastEnd, st) := by
  cases fuel with
  | zero => rfl
  | succ fuel => rw [scanReqNameF, if_pos (by simpa using h)]

theorem scanReqName_stop {st : PState} {lastEnd : Position}
    (h : st.isAtEnd = true ∨ st.check .RPAREN = true ∨
      st.check .NEWLINE = true) :
    st.scanReqName lastEnd = ("", lastEnd, st) :=
  scanReqNameF_stop h

theorem scanReqName_strict {st : PState} {lastEnd : Position} (hw : Wf st)
    (he : st.isAtEnd = false) (h1 : st.check .RPAREN = false)
    (h2 : st.check .NEWLINE = false) :
    st.pos < (st.scanReqName lastEnd).2.2.pos := by
  obtain ⟨k, hk⟩ := restFuel_succ hw
  unfold PState.scanReqName
  rw [hk, scanReqNameF, if_neg (by simp [he, h1, h2])]
  exact Nat.lt_of_lt_of_le (advanceT_strict he) (scanReqNameF_scanOk k _ _ _).2.1

theorem parseComment_scanOk (st : PState) : ScanOk st (st.parseComment).2 :=
  advanceT_scanOk st

theorem parseComment_strict {st : PState} (he : st.isAtEnd = false) :
    st.pos < (st.parseComment).2.pos :=
  advanceT_strict he

theorem parseReasonStatement_scanOk (st : PState) :
    ScanOk st (st.parseReasonStatement).2 :=
  (advanceT_scanOk st).trans' (scanAcc_scanOk _ _ _)

theorem parseReasonStatement_strict {st : PState} (he : st.isAtEnd = false) :
    st.pos < (st.parseReasonStatement).2.pos :=
  Nat.lt_of_lt_of_le (advanceT_strict he) (scanAcc_scanOk _ _ _).2.1

theorem parseReference_scanOk (st : PState) : ScanOk st (st.parseReference).2 :=
  scanAcc_scanOk _ _ _

theorem parseEvaluation_scanOk (st : PState) :
    ScanOk st (st.parseEvaluation).2 :=
  scanAcc_scanOk _ _ _

theorem parseEffect_extOk (st : PState) : ExtOk st (st.parseEffect).2 :=
  (expectT_extOk st _ _).trans (scanAcc_scanOk _ _ _).toExtOk

theorem parseEffect_strict {st : PState} (h : st.check .ARROW_RIGHT = true) :
    st.pos < (st.parseEffect).2.pos :=
  Nat.lt_of_lt_of_le (expectT_strict h (by simp)) (scanAcc_scanOk _ _ _).2.1

theorem flatFactScanF_scanOk (fuel : Nat) (st : PState) (acc : String)
    (evs : List Evaluation) :
    ScanOk st (flatFactScanF fuel st acc evs).2.2 := by
  induction fuel generalizing st acc evs with
  | zero => exact ScanOk.refl' st
  | succ fuel ih =>
    rw [flatFactScanF]
    by_cases h : (st.isAtEnd = true ∨
        [TokenType.COLON, .AND, .OR, .RPAREN, .ARROW_RIGHT, .SEMICOLON,
         .NEWLINE].contains st.peek.type = true)
    · rw [if_pos (by simpa using h)]
      exact ScanOk.refl' st
    · rw [if_neg (by simpa using h)]
      by_cases h2 : st.check .AT = true
      · simp only [h2, if_true]
        exact ((advanceT_scanOk st).trans' (parseEvaluation_scanOk _)).trans'
          (ih _ _ _)
      · simp only [h2, if_false, Bool.false_eq_true]
        exact (advanceT_scanOk st).trans' (ih _ _ _)

theorem flatFactScan_scanOk (st : PState) : ScanOk st (st.flatFactScan).2.2 :=
  flatFactScanF_scanOk _ st "" []

theorem parseReasonsLoopF_scanOk (fuel : Nat) (st : PState)
    (acc : List Reason) : ScanOk st (parseReasonsLoopF fuel st acc).2 := by
  induction fuel generalizing st acc with
  | zero => exact ScanOk.refl' st
  | succ fuel ih =>
    rw [parseReasonsLoopF]
    by_cases h : (st.check .AND = true ∨ st.check .OR = true)
    · rw [if_pos (by simpa using h)]
      exact (((matchT_scanOk st _).trans' (advanceT_scanOk _)).trans'
        (scanAcc_scanOk _ _ _)).trans' (ih _ _)
    · rw [if_neg (by simpa using h)]
      exact ScanOk.refl' st

set_option maxHeartbeats 1000000 in
theorem parseReasons_extOk (st : PState) : ExtOk st (st.parseReasons).2 := by
  unfold PState.parseReasons
  by_cases h : st.check .LPAREN = true
  · rw [matchT_of_check h]
    dsimp only
    rcases h1 : ((st.advanceT).2).scanAcc [.AND, .OR, .RPAREN] " " with ⟨content, st2⟩
    have ok2 : ScanOk (st.advanceT).2 st2 := by
      have := scanAcc_scanOk (st.advanceT).2 [.AND, .OR, .RPAREN] " "
      rwa [h1] at this
    rcases h2 : parseReasonsLoopF st2.restFuel st2
        [⟨trimJs content, none, createRange (st.peek.range.start) st2.peek.range.start⟩]
        with ⟨reasons, st3⟩
    have ok3 : ScanOk st2 st3 := by
      have := parseReasonsLoopF_scanOk st2.restFuel st2
        [⟨trimJs content, none, createRange (st.peek.range.start) st2.peek.range.start⟩]
      rwa [h2] at this
    rw [if_pos rfl]
    dsimp only
    exact ((((advanceT_scanOk st).trans' ok2).trans' ok3).toExtOk).trans
      (expectT_extOk st3 _ _)
  · rw [matchT_of_not_check (by simpa using h)]
    dsimp only
    rcases h1 : st.scanAcc [.IMPLIES, .NEWLINE] " " with ⟨content, st2⟩
    have ok2 : ScanOk st st2 := by
      have := scanAcc_scanOk st [.IMPLIES, .NEWLINE] " "
      rwa [h1] at this
    exact ok2.toExtOk

theorem concludedMarker_scanOk (st : PState) : ScanOk st (st.concludedMarker).2 := by
  unfold PState.concludedMarker
  rcases h1 : st.matchT .PLUS with ⟨isPlus, st1⟩
  have ok1 : ScanOk st st1 := by
    have := matchT_scanOk st .PLUS
    rwa [h1] at this
  dsimp only
  by_cases h : isPlus = true
  · simp only [h, if_true]
    exact ok1
  · simp only [h, if_false, Bool.false_eq_true]
    rcases h2 : st1.matchT .EXCLAIM with ⟨isEx, st2⟩
    have ok2 : ScanOk st1 st2 := by
      have := matchT_scanOk st1 .EXCLAIM
      rwa [h2] at this
    exact ok1.trans' ok2

theorem concludedMarker_of_neither {st : PState}
    (h1 : st.check .PLUS = false) (h2 : st.check .EXCLAIM = false) :
    st.concludedMarker = (none, st) := by
  unfold PState.concludedMarker
  rw [matchT_of_not_check h1]
  dsimp only
  rw [matchT_of_not_check h2]
  rfl

theorem concludedMarker_strict {st : PState}
    (h : st.check .PLUS = true ∨ st.check .EXCLAIM = true) :
    st.pos < (st.concludedMarker).2.pos := by
  unfold PState.concludedMarker
  by_cases h1 : st.check .PLUS = true
  · rw [matchT_of_check h1]
    dsimp only
    exact advanceT_strict (check_not_atEnd h1 (by simp))
  · have h2 : st.check .EXCLAIM = true := h.resolve_left h1
    rw [matchT_of_not_check (by simpa using h1)]
    dsimp only
    rw [matchT_of_check h2]
    dsimp only
    exact advanceT_strict (check_not_atEnd h2 (by simp))

theorem optionalReference_scanOk (st : PState) :
    ScanOk st (st.optionalReference).2 := by
  unfold PState.optionalReference
  rcases h1 : st.matchT .CARET with ⟨hasCaret, st1⟩
  have ok1 : ScanOk st st1 := by
    have := matchT_scanOk st .CARET
    rwa [h1] at this
  dsimp only
  by_cases h : hasCaret = true
  · simp only [h, if_true]
    rcases h2 : st1.parseReference with ⟨r, st2⟩
    have ok2 : ScanOk st1 st2 := by
      have := parseReference_scanOk st1
      rwa [h2] at this
    exact ok1.trans' ok2
  · simp only [h, if_false, Bool.false_eq_true]
    exact ok1

theorem optionalReference_of_not {st : PState} (h : st.check .CARET = false) :
    st.optionalReference = (none, st) := by
  unfold PState.optionalReference
  rw [matchT_of_not_check h]
  rfl

theorem optionalReference_strict {st : PState} (h : st.check .CARET = true) :
    st.pos < (st.optionalReference).2.pos := by
  unfold PState.optionalReference
  rw [matchT_of_check h]
  dsimp only
  rcases h2 : ((st.advanceT).2).parseReference with ⟨r, st2⟩
  have ok2 : ScanOk (st.advanceT).2 st2 := by
    have := parseReference_scanOk (st.advanceT).2
    rwa [h2] at this
  exact Nat.lt_of_lt_of_le (advanceT_strict (check_not_atEnd h (by simp))) ok2.2.1

theorem consumeDedent_scanOk (st : PState) : ScanOk st st.consumeDedent := by
  unfold PState.consumeDedent
  by_cases h : st.check .DEDENT = true
  · simp only [h, if_true]
    exact advanceT_scanOk st
  · simp only [h, if_false, Bool.false_eq_true]
    exact ScanOk.refl' st

theorem optionalEvaluation_scanOk (st : PState) :
    ScanOk st (st.optionalEvaluation).2 := by
  unfold PState.optionalEvaluation
  rcases h1 : st.matchT .AT with ⟨hasAt, st1⟩
  have ok1 : ScanOk st st1 := by
    have := matchT_scanOk st .AT
    rwa [h1] at this
  dsimp only
  by_cases h : hasAt = true
  · simp only [h, if_true]
    rcases h2 : st1.parseEvaluation with ⟨e, st2⟩
    have ok2 : ScanOk st1 st2 := by
      have := parseEvaluation_scanOk st1
      rwa [h2] at this
    exact ok1.trans' ok2
  · simp only [h, if_false, Bool.false_eq_true]
    exact ok1

theorem optionalEffect_extOk (st : PState) (eff : Option Effect) :
    ExtOk st (st.optionalEffect eff).2 := by
  unfold PState.optionalEffect
  by_cases h : st.check .ARROW_RIGHT = true
  · simp only [h, if_true]
    rcases h2 : st.parseEffect with ⟨e, st2⟩
    have ok2 : ExtOk st st2 := by
      have := parseEffect_extOk st
      rwa [h2] at this
    exact ok2
  · simp only [h, if_false, Bool.false_eq_true]
    exact ExtOk.refl st

theorem optionalReasons_extOk (st : PState) :
    ExtOk st (st.optionalReasons).2 := by
  unfold PState.optionalReasons
  rcases h1 : st.matchT .TILDE_ARROW with ⟨hasTilde, st1⟩
  have ok1 : ScanOk st st1 := by
    have := matchT_scanOk st .TILDE_ARROW
    rwa [h1] at this
  dsimp only
  by_cases h : hasTilde = true
  · simp only [h, if_true]
    exact ok1.toExtOk.trans (parseReasons_extOk st1)
  · simp only [h, if_false, Bool.false_eq_true]
    exact ok1.toExtOk

theorem optionalReasons_of_not {st : PState}
    (h : st.check .TILDE_ARROW = false) : st.optionalReasons = ([], st) := by
  unfold PState.optionalReasons
  rw [matchT_of_not_check h]
  rfl

theorem closeBracket_extOk (st : PState) (a b : Position) :
    ExtOk st (st.closeBracket a b) := by
  unfold PState.closeBracket
  by_cases h : (st.check .NEWLINE || st.isAtEnd) = true
  · simp only [h, if_true]
    exact addErrAt_extOk st _ _
  · simp only [h, if_false, Bool.false_eq_true]
    exact (advanceT_scanOk st).toExtOk

theorem closeBracket_of_stop {st : PState} {a b : Position}
    (h : (st.check .NEWLINE || st.isAtEnd) = true) :
    st.closeBracket a b = st.addErrAt "閉じ括弧)が見つかりません" ⟨a, b⟩ := by
  unfold PState.closeBracket
  simp only [h, if_true]

theorem closeBracket_strict {st : PState} {a b : Position}
    (h1 : st.check .NEWLINE = false) (h2 : st.isAtEnd = false) :
    st.pos < (st.closeBracket a b).pos := by
  unfold PState.closeBracket
  rw [if_neg (by simp [h1, h2])]
  exact advanceT_strict h2

set_option maxHeartbeats 1000000 in
/-- The one-step unfolding of `parseNorm` at a successor fuel value,
stated explicitly (the body is a literal copy of the definition). -/
theorem parseNorm_succ (fuel : Nat) (st : PState) :
    parseNorm (fuel + 1) st =
    (let startPos := st.peek.range.start
     let (concluded, st) := st.concludedMarker
     let (isDollar, st) := st.matchT .DOLLAR
     if isDollar then parseConstantReference fuel st startPos concluded
     else
       let (_, st) := st.expectT .PERCENT "規範には % が必要です"
       let (content, st) := st.scanAcc
         [.CARET, .ARROW_LEFT, .COLON, .AS, .SEMICOLON, .NEWLINE] " "
       let content := trimJs content
       let (reference, st) := st.optionalReference
       let (hasColon, st) := st.matchT .COLON
       match (if hasColon then
                if st.check .PERCENT || st.check .PLUS || st.check .EXCLAIM then
                  match parseNorm fuel st with
                  | none => none
                  | some (sn, st) =>
                    some ((some sn : Option Norm), sn.fact, st)
                else some ((none : Option Norm), (none : Option Fact), st)
              else some ((none : Option Norm), (none : Option Fact), st)) with
       | none => none
       | some (subNorm, fact, st) =>
         match arrowFactOpt fuel st fact with
         | none => none
         | some (fact, st) =>
           normFinish fuel st startPos concluded content reference subNorm fact) := rfl

/-- The `req` component of the fuelled pack is `parseRequirement`. -/
theorem reqFns_req (fuel : Nat) : (reqFns fuel).req = parseRequirement fuel :=
  rfl

/-- The `reqLoop` component of the fuelled pack is `reqLoop`. -/
theorem reqFns_reqLoop (fuel : Nat) :
    (reqFns fuel).reqLoop = reqLoop fuel := rfl

/-- The `nar` component of the fuelled pack is `parseNormAsRequirement`. -/
theorem reqFns_nar (fuel : Nat) :
    (reqFns fuel).nar = parseNormAsRequirement fuel := rfl

/-- The `narLoop` component of the fuelled pack is `narLoop`. -/
theorem reqFns_narLoop (fuel : Nat) :
    (reqFns fuel).narLoop = narLoop fuel := rfl

/-- One-step unfolding of the fuelled pack `reqFns` at a successor fuel
value. -/
theorem reqFns_succ (fuel : Nat) :
    reqFns (fuel + 1) =
      ⟨parseRequirementB fuel (reqFns fuel), reqLoopB fuel (reqFns fuel),
       parseNormAsRequirementB fuel (reqFns fuel),
       narLoopB fuel (reqFns fuel)⟩ := rfl

/-- One-step unfolding of `parseRequirement` at a successor fuel value. -/
theorem parseRequirement_succ (fuel : Nat) (st : PState) :
    parseRequirement (fuel + 1) st = parseRequirementB fuel (reqFns fuel) st := by
  show (reqFns (fuel + 1)).req st = _
  rw [reqFns_succ]

/-- With zero fuel `parseRequirement` fails. -/
theorem parseRequirement_zero (st : PState) : parseRequirement 0 st = none := rfl

/-- One-step unfolding of `reqLoop` at a successor fuel value. -/
theorem reqLoop_succ (fuel : Nat) (st : PState) (fact : Option Fact)
    (subs : List Requirement) (rss : List ReasonStatement) :
    reqLoop (fuel + 1) st fact subs rss =
      reqLoopB fuel (reqFns fuel) st fact subs rss := by
  show (reqFns (fuel + 1)).reqLoop st fact subs rss = _
  rw [reqFns_succ]

/-- With zero fuel `reqLoop` fails. -/
theorem reqLoop_zero (st : PState) (fact : Option Fact)
    (subs : List Requirement) (rss : List ReasonStatement) :
    reqLoop 0 st fact subs rss = none := rfl

/-- One-step unfolding of `parseNormAsRequirement` at a successor fuel
value. -/
theorem parseNormAsRequirement_succ (fuel : Nat) (st : PState) :
    parseNormAsRequirement (fuel + 1) st =
      parseNormAsRequirementB fuel (reqFns fuel) st := by
  show (reqFns (fuel + 1)).nar st = _
  rw [reqFns_succ]

/-- With zero fuel `parseNormAsRequirement` fails. -/
theorem parseNormAsRequirement_zero (st : PState) :
    parseNormAsRequirement 0 st = none := rfl

/-- One-step unfolding of `narLoop` at a successor fuel value. -/
theorem narLoop_succ (fuel : Nat) (st : PState) (norm : Norm)
    (subs : List Requirement) (rss : List ReasonStatement) :
    narLoop (fuel + 1) st norm subs rss =
      narLoopB fuel (reqFns fuel) st norm subs rss := by
  show (reqFns (fuel + 1)).narLoop st norm subs rss = _
  rw [reqFns_succ]

/-- With zero fuel `narLoop` fails. -/
theorem narLoop_zero (st : PState) (norm : Norm)
    (subs : List Requirement) (rss : List ReasonStatement) :
    narLoop 0 st norm subs rss = none := rfl


/-! ## Monotonicity of the recursive-descent core

For every fuel budget, a successful run of any core function only extends
the state: tokens untouched, cursor monotone, errors appended,
well-formedness preserved. -/

/-- `arrowFactOpt` only extends the state, given that `parseFact` does. -/
theorem arrowFactOpt_extOk {fuel : Nat}
    (ihFact : ∀ st r st', parseFact fuel st = some (r, st') → ExtOk st st')
    {st : PState} {dflt r : Option Fact} {st' : PState}
    (h : arrowFactOpt fuel st dflt = some (r, st')) : ExtOk st st' := by
  unfold arrowFactOpt at h
  dsimp only at h
  rcases hm : st.matchT .ARROW_LEFT with ⟨hasArrow, st1⟩
  rw [hm] at h
  dsimp only at h
  have ok1 : ScanOk st st1 := by
    have := matchT_scanOk st .ARROW_LEFT
    rwa [hm] at this
  by_cases hA : hasArrow = true
  · rw [if_pos hA] at h
    split at h
    next heq => exact Option.noConfusion h
    next fv st2 heq =>
      simp only [Option.some.injEq, Prod.mk.injEq] at h
      obtain ⟨-, rfl⟩ := h
      exact ok1.toExtOk.trans (ihFact _ _ _ heq)
  · rw [if_neg hA] at h
    simp only [Option.some.injEq, Prod.mk.injEq] at h
    obtain ⟨-, rfl⟩ := h
    exact ok1.toExtOk

/-- `normFinish` only extends the state, given that `parseFact` does (the
constants-registration step leaves tokens, cursor and errors alone). -/
theorem normFinish_extOk {fuel : Nat}
    (ihFact : ∀ st r st', parseFact fuel st = some (r, st') → ExtOk st st')
    {st : PState} {startPos : Position} {concluded : Option Concluded}
    {content : String} {reference : Option Reference} {subNorm : Option Norm}
    {fact : Option Fact} {r : Norm} {st' : PState}
    (h : normFinish fuel st startPos concluded content reference subNorm fact =
      some (r, st')) : ExtOk st st' := by
  unfold normFinish at h
  dsimp only at h
  rcases hm : st.matchT .AS with ⟨hasAs, st1⟩
  rw [hm] at h
  dsimp only at h
  have ok1 : ScanOk st st1 := by
    have := matchT_scanOk st .AS
    rwa [hm] at this
  by_cases hA : hasAs = true
  · rw [if_pos hA] at h
    rcases hs : st1.scanAcc [.ARROW_LEFT, .NEWLINE] " " with ⟨constName, st2⟩
    rw [hs] at h
    dsimp only at h
    have ok2 : ScanOk st1 st2 := by
      have := scanAcc_scanOk st1 [.ARROW_LEFT, .NEWLINE] " "
      rwa [hs] at this
    split at h
    next heq => exact Option.noConfusion h
    next fv st3 heq =>
      have ok3 : ExtOk st2 st3 := arrowFactOpt_extOk ihFact heq
      simp only [Option.some.injEq, Prod.mk.injEq] at h
      obtain ⟨-, rfl⟩ := h
      refine ((ok1.trans' ok2).toExtOk.trans ok3).trans ?_
      exact ⟨rfl, le_refl _, ⟨[], by simp⟩, fun w => ⟨w.1, w.2⟩⟩
  · rw [if_neg hA] at h
    simp only [Option.some.injEq, Prod.mk.injEq] at h
    obtain ⟨-, rfl⟩ := h
    exact ok1.toExtOk

/-- `reqInlineCompound` only extends the state, given that `parseNorm`
and `parseFact` do. -/
theorem reqInlineCompound_extOk {fuel : Nat}
    (ihNorm : ∀ st r st', parseNorm fuel st = some (r, st') → ExtOk st st')
    (ihFact : ∀ st r st', parseFact fuel st = some (r, st') → ExtOk st st')
    {st : PState} {n : Option Norm} {fa : Option Fact} {st' : PState}
    (h : reqInlineCompound fuel st = some (n, fa, st')) : ExtOk st st' := by
  unfold reqInlineCompound at h
  dsimp only at h
  rcases hm : st.matchT .COLON with ⟨hasColon, st1⟩
  rw [hm] at h
  dsimp only at h
  have ok1 : ScanOk st st1 := by
    have := matchT_scanOk st .COLON
    rwa [hm] at this
  by_cases hA : hasColon = true
  · rw [if_pos hA] at h
    by_cases hB : (st1.check .PERCENT || st1.check .DOLLAR ||
        st1.check .PLUS || st1.check .EXCLAIM) = true
    · simp only [hB, if_true] at h
      split at h
      next heq => exact Option.noConfusion h
      next nv st2 heq =>
        simp only [Option.some.injEq, Prod.mk.injEq] at h
        obtain ⟨-, -, rfl⟩ := h
        exact ok1.toExtOk.trans (ihNorm _ _ _ heq)
    · simp only [hB, if_false, Bool.false_eq_true] at h
      split at h
      next heq => exact Option.noConfusion h
      next fv st2 heq =>
        simp only [Option.some.injEq, Prod.mk.injEq] at h
        obtain ⟨-, -, rfl⟩ := h
        exact ok1.toExtOk.trans (arrowFactOpt_extOk ihFact heq)
  · rw [if_neg hA] at h
    split at h
    next heq => exact Option.noConfusion h
    next fv st2 heq =>
      simp only [Option.some.injEq, Prod.mk.injEq] at h
      obtain ⟨-, -, rfl⟩ := h
      exact ok1.toExtOk.trans (arrowFactOpt_extOk ihFact heq)

set_option maxHeartbeats 4000000 in
theorem extOk_all : ∀ fuel : Nat,
    (∀ st r st', parseDocument fuel st = some (r, st') → ExtOk st st') ∧
    (∀ st acc r st', docLoop fuel st acc = some (r, st') → ExtOk st st') ∧
    (∀ st r st', parseNamespace fuel st = some (r, st') → ExtOk st st') ∧
    (∀ st acc r st', nsLoop fuel st acc = some (r, st') → ExtOk st st') ∧
    (∀ st r st', parseClaim fuel st = some (r, st') → ExtOk st st') ∧
    (∀ st a b c r1 r2 r3 st', claimLoop fuel st a b c = some (r1, r2, r3, st') →
      ExtOk st st') ∧
    (∀ st r st', parseRequirement fuel st = some (r, st') → ExtOk st st') ∧
    (∀ st a b c r1 r2 r3 st', reqLoop fuel st a b c = some (r1, r2, r3, st') →
      ExtOk st st') ∧
    (∀ st r st', parseNormAsRequirement fuel st = some (r, st') → ExtOk st st') ∧
    (∀ st a b c r1 r2 r3 st', narLoop fuel st a b c = some (r1, r2, r3, st') →
      ExtOk st st') ∧
    (∀ st r st', parseNorm fuel st = some (r, st') → ExtOk st st') ∧
    (∀ st p c r st', parseConstantReference fuel st p c = some (r, st') →
      ExtOk st st') ∧
    (∀ st r st', parseIssueAsRequirement fuel st = some (r, st') → ExtOk st st') ∧
    (∀ st r st', parseIssue fuel st = some (r, st') → ExtOk st st') ∧
    (∀ st n r st', issueLoop fuel st n = some (r, st') → ExtOk st st') ∧
    (∀ st r st', parseFact fuel st = some (r, st') → ExtOk st st') ∧
    (∀ st p r st', parseCompoundFact fuel st p = some (r, st') → ExtOk st st') ∧
    (∀ st a b r1 r2 st', cfLoop fuel st a b = some (r1, r2, st') →
      ExtOk st st') := by
  intro fuel
  induction fuel using Nat.strong_induction_on with
  | _ fuel IH =>
  cases fuel with
  | zero =>
    refine ⟨?_, ?_, ?_, ?_, ?_, ?_, ?_, ?_, ?_, ?_, ?_, ?_, ?_, ?_, ?_, ?_,
      ?_, ?_⟩ <;>
      (intros; rename_i h; exact Option.noConfusion h)
  | succ f =>
  obtain ⟨ihDoc, ihDocLoop, ihNs, ihNsLoop, ihClaim, ihClaimLoop, ihReq,
    ihReqLoop, ihNar, ihNarLoop, ihNorm, ihCcr, ihIar, ihIss, ihIssLoop,
    ihFact, ihCf, ihCfLoop⟩ := IH f (Nat.lt_succ_self f)
  refine ⟨?_, ?_, ?_, ?_, ?_, ?_, ?_, ?_, ?_, ?_, ?_, ?_, ?_, ?_, ?_, ?_,
    ?_, ?_⟩
  -- parseDocument
  · intro st r st' h
    unfold parseDocument at h
    dsimp only at h
    split at h
    next heq => exact Option.noConfusion h
    next children st2 heq =>
      simp only [Option.some.injEq, Prod.mk.injEq] at h
      obtain ⟨-, rfl⟩ := h
      exact (skipNewlines_scanOk st).toExtOk.trans (ihDocLoop _ _ _ _ heq)
  -- docLoop
  · intro st acc r st' h
    unfold docLoop at h
    by_cases h1 : st.isAtEnd = true
    · simp only [h1, if_true] at h
      simp only [Option.some.injEq, Prod.mk.injEq] at h
      obtain ⟨-, rfl⟩ := h
      exact ExtOk.refl st
    simp only [h1, if_false, Bool.false_eq_true] at h
    by_cases h2 : st.check .DOUBLE_COLON = true
    · simp only [h2, if_true] at h
      split at h
      next heq => exact Option.noConfusion h
      next n st1 heq => exact (ihNs _ _ _ heq).trans (ihDocLoop _ _ _ _ h)
    simp only [h2, if_false, Bool.false_eq_true] at h
    by_cases h3 : st.check .COMMENT = true
    · simp only [h3, if_true] at h
      rcases hc : st.parseComment with ⟨c, st1⟩
      rw [hc] at h
      dsimp only at h
      have okc : ScanOk st st1 := by
        have := parseComment_scanOk st
        rwa [hc] at this
      exact okc.toExtOk.trans (ihDocLoop _ _ _ _ h)
    simp only [h3, if_false, Bool.false_eq_true] at h
    by_cases h4 : (st.check .HASH || st.check .PLUS || st.check .EXCLAIM) = true
    · simp only [h4, if_true] at h
      split at h
      next heq => exact Option.noConfusion h
      next c st1 heq => exact (ihClaim _ _ _ heq).trans (ihDocLoop _ _ _ _ h)
    simp only [h4, if_false, Bool.false_eq_true] at h
    by_cases h5 : st.check .NEWLINE = true
    · simp only [h5, if_true] at h
      exact (advanceT_scanOk st).toExtOk.trans (ihDocLoop _ _ _ _ h)
    simp only [h5, if_false, Bool.false_eq_true] at h
    by_cases h6 : st.check .SEMICOLON = true
    · simp only [h6, if_true] at h
      rcases hr : st.parseReasonStatement with ⟨rs, st1⟩
      rw [hr] at h
      dsimp only at h
      have okr : ScanOk st st1 := by
        have := parseReasonStatement_scanOk st
        rwa [hr] at this
      exact okr.toExtOk.trans (ihDocLoop _ _ _ _ h)
    simp only [h6, if_false, Bool.false_eq_true] at h
    by_cases h7 : st.check .INDENT = true
    · simp only [h7, if_true] at h
      exact ((addErr_extOk st _).trans
        (skipOrphanedIndentedBlock_scanOk _).toExtOk).trans
        (ihDocLoop _ _ _ _ h)
    simp only [h7, if_false, Bool.false_eq_true] at h
    by_cases h8 : st.check .LPAREN = true
    · simp only [h8, if_true] at h
      exact ((addErr_extOk st _).trans
        (skipUntilNewline_scanOk _).toExtOk).trans (ihDocLoop _ _ _ _ h)
    simp only [h8, if_false, Bool.false_eq_true] at h
    by_cases h9 : st.check .PERCENT = true
    · simp only [h9, if_true] at h
      exact ((addErr_extOk st _).trans
        (skipUntilNewline_scanOk _).toExtOk).trans (ihDocLoop _ _ _ _ h)
    simp only [h9, if_false, Bool.false_eq_true] at h
    by_cases h10 : st.check .QUESTION = true
    · simp only [h10, if_true] at h
      exact ((addErr_extOk st _).trans
        (skipUntilNewline_scanOk _).toExtOk).trans (ihDocLoop _ _ _ _ h)
    simp only [h10, if_false, Bool.false_eq_true] at h
    by_cases h11 : st.check .ARROW_RIGHT = true
    · simp only [h11, if_true] at h
      exact ((addErr_extOk st _).trans
        (skipUntilNewline_scanOk _).toExtOk).trans (ihDocLoop _ _ _ _ h)
    simp only [h11, if_false, Bool.false_eq_true] at h
    exact ((addErr_extOk st _).trans (advanceT_scanOk _).toExtOk).trans
      (ihDocLoop _ _ _ _ h)
  -- parseNamespace
  · intro st r st' h
    unfold parseNamespace at h
    dsimp only at h
    rcases ha : st.advanceT with ⟨startToken, st1⟩
    rw [ha] at h
    dsimp only at h
    have ok1 : ScanOk st st1 := by
      have := advanceT_scanOk st
      rwa [ha] at this
    rcases hn : st1.scanAcc [.NEWLINE] " " with ⟨name, st2⟩
    rw [hn] at h
    dsimp only at h
    have ok2 : ScanOk st1 st2 := by
      have := scanAcc_scanOk st1 [.NEWLINE] " "
      rwa [hn] at this
    by_cases hi : (st2.skipNewlines).check .INDENT = true
    · simp only [hi, if_true] at h
      split at h
      next heq => exact Option.noConfusion h
      next children st3 heq =>
        simp only [Option.some.injEq, Prod.mk.injEq] at h
        obtain ⟨-, rfl⟩ := h
        refine ((ok1.trans' ok2).trans' (skipNewlines_scanOk st2)).toExtOk.trans ?_
        exact ((advanceT_scanOk _).toExtOk.trans (ihNsLoop _ _ _ _ heq)).trans
          (consumeDedent_scanOk st3).toExtOk
    · simp only [hi, if_false, Bool.false_eq_true] at h
      simp only [Option.some.injEq, Prod.mk.injEq] at h
      obtain ⟨-, rfl⟩ := h
      exact ((ok1.trans' ok2).trans' (skipNewlines_scanOk st2)).toExtOk
  -- nsLoop
  · intro st acc r st' h
    unfold nsLoop at h
    by_cases h1 : (st.isAtEnd || st.check .DEDENT) = true
    · simp only [h1, if_true] at h
      simp only [Option.some.injEq, Prod.mk.injEq] at h
      obtain ⟨-, rfl⟩ := h
      exact ExtOk.refl st
    simp only [h1, if_false, Bool.false_eq_true] at h
    by_cases h2 : st.check .COMMENT = true
    · simp only [h2, if_true] at h
      rcases hc : st.parseComment with ⟨c, st1⟩
      rw [hc] at h
      dsimp only at h
      have okc : ScanOk st st1 := by
        have := parseComment_scanOk st
        rwa [hc] at this
      exact okc.toExtOk.trans (ihNsLoop _ _ _ _ h)
    simp only [h2, if_false, Bool.false_eq_true] at h
    by_cases h3 : (st.check .HASH || st.check .PLUS || st.check .EXCLAIM) = true
    · simp only [h3, if_true] at h
      split at h
      next heq => exact Option.noConfusion h
      next c st1 heq => exact (ihClaim _ _ _ heq).trans (ihNsLoop _ _ _ _ h)
    simp only [h3, if_false, Bool.false_eq_true] at h
    by_cases h4 : st.check .NEWLINE = true
    · simp only [h4, if_true] at h
      exact (advanceT_scanOk st).toExtOk.trans (ihNsLoop _ _ _ _ h)
    simp only [h4, if_false, Bool.false_eq_true] at h
    simp only [Option.some.injEq, Prod.mk.injEq] at h
    obtain ⟨-, rfl⟩ := h
    exact ExtOk.refl st
  -- parseClaim
  · intro st r st' h
    unfold parseClaim at h
    dsimp only at h
    rcases hc : st.concludedMarker with ⟨concluded, st1⟩
    rw [hc] at h
    dsimp only at h
    have ok1 : ScanOk st st1 := by
      have := concludedMarker_scanOk st
      rwa [hc] at this
    rcases he : st1.expectT .HASH "主張には # が必要です" with ⟨tk, st2⟩
    rw [he] at h
    dsimp only at h
    have ok2 : ExtOk st1 st2 := by
      have := expectT_extOk st1 .HASH "主張には # が必要です"
      rwa [he] at this
    rcases hn : st2.scanAcc [.CARET, .ARROW_LEFT, .COLON, .NEWLINE] " "
      with ⟨name, st3⟩
    rw [hn] at h
    dsimp only at h
    have ok3 : ScanOk st2 st3 := by
      have := scanAcc_scanOk st2 [.CARET, .ARROW_LEFT, .COLON, .NEWLINE] " "
      rwa [hn] at this
    rcases hr : st3.optionalReference with ⟨reference, st4⟩
    rw [hr] at h
    dsimp only at h
    have ok4 : ScanOk st3 st4 := by
      have := optionalReference_scanOk st3
      rwa [hr] at this
    split at h
    next heq => exact Option.noConfusion h
    next fact st5 heq =>
      have ok5 : ExtOk st4 st5 := arrowFactOpt_extOk ihFact heq
      rcases hq : st5.matchT .COLON with ⟨hasReq, st6⟩
      rw [hq] at h
      dsimp only at h
      have ok6 : ScanOk st5 st6 := by
        have := matchT_scanOk st5 .COLON
        rwa [hq] at this
      split at h
      next heq2 => exact Option.noConfusion h
      next reqs rss eff st7 heq2 =>
        have ok7 : ExtOk st6.skipNewlines st7 := by
          by_cases hR : (hasReq && (st6.skipNewlines).check .INDENT) = true
          · rw [if_pos hR] at heq2
            cases hcl : claimLoop f ((st6.skipNewlines).advanceT).2 [] [] none with
            | none => rw [hcl] at heq2; exact Option.noConfusion heq2
            | some val =>
              rcases val with ⟨a1, b1, c1, st7'⟩
              rw [hcl] at heq2
              dsimp only at heq2
              simp only [Option.some.injEq, Prod.mk.injEq] at heq2
              obtain ⟨-, -, -, rfl⟩ := heq2
              exact ((advanceT_scanOk _).toExtOk.trans
                (ihClaimLoop _ _ _ _ _ _ _ _ hcl)).trans
                (consumeDedent_scanOk st7').toExtOk
          · rw [if_neg hR] at heq2
            simp only [Option.some.injEq, Prod.mk.injEq] at heq2
            obtain ⟨-, -, -, rfl⟩ := heq2
            exact ExtOk.refl _
        rcases hoe : st7.optionalEffect eff with ⟨effect, st8⟩
        rw [hoe] at h
        dsimp only at h
        have ok8 : ExtOk st7 st8 := by
          have := optionalEffect_extOk st7 eff
          rwa [hoe] at this
        simp only [Option.some.injEq, Prod.mk.injEq] at h
        obtain ⟨-, rfl⟩ := h
        exact (((((ok1.toExtOk.trans ok2).trans ok3.toExtOk).trans
          ok4.toExtOk).trans ok5).trans ok6.toExtOk).trans
          ((skipNewlines_scanOk st6).toExtOk.trans (ok7.trans ok8))
  -- claimLoop
  · intro st a b c r1 r2 r3 st' h
    unfold claimLoop at h
    by_cases h1 : (st.isAtEnd || st.check .DEDENT) = true
    · simp only [h1, if_true] at h
      simp only [Option.some.injEq, Prod.mk.injEq] at h
      obtain ⟨-, -, -, rfl⟩ := h
      exact ExtOk.refl st
    simp only [h1, if_false, Bool.false_eq_true] at h
    by_cases h2 : st.check .LPAREN = true
    · simp only [h2, if_true] at h
      split at h
      next heq => exact Option.noConfusion h
      next rq st1 heq =>
        exact (ihReq _ _ _ heq).trans (ihClaimLoop _ _ _ _ _ _ _ _ h)
    simp only [h2, if_false, Bool.false_eq_true] at h
    by_cases h3 : (st.check .PERCENT || st.check .DOLLAR ||
        (st.check .PLUS && ((st.peekN 1).type == .PERCENT ||
          (st.peekN 1).type == .DOLLAR)) ||
        (st.check .PLUS && (st.peekN 1).type == .LPAREN) ||
        (st.check .EXCLAIM && ((st.peekN 1).type == .PERCENT ||
          (st.peekN 1).type == .DOLLAR)) ||
        (st.check .EXCLAIM && (st.peekN 1).type == .LPAREN)) = true
    · simp only [h3, if_true] at h
      by_cases hp : ((st.peekN 1).type == .LPAREN) = true
      · simp only [hp, if_true] at h
        split at h
        next heq => exact Option.noConfusion h
        next rq st1 heq =>
          exact (ihReq _ _ _ heq).trans (ihClaimLoop _ _ _ _ _ _ _ _ h)
      · simp only [hp, if_false, Bool.false_eq_true] at h
        split at h
        next heq => exact Option.noConfusion h
        next rq st1 heq =>
          exact (ihNar _ _ _ heq).trans (ihClaimLoop _ _ _ _ _ _ _ _ h)
    simp only [h3, if_false, Bool.false_eq_true] at h
    by_cases h4 : (st.check .PLUS || st.check .EXCLAIM) = true
    · simp only [h4, if_true] at h
      split at h
      next heq => exact Option.noConfusion h
      next rq st1 heq =>
        exact (ihNar _ _ _ heq).trans (ihClaimLoop _ _ _ _ _ _ _ _ h)
    simp only [h4, if_false, Bool.false_eq_true] at h
    by_cases h5 : st.check .QUESTION = true
    · simp only [h5, if_true] at h
      split at h
      next heq => exact Option.noConfusion h
      next rq st1 heq =>
        exact (ihIar _ _ _ heq).trans (ihClaimLoop _ _ _ _ _ _ _ _ h)
    simp only [h5, if_false, Bool.false_eq_true] at h
    by_cases h6 : st.check .ARROW_RIGHT = true
    · simp only [h6, if_true] at h
      rcases hef : st.parseEffect with ⟨e, st1⟩
      rw [hef] at h
      dsimp only at h
      have oke : ExtOk st st1 := by
        have := parseEffect_extOk st
        rwa [hef] at this
      exact oke.trans (ihClaimLoop _ _ _ _ _ _ _ _ h)
    simp only [h6, if_false, Bool.false_eq_true] at h
    by_cases h7 : st.check .SEMICOLON = true
    · simp only [h7, if_true] at h
      rcases hrs : st.parseReasonStatement with ⟨rs, st1⟩
      rw [hrs] at h
      dsimp only at h
      have okr : ScanOk st st1 := by
        have := parseReasonStatement_scanOk st
        rwa [hrs] at this
      exact okr.toExtOk.trans (ihClaimLoop _ _ _ _ _ _ _ _ h)
    simp only [h7, if_false, Bool.false_eq_true] at h
    by_cases h8 : st.check .NEWLINE = true
    · simp only [h8, if_true] at h
      exact (advanceT_scanOk st).toExtOk.trans (ihClaimLoop _ _ _ _ _ _ _ _ h)
    simp only [h8, if_false, Bool.false_eq_true] at h
    by_cases h9 : st.check .COMMENT = true
    · simp only [h9, if_true] at h
      exact (advanceT_scanOk st).toExtOk.trans (ihClaimLoop _ _ _ _ _ _ _ _ h)
    simp only [h9, if_false, Bool.false_eq_true] at h
    simp only [Option.some.injEq, Prod.mk.injEq] at h
    obtain ⟨-, -, -, rfl⟩ := h
    exact ExtOk.refl st
  -- parseRequirement
  · intro st r st' h
    rw [parseRequirement_succ] at h
    unfold parseRequirementB at h
    rw [reqFns_reqLoop] at h
    dsimp only at h
    rcases hc : st.concludedMarker with ⟨concluded, st1⟩
    rw [hc] at h
    dsimp only at h
    have ok1 : ScanOk st st1 := by
      have := concludedMarker_scanOk st
      rwa [hc] at this
    rcases he : st1.expectT .LPAREN "要件には(が必要です" with ⟨openBracket, st2⟩
    rw [he] at h
    dsimp only at h
    have ok2 : ExtOk st1 st2 := by
      have := expectT_extOk st1 .LPAREN "要件には(が必要です"
      rwa [he] at this
    rcases hsn : st2.scanReqName openBracket.range.stop with ⟨name, lastEnd, st3⟩
    rw [hsn] at h
    dsimp only at h
    have ok3 : ScanOk st2 st3 := by
      have := scanReqName_scanOk st2 openBracket.range.stop
      rwa [hsn] at this
    have ok4 : ExtOk st3 (st3.closeBracket openBracket.range.start lastEnd) :=
      closeBracket_extOk st3 openBracket.range.start lastEnd
    split at h
    next heq => exact Option.noConfusion h
    next norm fact st5 heq =>
      have ok5 : ExtOk (st3.closeBracket openBracket.range.start lastEnd) st5 :=
        reqInlineCompound_extOk ihNorm ihFact heq
      split at h
      next heq2 => exact Option.noConfusion h
      next fact2 subs rss st6 heq2 =>
        have ok6 : ExtOk st5.skipNewlines st6 := by
          by_cases hI : (st5.skipNewlines).check .INDENT = true
          · simp only [hI, if_true] at heq2
            cases hrl : reqLoop f ((st5.skipNewlines).advanceT).2 fact [] [] with
            | none => rw [hrl] at heq2; exact Option.noConfusion heq2
            | some val =>
              rcases val with ⟨a1, b1, c1, st6'⟩
              rw [hrl] at heq2
              dsimp only at heq2
              simp only [Option.some.injEq, Prod.mk.injEq] at heq2
              obtain ⟨-, -, -, rfl⟩ := heq2
              exact ((advanceT_scanOk _).toExtOk.trans
                (ihReqLoop _ _ _ _ _ _ _ _ hrl)).trans
                (consumeDedent_scanOk st6').toExtOk
          · simp only [hI, if_false, Bool.false_eq_true] at heq2
            simp only [Option.some.injEq, Prod.mk.injEq] at heq2
            obtain ⟨-, -, -, rfl⟩ := heq2
            exact ExtOk.refl _
        simp only [Option.some.injEq, Prod.mk.injEq] at h
        obtain ⟨-, rfl⟩ := h
        exact ((((ok1.toExtOk.trans ok2).trans ok3.toExtOk).trans ok4).trans
          ok5).trans ((skipNewlines_scanOk st5).toExtOk.trans ok6)
  -- reqLoop
  · intro st a b c r1 r2 r3 st' h
    rw [reqLoop_succ] at h
    unfold reqLoopB at h
    rw [reqFns_req, reqFns_reqLoop, reqFns_nar] at h
    by_cases h1 : (st.isAtEnd || st.check .DEDENT) = true
    · simp only [h1, if_true] at h
      simp only [Option.some.injEq, Prod.mk.injEq] at h
      obtain ⟨-, -, -, rfl⟩ := h
      exact ExtOk.refl st
    simp only [h1, if_false, Bool.false_eq_true] at h
    by_cases h2 : (st.check .PERCENT || st.check .DOLLAR ||
        (st.check .PLUS && ((st.peekN 1).type == .PERCENT ||
          (st.peekN 1).type == .DOLLAR)) ||
        (st.check .EXCLAIM && ((st.peekN 1).type == .PERCENT ||
          (st.peekN 1).type == .DOLLAR))) = true
    · simp only [h2, if_true] at h
      split at h
      next heq => exact Option.noConfusion h
      next rq st1 heq =>
        exact (ihNar _ _ _ heq).trans (ihReqLoop _ _ _ _ _ _ _ _ h)
    simp only [h2, if_false, Bool.false_eq_true] at h
    by_cases h3 : (st.check .LPAREN ||
        (st.check .PLUS && (st.peekN 1).type == .LPAREN) ||
        (st.check .EXCLAIM && (st.peekN 1).type == .LPAREN)) = true
    · simp only [h3, if_true] at h
      split at h
      next heq => exact Option.noConfusion h
      next rq st1 heq =>
        exact (ihReq _ _ _ heq).trans (ihReqLoop _ _ _ _ _ _ _ _ h)
    simp only [h3, if_false, Bool.false_eq_true] at h
    by_cases h4 : st.check .ARROW_LEFT = true
    · simp only [h4, if_true] at h
      split at h
      next heq => exact Option.noConfusion h
      next fv st1 heq =>
        exact ((advanceT_scanOk st).toExtOk.trans (ihFact _ _ _ heq)).trans
          (ihReqLoop _ _ _ _ _ _ _ _ h)
    simp only [h4, if_false, Bool.false_eq_true] at h
    by_cases h5 : st.check .SEMICOLON = true
    · simp only [h5, if_true] at h
      rcases hrs : st.parseReasonStatement with ⟨rs, st1⟩
      rw [hrs] at h
      dsimp only at h
      have okr : ScanOk st st1 := by
        have := parseReasonStatement_scanOk st
        rwa [hrs] at this
      exact okr.toExtOk.trans (ihReqLoop _ _ _ _ _ _ _ _ h)
    simp only [h5, if_false, Bool.false_eq_true] at h
    by_cases h6 : st.check .NEWLINE = true
    · simp only [h6, if_true] at h
      exact (advanceT_scanOk st).toExtOk.trans (ihReqLoop _ _ _ _ _ _ _ _ h)
    simp only [h6, if_false, Bool.false_eq_true] at h
    by_cases h7 : st.check .COMMENT = true
    · simp only [h7, if_true] at h
      exact (advanceT_scanOk st).toExtOk.trans (ihReqLoop _ _ _ _ _ _ _ _ h)
    simp only [h7, if_false, Bool.false_eq_true] at h
    simp only [Option.some.injEq, Prod.mk.injEq] at h
    obtain ⟨-, -, -, rfl⟩ := h
    exact ExtOk.refl st
  -- parseNormAsRequirement
  · intro st r st' h
    rw [parseNormAsRequirement_succ] at h
    unfold parseNormAsRequirementB at h
    rw [reqFns_narLoop] at h
    dsimp only at h
    split at h
    next heq => exact Option.noConfusion h
    next norm st1 heq =>
      have ok1 : ExtOk st st1 := ihNorm _ _ _ heq
      split at h
      next heq2 => exact Option.noConfusion h
      next norm2 subs rss st2 heq2 =>
        have ok2 : ExtOk st1.skipNewlines st2 := by
          by_cases hI : (st1.skipNewlines).check .INDENT = true
          · simp only [hI, if_true] at heq2
            cases hnl : narLoop f ((st1.skipNewlines).advanceT).2 norm [] [] with
            | none => rw [hnl] at heq2; exact Option.noConfusion heq2
            | some val =>
              rcases val with ⟨a1, b1, c1, st2'⟩
              rw [hnl] at heq2
              dsimp only at heq2
              simp only [Option.some.injEq, Prod.mk.injEq] at heq2
              obtain ⟨-, -, -, rfl⟩ := heq2
              exact ((advanceT_scanOk _).toExtOk.trans
                (ihNarLoop _ _ _ _ _ _ _ _ hnl)).trans
                (consumeDedent_scanOk st2').toExtOk
          · simp only [hI, if_false, Bool.false_eq_true] at heq2
            simp only [Option.some.injEq, Prod.mk.injEq] at heq2
            obtain ⟨-, -, -, rfl⟩ := heq2
            exact ExtOk.refl _
        simp only [Option.some.injEq, Prod.mk.injEq] at h
        obtain ⟨-, rfl⟩ := h
        exact ok1.trans ((skipNewlines_scanOk st1).toExtOk.trans ok2)
  -- narLoop
  · intro st a b c r1 r2 r3 st' h
    rw [narLoop_succ] at h
    unfold narLoopB at h
    rw [reqFns_req, reqFns_nar, reqFns_narLoop] at h
    by_cases h1 : (st.isAtEnd || st.check .DEDENT) = true
    · simp only [h1, if_true] at h
      simp only [Option.some.injEq, Prod.mk.injEq] at h
      obtain ⟨-, -, -, rfl⟩ := h
      exact ExtOk.refl st
    simp only [h1, if_false, Bool.false_eq_true] at h
    by_cases h2 : (st.check .PERCENT || st.check .DOLLAR ||
        (st.check .PLUS && ((st.peekN 1).type == .PERCENT ||
          (st.peekN 1).type == .DOLLAR)) ||
        (st.check .EXCLAIM && ((st.peekN 1).type == .PERCENT ||
          (st.peekN 1).type == .DOLLAR))) = true
    · simp only [h2, if_true] at h
      split at h
      next heq => exact Option.noConfusion h
      next rq st1 heq =>
        exact (ihNar _ _ _ heq).trans (ihNarLoop _ _ _ _ _ _ _ _ h)
    simp only [h2, if_false, Bool.false_eq_true] at h
    by_cases h3 : (st.check .LPAREN ||
        (st.check .PLUS && (st.peekN 1).type == .LPAREN) ||
        (st.check .EXCLAIM && (st.peekN 1).type == .LPAREN)) = true
    · simp only [h3, if_true] at h
      split at h
      next heq => exact Option.noConfusion h
      next rq st1 heq =>
        exact (ihReq _ _ _ heq).trans (ihNarLoop _ _ _ _ _ _ _ _ h)
    simp only [h3, if_false, Bool.false_eq_true] at h
    by_cases h4 : st.check .ARROW_LEFT = true
    · simp only [h4, if_true] at h
      split at h
      next heq => exact Option.noConfusion h
      next fv st1 heq =>
        exact ((advanceT_scanOk st).toExtOk.trans (ihFact _ _ _ heq)).trans
          (ihNarLoop _ _ _ _ _ _ _ _ h)
    simp only [h4, if_false, Bool.false_eq_true] at h
    by_cases h5 : st.check .SEMICOLON = true
    · simp only [h5, if_true] at h
      rcases hrs : st.parseReasonStatement with ⟨rs, st1⟩
      rw [hrs] at h
      dsimp only at h
      have okr : ScanOk st st1 := by
        have := parseReasonStatement_scanOk st
        rwa [hrs] at this
      exact okr.toExtOk.trans (ihNarLoop _ _ _ _ _ _ _ _ h)
    simp only [h5, if_false, Bool.false_eq_true] at h
    by_cases h6 : st.check .NEWLINE = true
    · simp only [h6, if_true] at h
      exact (advanceT_scanOk st).toExtOk.trans (ihNarLoop _ _ _ _ _ _ _ _ h)
    simp only [h6, if_false, Bool.false_eq_true] at h
    by_cases h7 : st.check .COMMENT = true
    · simp only [h7, if_true] at h
      exact (advanceT_scanOk st).toExtOk.trans (ihNarLoop _ _ _ _ _ _ _ _ h)
    simp only [h7, if_false, Bool.false_eq_true] at h
    simp only [Option.some.injEq, Prod.mk.injEq] at h
    obtain ⟨-, -, -, rfl⟩ := h
    exact ExtOk.refl st
  -- parseNorm
  · intro st r st' h
    rw [parseNorm_succ] at h
    dsimp only at h
    rcases hc : st.concludedMarker with ⟨concluded, st1⟩
    rw [hc] at h
    dsimp only at h
    have ok1 : ScanOk st st1 := by
      have := concludedMarker_scanOk st
      rwa [hc] at this
    rcases hd : st1.matchT .DOLLAR with ⟨isDollar, st2⟩
    rw [hd] at h
    dsimp only at h
    have ok2 : ScanOk st1 st2 := by
      have := matchT_scanOk st1 .DOLLAR
      rwa [hd] at this
    by_cases hD : isDollar = true
    · rw [if_pos hD] at h
      exact (ok1.trans' ok2).toExtOk.trans (ihCcr _ _ _ _ _ h)
    rw [if_neg hD] at h
    rcases he : st2.expectT .PERCENT "規範には % が必要です" with ⟨tk, st3⟩
    rw [he] at h
    dsimp only at h
    have ok3 : ExtOk st2 st3 := by
      have := expectT_extOk st2 .PERCENT "規範には % が必要です"
      rwa [he] at this
    rcases hn : st3.scanAcc [.CARET, .ARROW_LEFT, .COLON, .AS, .SEMICOLON,
      .NEWLINE] " " with ⟨content, st4⟩
    rw [hn] at h
    dsimp only at h
    have ok4 : ScanOk st3 st4 := by
      have := scanAcc_scanOk st3 [.CARET, .ARROW_LEFT, .COLON, .AS, .SEMICOLON,
        .NEWLINE] " "
      rwa [hn] at this
    rcases hr : st4.optionalReference with ⟨reference, st5⟩
    rw [hr] at h
    dsimp only at h
    have ok5 : ScanOk st4 st5 := by
      have := optionalReference_scanOk st4
      rwa [hr] at this
    rcases hm : st5.matchT .COLON with ⟨hasColon, st6⟩
    rw [hm] at h
    dsimp only at h
    have ok6 : ScanOk st5 st6 := by
      have := matchT_scanOk st5 .COLON
      rwa [hm] at this
    split at h
    next heq => exact Option.noConfusion h
    next subNorm fact st7 heq =>
      have ok7 : ExtOk st6 st7 := by
        by_cases hA : hasColon = true
        · rw [if_pos hA] at heq
          by_cases hB : (st6.check .PERCENT || st6.check .PLUS ||
              st6.check .EXCLAIM) = true
          · simp only [hB, if_true] at heq
            cases hpn : parseNorm f st6 with
            | none => rw [hpn] at heq; exact Option.noConfusion heq
            | some val =>
              rcases val with ⟨n1, st7'⟩
              rw [hpn] at heq
              dsimp only at heq
              simp only [Option.some.injEq, Prod.mk.injEq] at heq
              obtain ⟨-, -, rfl⟩ := heq
              exact ihNorm _ _ _ hpn
          · simp only [hB, if_false, Bool.false_eq_true] at heq
            simp only [Option.some.injEq, Prod.mk.injEq] at heq
            obtain ⟨-, -, rfl⟩ := heq
            exact ExtOk.refl st6
        · rw [if_neg hA] at heq
          simp only [Option.some.injEq, Prod.mk.injEq] at heq
          obtain ⟨-, -, rfl⟩ := heq
          exact ExtOk.refl st6
      split at h
      next heq2 => exact Option.noConfusion h
      next fact2 st8 heq2 =>
        have ok8 : ExtOk st7 st8 := arrowFactOpt_extOk ihFact heq2
        exact ((((((ok1.trans' ok2).toExtOk.trans ok3).trans ok4.toExtOk).trans
          ok5.toExtOk).trans ok6.toExtOk).trans (ok7.trans ok8)).trans
          (normFinish_extOk ihFact h)
  -- parseConstantReference
  · intro st p c r st' h
    unfold parseConstantReference at h
    dsimp only at h
    rcases hn : st.scanAcc [.ARROW_LEFT, .COLON, .SEMICOLON, .NEWLINE] " "
      with ⟨constNameRaw, st1⟩
    rw [hn] at h
    dsimp only at h
    have ok1 : ScanOk st st1 := by
      have := scanAcc_scanOk st [.ARROW_LEFT, .COLON, .SEMICOLON, .NEWLINE] " "
      rwa [hn] at this
    cases hg : mapGet st1.constants (trimJs constNameRaw) with
    | some constDef =>
      rw [hg] at h
      dsimp only at h
      split at h
      next heq => exact Option.noConfusion h
      next fact st2 heq =>
        simp only [Option.some.injEq, Prod.mk.injEq] at h
        obtain ⟨-, rfl⟩ := h
        exact ok1.toExtOk.trans (arrowFactOpt_extOk ihFact heq)
    | none =>
      rw [hg] at h
      dsimp only at h
      split at h
      next heq => exact Option.noConfusion h
      next fact st2 heq =>
        simp only [Option.some.injEq, Prod.mk.injEq] at h
        obtain ⟨-, rfl⟩ := h
        exact (ok1.toExtOk.trans (addErr_extOk st1 _)).trans
          (arrowFactOpt_extOk ihFact heq)
  -- parseIssueAsRequirement
  · intro st r st' h
    unfold parseIssueAsRequirement at h
    dsimp only at h
    split at h
    next heq => exact Option.noConfusion h
    next issue st1 heq =>
      simp only [Option.some.injEq, Prod.mk.injEq] at h
      obtain ⟨-, rfl⟩ := h
      exact ihIss _ _ _ heq
  -- parseIssue
  · intro st r st' h
    unfold parseIssue at h
    dsimp only at h
    rcases he : st.expectT .QUESTION "論点には ? が必要です" with ⟨tk, st1⟩
    rw [he] at h
    dsimp only at h
    have ok1 : ExtOk st st1 := by
      have := expectT_extOk st .QUESTION "論点には ? が必要です"
      rwa [he] at this
    rcases hn : st1.scanAcc [.TILDE_ARROW, .IMPLIES, .NEWLINE] " "
      with ⟨question, st2⟩
    rw [hn] at h
    dsimp only at h
    have ok2 : ScanOk st1 st2 := by
      have := scanAcc_scanOk st1 [.TILDE_ARROW, .IMPLIES, .NEWLINE] " "
      rwa [hn] at this
    rcases hrs : st2.optionalReasons with ⟨reasons, st3⟩
    rw [hrs] at h
    dsimp only at h
    have ok3 : ExtOk st2 st3 := by
      have := optionalReasons_extOk st2
      rwa [hrs] at this
    rcases he2 : st3.expectT .IMPLIES "論点には => が必要です" with ⟨tk2, st4⟩
    rw [he2] at h
    dsimp only at h
    have ok4 : ExtOk st3 st4 := by
      have := expectT_extOk st3 .IMPLIES "論点には => が必要です"
      rwa [he2] at this
    split at h
    next heq => exact Option.noConfusion h
    next norm st5 heq =>
      have ok5 : ExtOk st4 st5 := ihNorm _ _ _ heq
      split at h
      next heq2 => exact Option.noConfusion h
      next norm2 st6 heq2 =>
        have ok6 : ExtOk st5.skipNewlines st6 := by
          by_cases hI : (st5.skipNewlines).check .INDENT = true
          · simp only [hI, if_true] at heq2
            cases hil : issueLoop f ((st5.skipNewlines).advanceT).2 norm with
            | none => rw [hil] at heq2; exact Option.noConfusion heq2
            | some val =>
              rcases val with ⟨n1, st6'⟩
              rw [hil] at heq2
              dsimp only at heq2
              simp only [Option.some.injEq, Prod.mk.injEq] at heq2
              obtain ⟨-, rfl⟩ := heq2
              exact ((advanceT_scanOk _).toExtOk.trans
                (ihIssLoop _ _ _ _ hil)).trans
                (consumeDedent_scanOk st6').toExtOk
          · simp only [hI, if_false, Bool.false_eq_true] at heq2
            simp only [Option.some.injEq, Prod.mk.injEq] at heq2
            obtain ⟨-, rfl⟩ := heq2
            exact ExtOk.refl _
        simp only [Option.some.injEq, Prod.mk.injEq] at h
        obtain ⟨-, rfl⟩ := h
        exact (((ok1.trans ok2.toExtOk).trans ok3).trans ok4).trans
          (ok5.trans ((skipNewlines_scanOk st5).toExtOk.trans ok6))
  -- issueLoop
  · intro st n r st' h
    unfold issueLoop at h
    by_cases h1 : (st.isAtEnd || st.check .DEDENT) = true
    · simp only [h1, if_true] at h
      simp only [Option.some.injEq, Prod.mk.injEq] at h
      obtain ⟨-, rfl⟩ := h
      exact ExtOk.refl st
    simp only [h1, if_false, Bool.false_eq_true] at h
    by_cases h2 : (st.check .PERCENT || st.check .PLUS ||
        st.check .EXCLAIM) = true
    · simp only [h2, if_true] at h
      split at h
      next heq => exact Option.noConfusion h
      next rq st1 heq =>
        exact (ihNar _ _ _ heq).trans (ihIssLoop _ _ _ _ h)
    simp only [h2, if_false, Bool.false_eq_true] at h
    by_cases h3 : st.check .NEWLINE = true
    · simp only [h3, if_true] at h
      exact (advanceT_scanOk st).toExtOk.trans (ihIssLoop _ _ _ _ h)
    simp only [h3, if_false, Bool.false_eq_true] at h
    simp only [Option.some.injEq, Prod.mk.injEq] at h
    obtain ⟨-, rfl⟩ := h
    exact ExtOk.refl st
  -- parseFact
  · intro st r st' h
    unfold parseFact at h
    dsimp only at h
    rcases hm : st.matchT .LPAREN with ⟨isL, st1⟩
    rw [hm] at h
    dsimp only at h
    have ok1 : ScanOk st st1 := by
      have := matchT_scanOk st .LPAREN
      rwa [hm] at this
    by_cases hL : isL = true
    · rw [if_pos hL] at h
      exact ok1.toExtOk.trans (ihCf _ _ _ _ h)
    rw [if_neg hL] at h
    rcases hf : st1.flatFactScan with ⟨content, evaluations, st2⟩
    rw [hf] at h
    dsimp only at h
    have ok2 : ScanOk st1 st2 := by
      have := flatFactScan_scanOk st1
      rwa [hf] at this
    simp only [Option.some.injEq, Prod.mk.injEq] at h
    obtain ⟨-, rfl⟩ := h
    exact (ok1.trans' ok2).toExtOk
  -- parseCompoundFact
  · intro st p r st' h
    unfold parseCompoundFact at h
    dsimp only at h
    split at h
    next heq => exact Option.noConfusion h
    next c1 st1 heq =>
      have ok1 : ExtOk st st1 := ihFact _ _ _ heq
      split at h
      next heq2 => exact Option.noConfusion h
      next children operator st2 heq2 =>
        have ok2 : ExtOk st1 st2 := ihCfLoop _ _ _ _ _ _ heq2
        rcases he : st2.expectT .RPAREN "閉じ括弧 ) が必要です" with ⟨tk, st3⟩
        rw [he] at h
        dsimp only at h
        have ok3 : ExtOk st2 st3 := by
          have := expectT_extOk st2 .RPAREN "閉じ括弧 ) が必要です"
          rwa [he] at this
        rcases hv : st3.optionalEvaluation with ⟨evaluation, st4⟩
        rw [hv] at h
        dsimp only at h
        have ok4 : ScanOk st3 st4 := by
          have := optionalEvaluation_scanOk st3
          rwa [hv] at this
        simp only [Option.some.injEq, Prod.mk.injEq] at h
        obtain ⟨-, rfl⟩ := h
        exact ((ok1.trans ok2).trans ok3).trans ok4.toExtOk
  -- cfLoop
  · intro st a b r1 r2 st' h
    unfold cfLoop at h
    by_cases h1 : st.check .AND = true
    · simp only [h1, if_true] at h
      split at h
      next heq => exact Option.noConfusion h
      next c1 st1 heq =>
        exact ((advanceT_scanOk st).toExtOk.trans (ihFact _ _ _ heq)).trans
          (ihCfLoop _ _ _ _ _ _ h)
    simp only [h1, if_false, Bool.false_eq_true] at h
    by_cases h2 : st.check .OR = true
    · simp only [h2, if_true] at h
      split at h
      next heq => exact Option.noConfusion h
      next c1 st1 heq =>
        exact ((advanceT_scanOk st).toExtOk.trans (ihFact _ _ _ heq)).trans
          (ihCfLoop _ _ _ _ _ _ h)
    simp only [h2, if_false, Bool.false_eq_true] at h
    simp only [Option.some.injEq, Prod.mk.injEq] at h
    obtain ⟨-, -, rfl⟩ := h
    exact ExtOk.refl st


/-! ## Helpers for the fuel-sufficiency argument -/

/-- A well-formed state has at least one token left. -/
theorem pm_pos {st : PState} (hw : Wf st) : 0 < pm st :=
  Nat.sub_pos_of_lt hw.2

/-- The remaining-token measure is antitone in the cursor. -/
theorem pm_le_of {st st2 : PState} (ht : st2.tokens = st.tokens)
    (hp : st.pos ≤ st2.pos) : pm st2 ≤ pm st := by
  unfold pm
  rw [ht]
  exact Nat.sub_le_sub_left hp _

/-- A strict cursor advance strictly decreases the measure (in range). -/
theorem pm_lt_of {st st2 : PState} (hw : Wf st) (ht : st2.tokens = st.tokens)
    (hp : st.pos < st2.pos) : pm st2 < pm st := by
  unfold pm
  rw [ht]
  have h2 := hw.2
  omega

/-- Token-array component of `ExtOk`. -/
theorem ExtOk.tok {a b : PState} (h : ExtOk a b) : b.tokens = a.tokens := h.1

/-- Cursor component of `ExtOk`. -/
theorem ExtOk.les {a b : PState} (h : ExtOk a b) : a.pos ≤ b.pos := h.2.1

/-- Well-formedness component of `ExtOk`. -/
theorem ExtOk.wfp {a b : PState} (h : ExtOk a b) : Wf a → Wf b := h.2.2.2

/-- `ExtOk` does not increase the remaining-token measure. -/
theorem ExtOk.pmle {a b : PState} (h : ExtOk a b) : pm b ≤ pm a :=
  pm_le_of h.1 h.2.1

/-- Token-array component of `ScanOk`. -/
theorem ScanOk.tok' {a b : PState} (h : ScanOk a b) : b.tokens = a.tokens := h.1

/-- Cursor component of `ScanOk`. -/
theorem ScanOk.les' {a b : PState} (h : ScanOk a b) : a.pos ≤ b.pos := h.2.1

/-- Well-formedness component of `ScanOk`. -/
theorem ScanOk.wfp' {a b : PState} (h : ScanOk a b) : Wf a → Wf b := h.2.2.2.2

/-- `ScanOk` does not increase the remaining-token measure. -/
theorem ScanOk.pmle' {a b : PState} (h : ScanOk a b) : pm b ≤ pm a :=
  pm_le_of h.1 h.2.1

/-- `addErr` leaves the token array alone. -/
theorem addErr_tokens (st : PState) (m : String) :
    (st.addErr m).tokens = st.tokens := rfl

/-- `addErr` leaves the cursor alone. -/
theorem addErr_pos (st : PState) (m : String) : (st.addErr m).pos = st.pos :=
  rfl

/-- `addErr` does not move the end-of-input test. -/
theorem addErr_isAtEnd (st : PState) (m : String) :
    (st.addErr m).isAtEnd = st.isAtEnd := rfl

/-- `addErr` does not move the cursor token. -/
theorem addErr_check (st : PState) (m : String) (t : TokenType) :
    (st.addErr m).check t = st.check t := rfl

/-- `addErr` preserves well-formedness. -/
theorem addErr_wf {st : PState} (hw : Wf st) (m : String) :
    Wf (st.addErr m) := hw

/-- A successful `matchT` means the token was there and was consumed. -/
theorem matchT_eq_true {st st1 : PState} {t : TokenType}
    (h : st.matchT t = (true, st1)) :
    st.check t = true ∧ st1 = (st.advanceT).2 := by
  by_cases hc : st.check t = true
  · rw [matchT_of_check hc] at h
    simp only [Prod.mk.injEq] at h
    exact ⟨hc, h.2.symm⟩
  · have hc2 : st.check t = false := by
      revert hc
      cases st.check t <;> simp
    rw [matchT_of_not_check hc2] at h
    simp only [Prod.mk.injEq] at h
    exact absurd h.1.symm (by simp)

/-- A failing `matchT` does not move the state. -/
theorem matchT_eq_false {st st1 : PState} {t : TokenType}
    (h : st.matchT t = (false, st1)) : st1 = st := by
  by_cases hc : st.check t = true
  · rw [matchT_of_check hc] at h
    simp only [Prod.mk.injEq] at h
    exact absurd h.1 (by simp)
  · have hc2 : st.check t = false := by
      revert hc
      cases st.check t <;> simp
    rw [matchT_of_not_check hc2] at h
    simp only [Prod.mk.injEq] at h
    exact h.2.symm

/-- Only one token type can be under the cursor at a time. -/
theorem check_ne {st : PState} {t t' : TokenType} (h : st.check t = true)
    (hne : t' ≠ t) : st.check t' = false := by
  by_cases h2 : st.check t' = true
  · have h3 : st.peek.type = t := check_iff.mp h
    have h4 : st.peek.type = t' := check_iff.mp h2
    exact absurd (h4.symm.trans h3) hne
  · revert h2
    cases st.check t' <;> simp

/-- `arrowFactOpt` succeeds whenever `parseFact` succeeds on every state
strictly below the current measure (the fact is only parsed after the
arrow token has been consumed). -/
theorem arrowFactOpt_suff {fuel : Nat} {st : PState}
    (ihFact : ∀ st2, Wf st2 → pm st2 < pm st →
      ∃ r st', parseFact fuel st2 = some (r, st'))
    (hw : Wf st) (dflt : Option Fact) :
    ∃ r st', arrowFactOpt fuel st dflt = some (r, st') := by
  unfold arrowFactOpt
  dsimp only
  rcases hm : st.matchT .ARROW_LEFT with ⟨hasArrow, st1⟩
  dsimp only
  by_cases hA : hasArrow = true
  · rw [if_pos hA]
    obtain ⟨hck, -⟩ := matchT_eq_true (hA ▸ hm)
    have ok1 : ScanOk st st1 := by
      have := matchT_scanOk st .ARROW_LEFT
      rwa [hm] at this
    have hw1 : Wf st1 := ok1.wfp' hw
    have hlt : pm st1 < pm st := by
      have hs := matchT_strict hck (by simp)
      rw [hm] at hs
      exact pm_lt_of hw ok1.tok' hs
    obtain ⟨r, st2, hF⟩ := ihFact st1 hw1 hlt
    rw [hF]
    dsimp only
    exact ⟨_, _, rfl⟩
  · rw [if_neg hA]
    exact ⟨_, _, rfl⟩

/-- `normFinish` succeeds whenever `parseFact` succeeds on every state
strictly below the current measure. -/
theorem normFinish_suff {fuel : Nat} {st : PState}
    (ihFact : ∀ st2, Wf st2 → pm st2 < pm st →
      ∃ r st', parseFact fuel st2 = some (r, st'))
    (hw : Wf st) (startPos : Position) (concluded : Option Concluded)
    (content : String) (reference : Option Reference) (subNorm : Option Norm)
    (fact : Option Fact) :
    ∃ r st', normFinish fuel st startPos concluded content reference subNorm
      fact = some (r, st') := by
  unfold normFinish
  dsimp only
  rcases hm : st.matchT .AS with ⟨hasAs, st1⟩
  dsimp only
  by_cases hA : hasAs = true
  · rw [if_pos hA]
    obtain ⟨hck, -⟩ := matchT_eq_true (hA ▸ hm)
    have ok1 : ScanOk st st1 := by
      have := matchT_scanOk st .AS
      rwa [hm] at this
    have hw1 : Wf st1 := ok1.wfp' hw
    have hlt1 : pm st1 < pm st := by
      have hs := matchT_strict hck (by simp)
      rw [hm] at hs
      exact pm_lt_of hw ok1.tok' hs
    rcases hs : st1.scanAcc [.ARROW_LEFT, .NEWLINE] " " with ⟨constName, st2⟩
    dsimp only
    have ok2 : ScanOk st1 st2 := by
      have := scanAcc_scanOk st1 [.ARROW_LEFT, .NEWLINE] " "
      rwa [hs] at this
    have hw2 : Wf st2 := ok2.wfp' hw1
    obtain ⟨f2, st3, hAF⟩ := arrowFactOpt_suff
      (fun s2 w2 l2 => ihFact s2 w2
        (Nat.lt_of_lt_of_le l2 (ok2.pmle'.trans hlt1.le))) hw2 fact
    rw [hAF]
    dsimp only
    exact ⟨_, _, rfl⟩
  · rw [if_neg hA]
    exact ⟨_, _, rfl⟩

/-- `reqInlineCompound` succeeds whenever `parseNorm` and `parseFact`
succeed on every state strictly below the current measure. -/
theorem reqInlineCompound_suff {fuel : Nat} {st : PState}
    (ihNorm : ∀ st2, Wf st2 → pm st2 < pm st →
      ∃ r st', parseNorm fuel st2 = some (r, st'))
    (ihFact : ∀ st2, Wf st2 → pm st2 < pm st →
      ∃ r st', parseFact fuel st2 = some (r, st'))
    (hw : Wf st) :
    ∃ r1 r2 st', reqInlineCompound fuel st = some (r1, r2, st') := by
  unfold reqInlineCompound
  dsimp only
  rcases hm : st.matchT .COLON with ⟨hasColon, st1⟩
  dsimp only
  have ok1 : ScanOk st st1 := by
    have := matchT_scanOk st .COLON
    rwa [hm] at this
  have hw1 : Wf st1 := ok1.wfp' hw
  by_cases hA : hasColon = true
  · rw [if_pos hA]
    obtain ⟨hck, -⟩ := matchT_eq_true (hA ▸ hm)
    have hlt1 : pm st1 < pm st := by
      have hs := matchT_strict hck (by simp)
      rw [hm] at hs
      exact pm_lt_of hw ok1.tok' hs
    by_cases hB : (st1.check .PERCENT || st1.check .DOLLAR ||
        st1.check .PLUS || st1.check .EXCLAIM) = true
    · simp only [hB, if_true]
      obtain ⟨n, st2, hN⟩ := ihNorm st1 hw1 hlt1
      rw [hN]
      dsimp only
      exact ⟨_, _, _, rfl⟩
    · simp only [hB, if_false, Bool.false_eq_true]
      obtain ⟨f2, st2, hAF⟩ := arrowFactOpt_suff
        (fun s2 w2 l2 => ihFact s2 w2 (l2.trans hlt1)) hw1 none
      rw [hAF]
      dsimp only
      exact ⟨_, _, _, rfl⟩
  · rw [if_neg hA]
    have hst1 : st1 = st := matchT_eq_false (by
      have hA2 : hasColon = false := by
        revert hA
        cases hasColon <;> simp
      exact hA2 ▸ hm)
    subst hst1
    obtain ⟨f2, st2, hAF⟩ := arrowFactOpt_suff ihFact hw1 none
    rw [hAF]
    dsimp only
    exact ⟨_, _, _, rfl⟩

/-- Reporting an error and skipping to the newline only extends the
state. -/
theorem addErrSkipUntil_extOk (st : PState) (m : String) :
    ExtOk st ((st.addErr m).skipUntilNewline) :=
  (addErr_extOk st m).trans (skipUntilNewline_scanOk _).toExtOk

/-- Reporting an error and skipping to the newline consumes a token. -/
theorem addErrSkipUntil_strict {st : PState} (hw : Wf st)
    (he : st.isAtEnd = false) (m : String) :
    st.pos < ((st.addErr m).skipUntilNewline).pos := by
  have h := skipUntilNewline_strict (addErr_wf hw m)
    ((addErr_isAtEnd st m).trans he)
  rwa [addErr_pos] at h

/-- Reporting an error and skipping an orphaned block only extends the
state. -/
theorem addErrSkipOrphan_extOk (st : PState) (m : String) :
    ExtOk st ((st.addErr m).skipOrphanedIndentedBlock) :=
  (addErr_extOk st m).trans (skipOrphanedIndentedBlock_scanOk _).toExtOk

/-- Reporting an error and skipping an orphaned block consumes a token. -/
theorem addErrSkipOrphan_strict {st : PState} (he : st.isAtEnd = false)
    (m : String) :
    st.pos < ((st.addErr m).skipOrphanedIndentedBlock).pos := by
  have h := skipOrphanedIndentedBlock_strict
    ((addErr_isAtEnd st m).trans he)
  rwa [addErr_pos] at h

/-- Reporting an error and advancing only extends the state. -/
theorem addErrAdvance_extOk (st : PState) (m : String) :
    ExtOk st ((st.addErr m).advanceT).2 :=
  (addErr_extOk st m).trans (advanceT_scanOk _).toExtOk

/-- Reporting an error and advancing consumes a token. -/
theorem addErrAdvance_strict {st : PState} (he : st.isAtEnd = false)
    (m : String) : st.pos < (((st.addErr m).advanceT).2).pos := by
  have h := advanceT_strict ((addErr_isAtEnd st m).trans he)
  rwa [addErr_pos] at h

set_option maxHeartbeats 4000000 in
/-- Fuel sufficiency for the recursive-descent core: on a well-formed
state, a fuel budget of `16 * (remaining tokens) + k` (with a small
per-function constant `k`) is enough for every core function to return,
and the entry-point family also consumes at least one token when its
dispatch guard is on. -/
theorem suff_all : ∀ fuel : Nat,
    (∀ st, Wf st → 16 * pm st + 3 ≤ fuel →
      ∃ r st', parseDocument fuel st = some (r, st')) ∧
    (∀ st acc, Wf st → 16 * pm st + 2 ≤ fuel →
      ∃ r st', docLoop fuel st acc = some (r, st')) ∧
    (∀ st, Wf st → 16 * pm st + 1 ≤ fuel →
      ∃ r st', parseNamespace fuel st = some (r, st') ∧
        (st.isAtEnd = false → st.pos < st'.pos)) ∧
    (∀ st acc, Wf st → 16 * pm st + 2 ≤ fuel →
      ∃ r st', nsLoop fuel st acc = some (r, st')) ∧
    (∀ st, Wf st → 16 * pm st + 1 ≤ fuel →
      ∃ r st', parseClaim fuel st = some (r, st') ∧
        ((st.check .HASH || st.check .PLUS || st.check .EXCLAIM) = true →
          st.pos < st'.pos)) ∧
    (∀ st a b c, Wf st → 16 * pm st + 4 ≤ fuel →
      ∃ r1 r2 r3 st', claimLoop fuel st a b c = some (r1, r2, r3, st')) ∧
    (∀ st, Wf st → 16 * pm st + 1 ≤ fuel →
      ∃ r st', parseRequirement fuel st = some (r, st') ∧
        ((st.check .LPAREN || st.check .PERCENT || st.check .DOLLAR ||
          st.check .PLUS || st.check .EXCLAIM) = true →
          st.pos < st'.pos)) ∧
    (∀ st a b c, Wf st → 16 * pm st + 3 ≤ fuel →
      ∃ r1 r2 r3 st', reqLoop fuel st a b c = some (r1, r2, r3, st')) ∧
    (∀ st, Wf st → 16 * pm st + 2 ≤ fuel →
      ∃ r st', parseNormAsRequirement fuel st = some (r, st') ∧
        ((st.check .PERCENT || st.check .DOLLAR || st.check .PLUS ||
          st.check .EXCLAIM) = true → st.pos < st'.pos)) ∧
    (∀ st a b c, Wf st → 16 * pm st + 3 ≤ fuel →
      ∃ r1 r2 r3 st', narLoop fuel st a b c = some (r1, r2, r3, st')) ∧
    (∀ st, Wf st → 16 * pm st + 1 ≤ fuel →
      ∃ r st', parseNorm fuel st = some (r, st') ∧
        ((st.check .PERCENT || st.check .DOLLAR || st.check .PLUS ||
          st.check .EXCLAIM) = true → st.pos < st'.pos)) ∧
    (∀ st p c, Wf st → 16 * pm st + 1 ≤ fuel →
      ∃ r st', parseConstantReference fuel st p c = some (r, st')) ∧
    (∀ st, Wf st → 16 * pm st + 3 ≤ fuel →
      ∃ r st', parseIssueAsRequirement fuel st = some (r, st') ∧
        (st.check .QUESTION = true → st.pos < st'.pos)) ∧
    (∀ st, Wf st → 16 * pm st + 2 ≤ fuel →
      ∃ r st', parseIssue fuel st = some (r, st') ∧
        (st.check .QUESTION = true → st.pos < st'.pos)) ∧
    (∀ st n, Wf st → 16 * pm st + 3 ≤ fuel →
      ∃ r st', issueLoop fuel st n = some (r, st')) ∧
    (∀ st, Wf st → 16 * pm st + 1 ≤ fuel →
      ∃ r st', parseFact fuel st = some (r, st')) ∧
    (∀ st p, Wf st → 16 * pm st + 2 ≤ fuel →
      ∃ r st', parseCompoundFact fuel st p = some (r, st')) ∧
    (∀ st a b, Wf st → 16 * pm st + 1 ≤ fuel →
      ∃ r1 r2 st', cfLoop fuel st a b = some (r1, r2, st')) := by
  intro fuel
  induction fuel using Nat.strong_induction_on with
  | _ fuel IH =>
  cases fuel with
  | zero =>
    refine ⟨?_, ?_, ?_, ?_, ?_, ?_, ?_, ?_, ?_, ?_, ?_, ?_, ?_, ?_, ?_, ?_,
      ?_, ?_⟩ <;>
      (intros
       rename_i hw hb
       exact absurd hb (by have h2 := pm_pos hw; omega))
  | succ f =>
  obtain ⟨ihDoc, ihDocLoop, ihNs, ihNsLoop, ihClaim, ihClaimLoop, ihReq,
    ihReqLoop, ihNar, ihNarLoop, ihNorm, ihCcr, ihIar, ihIss, ihIssLoop,
    ihFact, ihCf, ihCfLoop⟩ := IH f (Nat.lt_succ_self f)
  obtain ⟨eDoc, eDocLoop, eNs, eNsLoop, eClaim, eClaimLoop, eReq, eReqLoop,
    eNar, eNarLoop, eNorm, eCcr, eIar, eIss, eIssLoop, eFact, eCf,
    eCfLoop⟩ := extOk_all f
  refine ⟨?_, ?_, ?_, ?_, ?_, ?_, ?_, ?_, ?_, ?_, ?_, ?_, ?_, ?_, ?_, ?_,
    ?_, ?_⟩
  -- parseDocument
  · intro st hw hb
    unfold parseDocument
    dsimp only
    have ok1 : ScanOk st st.skipNewlines := skipNewlines_scanOk st
    have hw1 : Wf st.skipNewlines := ok1.wfp' hw
    obtain ⟨r1, st1, hD⟩ := ihDocLoop st.skipNewlines [] hw1
      (by have h1 := ok1.pmle'; omega)
    rw [hD]
    dsimp only
    exact ⟨_, _, rfl⟩
  -- docLoop
  · intro st acc hw hb
    unfold docLoop
    by_cases h1 : st.isAtEnd = true
    · simp only [h1, if_true]
      exact ⟨_, _, rfl⟩
    have h1f : st.isAtEnd = false := by
      revert h1
      cases st.isAtEnd <;> simp
    simp only [h1, if_false, Bool.false_eq_true]
    by_cases h2 : st.check .DOUBLE_COLON = true
    · simp only [h2, if_true]
      obtain ⟨r1, st1, hN, hNs⟩ := ihNs st hw (by omega)
      rw [hN]
      dsimp only
      have ok1 : ExtOk st st1 := eNs _ _ _ hN
      have hlt : pm st1 < pm st := pm_lt_of hw ok1.tok (hNs h1f)
      exact ihDocLoop st1 _ (ok1.wfp hw) (by omega)
    simp only [h2, if_false, Bool.false_eq_true]
    by_cases h3 : st.check .COMMENT = true
    · simp only [h3, if_true]
      rcases hc : st.parseComment with ⟨c, st1⟩
      dsimp only
      have okc : ScanOk st st1 := by
        have := parseComment_scanOk st
        rwa [hc] at this
      have hlt : pm st1 < pm st := pm_lt_of hw okc.tok' (by
        have := parseComment_strict h1f
        rwa [hc] at this)
      exact ihDocLoop st1 _ (okc.wfp' hw) (by omega)
    simp only [h3, if_false, Bool.false_eq_true]
    by_cases h4 : (st.check .HASH || st.check .PLUS || st.check .EXCLAIM) = true
    · simp only [h4, if_true]
      obtain ⟨c1, st1, hC, hCs⟩ := ihClaim st hw (by omega)
      rw [hC]
      dsimp only
      have ok1 : ExtOk st st1 := eClaim _ _ _ hC
      have hlt : pm st1 < pm st := pm_lt_of hw ok1.tok (hCs h4)
      exact ihDocLoop st1 _ (ok1.wfp hw) (by omega)
    simp only [h4, if_false, Bool.false_eq_true]
    by_cases h5 : st.check .NEWLINE = true
    · simp only [h5, if_true]
      have ok1 : ScanOk st (st.advanceT).2 := advanceT_scanOk st
      have hlt : pm (st.advanceT).2 < pm st :=
        pm_lt_of hw ok1.tok' (advanceT_strict h1f)
      exact ihDocLoop _ _ (ok1.wfp' hw) (by omega)
    simp only [h5, if_false, Bool.false_eq_true]
    by_cases h6 : st.check .SEMICOLON = true
    · simp only [h6, if_true]
      rcases hr : st.parseReasonStatement with ⟨rs, st1⟩
      dsimp only
      have okr : ScanOk st st1 := by
        have := parseReasonStatement_scanOk st
        rwa [hr] at this
      have hlt : pm st1 < pm st := pm_lt_of hw okr.tok' (by
        have := parseReasonStatement_strict h1f
        rwa [hr] at this)
      exact ihDocLoop st1 _ (okr.wfp' hw) (by omega)
    simp only [h6, if_false, Bool.false_eq_true]
    by_cases h7 : st.check .INDENT = true
    · simp only [h7, if_true]
      have ok1 := addErrSkipOrphan_extOk st
        "インデントされた内容は主張（#）または名前空間（::）の内部に記述してください"
      have hlt : pm ((st.addErr "インデントされた内容は主張（#）または名前空間（::）の内部に記述してください").skipOrphanedIndentedBlock) < pm st :=
        pm_lt_of hw ok1.tok (addErrSkipOrphan_strict h1f _)
      exact ihDocLoop _ _ (ok1.wfp hw) (by omega)
    simp only [h7, if_false, Bool.false_eq_true]
    by_cases h8 : st.check .LPAREN = true
    · simp only [h8, if_true]
      have ok1 := addErrSkipUntil_extOk st "要件()は主張（#）の内部に記述してください"
      have hlt : pm ((st.addErr "要件()は主張（#）の内部に記述してください").skipUntilNewline) < pm st :=
        pm_lt_of hw ok1.tok (addErrSkipUntil_strict hw h1f _)
      exact ihDocLoop _ _ (ok1.wfp hw) (by omega)
    simp only [h8, if_false, Bool.false_eq_true]
    by_cases h9 : st.check .PERCENT = true
    · simp only [h9, if_true]
      have ok1 := addErrSkipUntil_extOk st "規範（%）は主張（#）の内部に記述してください"
      have hlt : pm ((st.addErr "規範（%）は主張（#）の内部に記述してください").skipUntilNewline) < pm st :=
        pm_lt_of hw ok1.tok (addErrSkipUntil_strict hw h1f _)
      exact ihDocLoop _ _ (ok1.wfp hw) (by omega)
    simp only [h9, if_false, Bool.false_eq_true]
    by_cases h10 : st.check .QUESTION = true
    · simp only [h10, if_true]
      have ok1 := addErrSkipUntil_extOk st "論点（?）は主張（#）の内部に記述してください"
      have hlt : pm ((st.addErr "論点（?）は主張（#）の内部に記述してください").skipUntilNewline) < pm st :=
        pm_lt_of hw ok1.tok (addErrSkipUntil_strict hw h1f _)
      exact ihDocLoop _ _ (ok1.wfp hw) (by omega)
    simp only [h10, if_false, Bool.false_eq_true]
    by_cases h11 : st.check .ARROW_RIGHT = true
    · simp only [h11, if_true]
      have ok1 := addErrSkipUntil_extOk st "効果（>>）は主張（#）の後に記述してください"
      have hlt : pm ((st.addErr "効果（>>）は主張（#）の後に記述してください").skipUntilNewline) < pm st :=
        pm_lt_of hw ok1.tok (addErrSkipUntil_strict hw h1f _)
      exact ihDocLoop _ _ (ok1.wfp hw) (by omega)
    simp only [h11, if_false, Bool.false_eq_true]
    have ok1 := addErrAdvance_extOk st ("予期しないトークン: " ++ st.peek.type.toName)
    have hlt : pm (((st.addErr ("予期しないトークン: " ++ st.peek.type.toName)).advanceT).2) < pm st :=
      pm_lt_of hw ok1.tok (addErrAdvance_strict h1f _)
    exact ihDocLoop _ _ (ok1.wfp hw) (by omega)
  -- parseNamespace
  · intro st hw hb
    unfold parseNamespace
    dsimp only
    rcases ha : st.advanceT with ⟨startToken, st1⟩
    dsimp only
    have ok1 : ScanOk st st1 := by
      have := advanceT_scanOk st
      rwa [ha] at this
    have hw1 : Wf st1 := ok1.wfp' hw
    rcases hn : st1.scanAcc [.NEWLINE] " " with ⟨nm, st2⟩
    dsimp only
    have ok2 : ScanOk st1 st2 := by
      have := scanAcc_scanOk st1 [.NEWLINE] " "
      rwa [hn] at this
    have hw2 : Wf st2 := ok2.wfp' hw1
    have ok3 : ScanOk st2 st2.skipNewlines := skipNewlines_scanOk st2
    have hw3 : Wf st2.skipNewlines := ok3.wfp' hw2
    by_cases hi : (st2.skipNewlines).check .INDENT = true
    · simp only [hi, if_true]
      have ok4 : ScanOk st2.skipNewlines ((st2.skipNewlines).advanceT).2 :=
        advanceT_scanOk _
      have hw4 : Wf ((st2.skipNewlines).advanceT).2 := ok4.wfp' hw3
      have hs4 : pm ((st2.skipNewlines).advanceT).2 < pm st := by
        have hstr := advanceT_strict (check_not_atEnd hi (by simp))
        have h5 := pm_lt_of hw3 ok4.tok' hstr
        have h6 := ok3.pmle'
        have h7 := ok2.pmle'
        have h8 := ok1.pmle'
        omega
      obtain ⟨cs, st5, hL⟩ := ihNsLoop _ [] hw4 (by omega)
      rw [hL]
      dsimp only
      refine ⟨_, _, rfl, fun he => ?_⟩
      have e5 : ExtOk _ st5 := eNsLoop _ _ _ _ hL
      calc st.pos < st1.pos := by
             have := advanceT_strict he
             rwa [ha] at this
        _ ≤ st2.pos := ok2.les'
        _ ≤ (st2.skipNewlines).pos := ok3.les'
        _ ≤ _ := ok4.les'
        _ ≤ st5.pos := e5.les
        _ ≤ (st5.consumeDedent).pos := (consumeDedent_scanOk st5).les'
    · simp only [hi, if_false, Bool.false_eq_true]
      refine ⟨_, _, rfl, fun he => ?_⟩
      calc st.pos < st1.pos := by
             have := advanceT_strict he
             rwa [ha] at this
        _ ≤ st2.pos := ok2.les'
        _ ≤ (st2.skipNewlines).pos := ok3.les'
  -- nsLoop
  · intro st acc hw hb
    unfold nsLoop
    by_cases h1 : (st.isAtEnd || st.check .DEDENT) = true
    · simp only [h1, if_true]
      exact ⟨_, _, rfl⟩
    have h1f : st.isAtEnd = false := by
      revert h1
      cases st.isAtEnd <;> simp
    simp only [h1, if_false, Bool.false_eq_true]
    by_cases h2 : st.check .COMMENT = true
    · simp only [h2, if_true]
      rcases hc : st.parseComment with ⟨c, st1⟩
      dsimp only
      have okc : ScanOk st st1 := by
        have := parseComment_scanOk st
        rwa [hc] at this
      have hlt : pm st1 < pm st := pm_lt_of hw okc.tok' (by
        have := parseComment_strict h1f
        rwa [hc] at this)
      exact ihNsLoop st1 _ (okc.wfp' hw) (by omega)
    simp only [h2, if_false, Bool.false_eq_true]
    by_cases h3 : (st.check .HASH || st.check .PLUS || st.check .EXCLAIM) = true
    · simp only [h3, if_true]
      obtain ⟨c1, st1, hC, hCs⟩ := ihClaim st hw (by omega)
      rw [hC]
      dsimp only
      have ok1 : ExtOk st st1 := eClaim _ _ _ hC
      have hlt : pm st1 < pm st := pm_lt_of hw ok1.tok (hCs h3)
      exact ihNsLoop st1 _ (ok1.wfp hw) (by omega)
    simp only [h3, if_false, Bool.false_eq_true]
    by_cases h4 : st.check .NEWLINE = true
    · simp only [h4, if_true]
      have ok1 : ScanOk st (st.advanceT).2 := advanceT_scanOk st
      have hlt : pm (st.advanceT).2 < pm st :=
        pm_lt_of hw ok1.tok' (advanceT_strict h1f)
      exact ihNsLoop _ _ (ok1.wfp' hw) (by omega)
    simp only [h4, if_false, Bool.false_eq_true]
    exact ⟨_, _, rfl⟩
  -- parseClaim
  · intro st hw hb
    unfold parseClaim
    dsimp only
    rcases hc : st.concludedMarker with ⟨concluded, st1⟩
    dsimp only
    have ok1 : ScanOk st st1 := by
      have := concludedMarker_scanOk st
      rwa [hc] at this
    have hw1 : Wf st1 := ok1.wfp' hw
    rcases he : st1.expectT .HASH "主張には # が必要です" with ⟨tk, st2⟩
    dsimp only
    have ok2 : ExtOk st1 st2 := by
      have := expectT_extOk st1 .HASH "主張には # が必要です"
      rwa [he] at this
    have hw2 : Wf st2 := ok2.wfp hw1
    rcases hn : st2.scanAcc [.CARET, .ARROW_LEFT, .COLON, .NEWLINE] " "
      with ⟨nm, st3⟩
    dsimp only
    have ok3 : ScanOk st2 st3 := by
      have := scanAcc_scanOk st2 [.CARET, .ARROW_LEFT, .COLON, .NEWLINE] " "
      rwa [hn] at this
    have hw3 : Wf st3 := ok3.wfp' hw2
    rcases hr : st3.optionalReference with ⟨reference, st4⟩
    dsimp only
    have ok4 : ScanOk st3 st4 := by
      have := optionalReference_scanOk st3
      rwa [hr] at this
    have hw4 : Wf st4 := ok4.wfp' hw3
    have hpm4 : pm st4 ≤ pm st :=
      ok4.pmle'.trans (ok3.pmle'.trans (ok2.pmle.trans ok1.pmle'))
    obtain ⟨fact, st5, hAF⟩ := @arrowFactOpt_suff f st4
      (fun s2 w2 l2 => ihFact s2 w2 (by omega)) hw4 none
    rw [hAF]
    dsimp only
    have ok5 : ExtOk st4 st5 := arrowFactOpt_extOk eFact hAF
    have hw5 : Wf st5 := ok5.wfp hw4
    rcases hq : st5.matchT .COLON with ⟨hasReq, st6⟩
    dsimp only
    have ok6 : ScanOk st5 st6 := by
      have := matchT_scanOk st5 .COLON
      rwa [hq] at this
    have hw6 : Wf st6 := ok6.wfp' hw5
    have ok7 : ScanOk st6 st6.skipNewlines := skipNewlines_scanOk st6
    have hw7 : Wf st6.skipNewlines := ok7.wfp' hw6
    have hpm7 : pm st6.skipNewlines ≤ pm st :=
      ok7.pmle'.trans (ok6.pmle'.trans (ok5.pmle.trans hpm4))
    have hfirst : (st.check .HASH || st.check .PLUS ||
        st.check .EXCLAIM) = true → st.pos < st2.pos := by
      intro hg
      by_cases hPE : (st.check .PLUS || st.check .EXCLAIM) = true
      · have hor : st.check .PLUS = true ∨ st.check .EXCLAIM = true := by
          simpa only [Bool.or_eq_true] using hPE
        have h0 := concludedMarker_strict hor
        rw [hc] at h0
        exact Nat.lt_of_lt_of_le h0 ok2.les
      · have hP2 : st.check .PLUS = false := by
          revert hPE
          cases st.check .PLUS <;> simp
        have hE2 : st.check .EXCLAIM = false := by
          revert hPE
          cases st.check .EXCLAIM <;> simp
        have hH : st.check .HASH = true := by
          revert hg
          rw [hP2, hE2]
          simp
        have hid := concludedMarker_of_neither hP2 hE2
        rw [hid] at hc
        simp only [Prod.mk.injEq] at hc
        have hH1 : st1.check .HASH = true := hc.2 ▸ hH
        have h0 := @expectT_strict st1 TokenType.HASH "主張には # が必要です"
          hH1 (by simp)
        rw [he] at h0
        rw [hc.2]
        exact h0
    by_cases hR : (hasReq && (st6.skipNewlines).check .INDENT) = true
    · simp only [hR, if_true]
      have hand := hR
      simp only [Bool.and_eq_true] at hand
      have hIND := hand.2
      have ok8 : ScanOk st6.skipNewlines ((st6.skipNewlines).advanceT).2 :=
        advanceT_scanOk _
      have hw8 : Wf ((st6.skipNewlines).advanceT).2 := ok8.wfp' hw7
      have hlt8 : pm ((st6.skipNewlines).advanceT).2 < pm st := by
        have hstr := advanceT_strict (check_not_atEnd hIND (by simp))
        have h5 := pm_lt_of hw7 ok8.tok' hstr
        omega
      obtain ⟨r1, r2, r3, st9, hCL⟩ := ihClaimLoop _ [] [] none hw8 (by omega)
      rw [hCL]
      dsimp only
      have e9 : ExtOk _ st9 := eClaimLoop _ _ _ _ _ _ _ _ hCL
      have ok9 : ScanOk st9 st9.consumeDedent := consumeDedent_scanOk st9
      rcases hoe : (st9.consumeDedent).optionalEffect r3 with ⟨eff2, st10⟩
      dsimp only
      have ok10 : ExtOk st9.consumeDedent st10 := by
        have := optionalEffect_extOk st9.consumeDedent r3
        rwa [hoe] at this
      refine ⟨_, _, rfl, fun hg => ?_⟩
      exact Nat.lt_of_lt_of_le (hfirst hg) (ok3.les'.trans (ok4.les'.trans
        (ok5.les.trans (ok6.les'.trans (ok7.les'.trans (ok8.les'.trans
          (e9.les.trans (ok9.les'.trans ok10.les))))))))
    · simp only [hR, if_false, Bool.false_eq_true]
      rcases hoe : (st6.skipNewlines).optionalEffect none with ⟨eff2, st10⟩
      dsimp only
      have ok10 : ExtOk st6.skipNewlines st10 := by
        have := optionalEffect_extOk st6.skipNewlines none
        rwa [hoe] at this
      refine ⟨_, _, rfl, fun hg => ?_⟩
      exact Nat.lt_of_lt_of_le (hfirst hg) (ok3.les'.trans (ok4.les'.trans
        (ok5.les.trans (ok6.les'.trans (ok7.les'.trans ok10.les)))))
  -- claimLoop
  · intro st a b c hw hb
    unfold claimLoop
    by_cases h1 : (st.isAtEnd || st.check .DEDENT) = true
    · simp only [h1, if_true]
      exact ⟨_, _, _, _, rfl⟩
    have h1f : st.isAtEnd = false := by
      revert h1
      cases st.isAtEnd <;> simp
    simp only [h1, if_false, Bool.false_eq_true]
    by_cases h2 : st.check .LPAREN = true
    · simp only [h2, if_true]
      obtain ⟨r1, st1, hR, hRs⟩ := ihReq st hw (by omega)
      rw [hR]
      dsimp only
      have ok1 : ExtOk st st1 := eReq _ _ _ hR
      have hlt : pm st1 < pm st := pm_lt_of hw ok1.tok (hRs (by simp [h2]))
      exact ihClaimLoop st1 _ _ _ (ok1.wfp hw) (by omega)
    simp only [h2, if_false, Bool.false_eq_true]
    by_cases h3 : (st.check .PERCENT || st.check .DOLLAR ||
        (st.check .PLUS && ((st.peekN 1).type == .PERCENT ||
          (st.peekN 1).type == .DOLLAR)) ||
        (st.check .PLUS && (st.peekN 1).type == .LPAREN) ||
        (st.check .EXCLAIM && ((st.peekN 1).type == .PERCENT ||
          (st.peekN 1).type == .DOLLAR)) ||
        (st.check .EXCLAIM && (st.peekN 1).type == .LPAREN)) = true
    · simp only [h3, if_true]
      by_cases hp : ((st.peekN 1).type == .LPAREN) = true
      · simp only [hp, if_true]
        obtain ⟨r1, st1, hR, hRs⟩ := ihReq st hw (by omega)
        rw [hR]
        dsimp only
        have ok1 : ExtOk st st1 := eReq _ _ _ hR
        have hg5 : (st.check .LPAREN || st.check .PERCENT ||
            st.check .DOLLAR || st.check .PLUS ||
            st.check .EXCLAIM) = true := by
          simp only [Bool.or_eq_true, Bool.and_eq_true] at h3 ⊢
          tauto
        have hlt : pm st1 < pm st := pm_lt_of hw ok1.tok (hRs hg5)
        exact ihClaimLoop st1 _ _ _ (ok1.wfp hw) (by omega)
      · simp only [hp, if_false, Bool.false_eq_true]
        obtain ⟨r1, st1, hN, hNs⟩ := ihNar st hw (by omega)
        rw [hN]
        dsimp only
        have ok1 : ExtOk st st1 := eNar _ _ _ hN
        have hg4 : (st.check .PERCENT || st.check .DOLLAR ||
            st.check .PLUS || st.check .EXCLAIM) = true := by
          simp only [Bool.or_eq_true, Bool.and_eq_true] at h3 ⊢
          tauto
        have hlt : pm st1 < pm st := pm_lt_of hw ok1.tok (hNs hg4)
        exact ihClaimLoop st1 _ _ _ (ok1.wfp hw) (by omega)
    simp only [h3, if_false, Bool.false_eq_true]
    by_cases h4 : (st.check .PLUS || st.check .EXCLAIM) = true
    · simp only [h4, if_true]
      obtain ⟨r1, st1, hN, hNs⟩ := ihNar st hw (by omega)
      rw [hN]
      dsimp only
      have ok1 : ExtOk st st1 := eNar _ _ _ hN
      have hg4 : (st.check .PERCENT || st.check .DOLLAR ||
          st.check .PLUS || st.check .EXCLAIM) = true := by
        simp only [Bool.or_eq_true] at h4 ⊢
        tauto
      have hlt : pm st1 < pm st := pm_lt_of hw ok1.tok (hNs hg4)
      exact ihClaimLoop st1 _ _ _ (ok1.wfp hw) (by omega)
    simp only [h4, if_false, Bool.false_eq_true]
    by_cases h5 : st.check .QUESTION = true
    · simp only [h5, if_true]
      obtain ⟨r1, st1, hI, hIs⟩ := ihIar st hw (by omega)
      rw [hI]
      dsimp only
      have ok1 : ExtOk st st1 := eIar _ _ _ hI
      have hlt : pm st1 < pm st := pm_lt_of hw ok1.tok (hIs h5)
      exact ihClaimLoop st1 _ _ _ (ok1.wfp hw) (by omega)
    simp only [h5, if_false, Bool.false_eq_true]
    by_cases h6 : st.check .ARROW_RIGHT = true
    · simp only [h6, if_true]
      rcases hef : st.parseEffect with ⟨e, st1⟩
      dsimp only
      have oke : ExtOk st st1 := by
        have := parseEffect_extOk st
        rwa [hef] at this
      have hlt : pm st1 < pm st := pm_lt_of hw oke.tok (by
        have := parseEffect_strict h6
        rwa [hef] at this)
      exact ihClaimLoop st1 _ _ _ (oke.wfp hw) (by omega)
    simp only [h6, if_false, Bool.false_eq_true]
    by_cases h7 : st.check .SEMICOLON = true
    · simp only [h7, if_true]
      rcases hrs : st.parseReasonStatement with ⟨rs, st1⟩
      dsimp only
      have okr : ScanOk st st1 := by
        have := parseReasonStatement_scanOk st
        rwa [hrs] at this
      have hlt : pm st1 < pm st := pm_lt_of hw okr.tok' (by
        have := parseReasonStatement_strict h1f
        rwa [hrs] at this)
      exact ihClaimLoop st1 _ _ _ (okr.wfp' hw) (by omega)
    simp only [h7, if_false, Bool.false_eq_true]
    by_cases h8 : st.check .NEWLINE = true
    · simp only [h8, if_true]
      have ok1 : ScanOk st (st.advanceT).2 := advanceT_scanOk st
      have hlt : pm (st.advanceT).2 < pm st :=
        pm_lt_of hw ok1.tok' (advanceT_strict h1f)
      exact ihClaimLoop _ _ _ _ (ok1.wfp' hw) (by omega)
    simp only [h8, if_false, Bool.false_eq_true]
    by_cases h9 : st.check .COMMENT = true
    · simp only [h9, if_true]
      have ok1 : ScanOk st (st.advanceT).2 := advanceT_scanOk st
      have hlt : pm (st.advanceT).2 < pm st :=
        pm_lt_of hw ok1.tok' (advanceT_strict h1f)
      exact ihClaimLoop _ _ _ _ (ok1.wfp' hw) (by omega)
    simp only [h9, if_false, Bool.false_eq_true]
    exact ⟨_, _, _, _, rfl⟩
  -- parseRequirement
  · intro st hw hb
    rw [parseRequirement_succ]
    unfold parseRequirementB
    rw [reqFns_reqLoop]
    dsimp only
    rcases hc : st.concludedMarker with ⟨concluded, st1⟩
    dsimp only
    have ok1 : ScanOk st st1 := by
      have := concludedMarker_scanOk st
      rwa [hc] at this
    have hw1 : Wf st1 := ok1.wfp' hw
    rcases he : st1.expectT .LPAREN "要件には(が必要です" with ⟨openBracket, st2⟩
    dsimp only
    have ok2 : ExtOk st1 st2 := by
      have := expectT_extOk st1 .LPAREN "要件には(が必要です"
      rwa [he] at this
    have hw2 : Wf st2 := ok2.wfp hw1
    rcases hsn : st2.scanReqName openBracket.range.stop
      with ⟨nm, lastEnd, st3⟩
    dsimp only
    have ok3 : ScanOk st2 st3 := by
      have := scanReqName_scanOk st2 openBracket.range.stop
      rwa [hsn] at this
    have hw3 : Wf st3 := ok3.wfp' hw2
    have ok4 : ExtOk st3 (st3.closeBracket openBracket.range.start lastEnd) :=
      closeBracket_extOk st3 openBracket.range.start lastEnd
    have hw4 : Wf (st3.closeBracket openBracket.range.start lastEnd) :=
      ok4.wfp hw3
    have hpm4 : pm (st3.closeBracket openBracket.range.start lastEnd) ≤ pm st :=
      ok4.pmle.trans (ok3.pmle'.trans (ok2.pmle.trans ok1.pmle'))
    obtain ⟨norm, fact, st5, hRC⟩ := reqInlineCompound_suff
      (fun s2 w2 l2 => (ihNorm s2 w2 (by omega)).imp
        (fun r hr => hr.imp (fun s hs => hs.1)))
      (fun s2 w2 l2 => ihFact s2 w2 (by omega)) hw4
    rw [hRC]
    dsimp only
    have ok5 : ExtOk (st3.closeBracket openBracket.range.start lastEnd) st5 :=
      reqInlineCompound_extOk eNorm eFact hRC
    have hw5 : Wf st5 := ok5.wfp hw4
    have ok6 : ScanOk st5 st5.skipNewlines := skipNewlines_scanOk st5
    have hw6 : Wf st5.skipNewlines := ok6.wfp' hw5
    have hpm6 : pm st5.skipNewlines ≤ pm st :=
      ok6.pmle'.trans (ok5.pmle.trans hpm4)
    have hfirst : (st.check .LPAREN || st.check .PERCENT || st.check .DOLLAR ||
        st.check .PLUS || st.check .EXCLAIM) = true → st.pos < st3.pos := by
      intro hg
      by_cases hPE : (st.check .PLUS || st.check .EXCLAIM) = true
      · have hor : st.check .PLUS = true ∨ st.check .EXCLAIM = true := by
          simpa only [Bool.or_eq_true] using hPE
        have h0 := concludedMarker_strict hor
        rw [hc] at h0
        exact Nat.lt_of_lt_of_le h0 (ok2.les.trans ok3.les')
      · have hP2 : st.check .PLUS = false := by
          revert hPE
          cases st.check .PLUS <;> simp
        have hE2 : st.check .EXCLAIM = false := by
          revert hPE
          cases st.check .EXCLAIM <;> simp
        have hid := concludedMarker_of_neither hP2 hE2
        rw [hid] at hc
        simp only [Prod.mk.injEq] at hc
        by_cases hL : st.check .LPAREN = true
        · have hL1 : st1.check .LPAREN = true := hc.2 ▸ hL
          have h0 := @expectT_strict st1 TokenType.LPAREN "要件には(が必要です"
            hL1 (by simp)
          rw [he] at h0
          rw [hc.2]
          exact Nat.lt_of_lt_of_le h0 ok3.les'
        · have hL2 : st.check .LPAREN = false := by
            revert hL
            cases st.check .LPAREN <;> simp
          have hPD : st.check .PERCENT = true ∨ st.check .DOLLAR = true := by
            have hg2 := hg
            rw [hL2, hP2, hE2] at hg2
            simpa using hg2
          have hL1 : st1.check .LPAREN = false := hc.2 ▸ hL2
          have hexp := @expectT_of_not_check st1 TokenType.LPAREN
            "要件には(が必要です" hL1
          rw [hexp] at he
          simp only [Prod.mk.injEq] at he
          have hst2 : st2 = st1.addErr "要件には(が必要です" := he.2.symm
          have hAE : st.isAtEnd = false := by
            rcases hPD with hx | hx
            · exact check_not_atEnd hx (by simp)
            · exact check_not_atEnd hx (by simp)
          have hRP : st.check .RPAREN = false := by
            rcases hPD with hx | hx
            · exact check_ne hx (by simp)
            · exact check_ne hx (by simp)
          have hNL : st.check .NEWLINE = false := by
            rcases hPD with hx | hx
            · exact check_ne hx (by simp)
            · exact check_ne hx (by simp)
          have h0 := @scanReqName_strict st2 openBracket.range.stop hw2
            (by rw [hst2, addErr_isAtEnd, ← hc.2]; exact hAE)
            (by rw [hst2, addErr_check, ← hc.2]; exact hRP)
            (by rw [hst2, addErr_check, ← hc.2]; exact hNL)
          rw [hsn] at h0
          have hpos : st.pos = st2.pos := by
            rw [hc.2, hst2, addErr_pos]
          rw [hpos]
          exact h0
    by_cases hI : (st5.skipNewlines).check .INDENT = true
    · simp only [hI, if_true]
      have ok7 : ScanOk st5.skipNewlines ((st5.skipNewlines).advanceT).2 :=
        advanceT_scanOk _
      have hw7 : Wf ((st5.skipNewlines).advanceT).2 := ok7.wfp' hw6
      have hlt7 : pm ((st5.skipNewlines).advanceT).2 < pm st := by
        have hstr := advanceT_strict (check_not_atEnd hI (by simp))
        have h5 := pm_lt_of hw6 ok7.tok' hstr
        omega
      obtain ⟨r1, r2, r3, st8, hRL⟩ := ihReqLoop _ fact [] [] hw7 (by omega)
      rw [hRL]
      dsimp only
      have e8 : ExtOk _ st8 := eReqLoop _ _ _ _ _ _ _ _ hRL
      have ok8 : ScanOk st8 st8.consumeDedent := consumeDedent_scanOk st8
      refine ⟨_, _, rfl, fun hg => ?_⟩
      exact Nat.lt_of_lt_of_le (hfirst hg) (ok4.les.trans
        (ok5.les.trans (ok6.les'.trans (ok7.les'.trans (e8.les.trans
          ok8.les')))))
    · simp only [hI, if_false, Bool.false_eq_true]
      refine ⟨_, _, rfl, fun hg => ?_⟩
      exact Nat.lt_of_lt_of_le (hfirst hg) (ok4.les.trans
        (ok5.les.trans ok6.les'))
  -- reqLoop
  · intro st a b c hw hb
    rw [reqLoop_succ]
    unfold reqLoopB
    rw [reqFns_req, reqFns_reqLoop, reqFns_nar]
    by_cases h1 : (st.isAtEnd || st.check .DEDENT) = true
    · simp only [h1, if_true]
      exact ⟨_, _, _, _, rfl⟩
    have h1f : st.isAtEnd = false := by
      revert h1
      cases st.isAtEnd <;> simp
    simp only [h1, if_false, Bool.false_eq_true]
    by_cases h2 : (st.check .PERCENT || st.check .DOLLAR ||
        (st.check .PLUS && ((st.peekN 1).type == .PERCENT ||
          (st.peekN 1).type == .DOLLAR)) ||
        (st.check .EXCLAIM && ((st.peekN 1).type == .PERCENT ||
          (st.peekN 1).type == .DOLLAR))) = true
    · simp only [h2, if_true]
      obtain ⟨r1, st1, hN, hNs⟩ := ihNar st hw (by omega)
      rw [hN]
      dsimp only
      have ok1 : ExtOk st st1 := eNar _ _ _ hN
      have hg4 : (st.check .PERCENT || st.check .DOLLAR ||
          st.check .PLUS || st.check .EXCLAIM) = true := by
        simp only [Bool.or_eq_true, Bool.and_eq_true] at h2 ⊢
        tauto
      have hlt : pm st1 < pm st := pm_lt_of hw ok1.tok (hNs hg4)
      exact ihReqLoop st1 _ _ _ (ok1.wfp hw) (by omega)
    simp only [h2, if_false, Bool.false_eq_true]
    by_cases h3 : (st.check .LPAREN ||
        (st.check .PLUS && (st.peekN 1).type == .LPAREN) ||
        (st.check .EXCLAIM && (st.peekN 1).type == .LPAREN)) = true
    · simp only [h3, if_true]
      obtain ⟨r1, st1, hR, hRs⟩ := ihReq st hw (by omega)
      rw [hR]
      dsimp only
      have ok1 : ExtOk st st1 := eReq _ _ _ hR
      have hg5 : (st.check .LPAREN || st.check .PERCENT ||
          st.check .DOLLAR || st.check .PLUS || st.check .EXCLAIM) = true := by
        simp only [Bool.or_eq_true, Bool.and_eq_true] at h3 ⊢
        tauto
      have hlt : pm st1 < pm st := pm_lt_of hw ok1.tok (hRs hg5)
      exact ihReqLoop st1 _ _ _ (ok1.wfp hw) (by omega)
    simp only [h3, if_false, Bool.false_eq_true]
    by_cases h4 : st.check .ARROW_LEFT = true
    · simp only [h4, if_true]
      have ok1 : ScanOk st (st.advanceT).2 := advanceT_scanOk st
      have hw1 : Wf (st.advanceT).2 := ok1.wfp' hw
      have hlt1 : pm (st.advanceT).2 < pm st :=
        pm_lt_of hw ok1.tok' (advanceT_strict h1f)
      obtain ⟨fv, st2, hF⟩ := ihFact _ hw1 (by omega)
      rw [hF]
      dsimp only
      have ok2 : ExtOk (st.advanceT).2 st2 := eFact _ _ _ hF
      have hlt2 : pm st2 < pm st := Nat.lt_of_le_of_lt ok2.pmle hlt1
      exact ihReqLoop st2 _ _ _ (ok2.wfp hw1) (by omega)
    simp only [h4, if_false, Bool.false_eq_true]
    by_cases h5 : st.check .SEMICOLON = true
    · simp only [h5, if_true]
      rcases hrs : st.parseReasonStatement with ⟨rs, st1⟩
      dsimp only
      have okr : ScanOk st st1 := by
        have := parseReasonStatement_scanOk st
        rwa [hrs] at this
      have hlt : pm st1 < pm st := pm_lt_of hw okr.tok' (by
        have := parseReasonStatement_strict h1f
        rwa [hrs] at this)
      exact ihReqLoop st1 _ _ _ (okr.wfp' hw) (by omega)
    simp only [h5, if_false, Bool.false_eq_true]
    by_cases h6 : st.check .NEWLINE = true
    · simp only [h6, if_true]
      have ok1 : ScanOk st (st.advanceT).2 := advanceT_scanOk st
      have hlt : pm (st.advanceT).2 < pm st :=
        pm_lt_of hw ok1.tok' (advanceT_strict h1f)
      exact ihReqLoop _ _ _ _ (ok1.wfp' hw) (by omega)
    simp only [h6, if_false, Bool.false_eq_true]
    by_cases h7 : st.check .COMMENT = true
    · simp only [h7, if_true]
      have ok1 : ScanOk st (st.advanceT).2 := advanceT_scanOk st
      have hlt : pm (st.advanceT).2 < pm st :=
        pm_lt_of hw ok1.tok' (advanceT_strict h1f)
      exact ihReqLoop _ _ _ _ (ok1.wfp' hw) (by omega)
    simp only [h7, if_false, Bool.false_eq_true]
    exact ⟨_, _, _, _, rfl⟩
  -- parseNormAsRequirement
  · intro st hw hb
    rw [parseNormAsRequirement_succ]
    unfold parseNormAsRequirementB
    rw [reqFns_narLoop]
    dsimp only
    obtain ⟨n1, st1, hN, hNs⟩ := ihNorm st hw (by omega)
    rw [hN]
    dsimp only
    have ok1 : ExtOk st st1 := eNorm _ _ _ hN
    have hw1 : Wf st1 := ok1.wfp hw
    have ok2 : ScanOk st1 st1.skipNewlines := skipNewlines_scanOk st1
    have hw2 : Wf st1.skipNewlines := ok2.wfp' hw1
    by_cases hI : (st1.skipNewlines).check .INDENT = true
    · simp only [hI, if_true]
      have ok3 : ScanOk st1.skipNewlines ((st1.skipNewlines).advanceT).2 :=
        advanceT_scanOk _
      have hw3 : Wf ((st1.skipNewlines).advanceT).2 := ok3.wfp' hw2
      have hlt3 : pm ((st1.skipNewlines).advanceT).2 < pm st := by
        have hstr := advanceT_strict (check_not_atEnd hI (by simp))
        have h5 := pm_lt_of hw2 ok3.tok' hstr
        have h6 := ok2.pmle'
        have h7 := ok1.pmle
        omega
      obtain ⟨r1, r2, r3, st4, hNL⟩ := ihNarLoop _ n1 [] [] hw3 (by omega)
      rw [hNL]
      dsimp only
      have e4 : ExtOk _ st4 := eNarLoop _ _ _ _ _ _ _ _ hNL
      have ok4 : ScanOk st4 st4.consumeDedent := consumeDedent_scanOk st4
      refine ⟨_, _, rfl, fun hg => ?_⟩
      exact Nat.lt_of_lt_of_le (hNs hg) (ok2.les'.trans (ok3.les'.trans
        (e4.les.trans ok4.les')))
    · simp only [hI, if_false, Bool.false_eq_true]
      refine ⟨_, _, rfl, fun hg => ?_⟩
      exact Nat.lt_of_lt_of_le (hNs hg) ok2.les'
  -- narLoop
  · intro st a b c hw hb
    rw [narLoop_succ]
    unfold narLoopB
    rw [reqFns_req, reqFns_nar, reqFns_narLoop]
    by_cases h1 : (st.isAtEnd || st.check .DEDENT) = true
    · simp only [h1, if_true]
      exact ⟨_, _, _, _, rfl⟩
    have h1f : st.isAtEnd = false := by
      revert h1
      cases st.isAtEnd <;> simp
    simp only [h1, if_false, Bool.false_eq_true]
    by_cases h2 : (st.check .PERCENT || st.check .DOLLAR ||
        (st.check .PLUS && ((st.peekN 1).type == .PERCENT ||
          (st.peekN 1).type == .DOLLAR)) ||
        (st.check .EXCLAIM && ((st.peekN 1).type == .PERCENT ||
          (st.peekN 1).type == .DOLLAR))) = true
    · simp only [h2, if_true]
      obtain ⟨r1, st1, hN, hNs⟩ := ihNar st hw (by omega)
      rw [hN]
      dsimp only
      have ok1 : ExtOk st st1 := eNar _ _ _ hN
      have hg4 : (st.check .PERCENT || st.check .DOLLAR ||
          st.check .PLUS || st.check .EXCLAIM) = true := by
        simp only [Bool.or_eq_true, Bool.and_eq_true] at h2 ⊢
        tauto
      have hlt : pm st1 < pm st := pm_lt_of hw ok1.tok (hNs hg4)
      exact ihNarLoop st1 _ _ _ (ok1.wfp hw) (by omega)
    simp only [h2, if_false, Bool.false_eq_true]
    by_cases h3 : (st.check .LPAREN ||
        (st.check .PLUS && (st.peekN 1).type == .LPAREN) ||
        (st.check .EXCLAIM && (st.peekN 1).type == .LPAREN)) = true
    · simp only [h3, if_true]
      obtain ⟨r1, st1, hR, hRs⟩ := ihReq st hw (by omega)
      rw [hR]
      dsimp only
      have ok1 : ExtOk st st1 := eReq _ _ _ hR
      have hg5 : (st.check .LPAREN || st.check .PERCENT ||
          st.check .DOLLAR || st.check .PLUS || st.check .EXCLAIM) = true := by
        simp only [Bool.or_eq_true, Bool.and_eq_true] at h3 ⊢
        tauto
      have hlt : pm st1 < pm st := pm_lt_of hw ok1.tok (hRs hg5)
      exact ihNarLoop st1 _ _ _ (ok1.wfp hw) (by omega)
    simp only [h3, if_false, Bool.false_eq_true]
    by_cases h4 : st.check .ARROW_LEFT = true
    · simp only [h4, if_true]
      have ok1 : ScanOk st (st.advanceT).2 := advanceT_scanOk st
      have hw1 : Wf (st.advanceT).2 := ok1.wfp' hw
      have hlt1 : pm (st.advanceT).2 < pm st :=
        pm_lt_of hw ok1.tok' (advanceT_strict h1f)
      obtain ⟨fv, st2, hF⟩ := ihFact _ hw1 (by omega)
      rw [hF]
      dsimp only
      have ok2 : ExtOk (st.advanceT).2 st2 := eFact _ _ _ hF
      have hlt2 : pm st2 < pm st := Nat.lt_of_le_of_lt ok2.pmle hlt1
      exact ihNarLoop st2 _ _ _ (ok2.wfp hw1) (by omega)
    simp only [h4, if_false, Bool.false_eq_true]
    by_cases h5 : st.check .SEMICOLON = true
    · simp only [h5, if_true]
      rcases hrs : st.parseReasonStatement with ⟨rs, st1⟩
      dsimp only
      have okr : ScanOk st st1 := by
        have := parseReasonStatement_scanOk st
        rwa [hrs] at this
      have hlt : pm st1 < pm st := pm_lt_of hw okr.tok' (by
        have := parseReasonStatement_strict h1f
        rwa [hrs] at this)
      exact ihNarLoop st1 _ _ _ (okr.wfp' hw) (by omega)
    simp only [h5, if_false, Bool.false_eq_true]
    by_cases h6 : st.check .NEWLINE = true
    · simp only [h6, if_true]
      have ok1 : ScanOk st (st.advanceT).2 := advanceT_scanOk st
      have hlt : pm (st.advanceT).2 < pm st :=
        pm_lt_of hw ok1.tok' (advanceT_strict h1f)
      exact ihNarLoop _ _ _ _ (ok1.wfp' hw) (by omega)
    simp only [h6, if_false, Bool.false_eq_true]
    by_cases h7 : st.check .COMMENT = true
    · simp only [h7, if_true]
      have ok1 : ScanOk st (st.advanceT).2 := advanceT_scanOk st
      have hlt : pm (st.advanceT).2 < pm st :=
        pm_lt_of hw ok1.tok' (advanceT_strict h1f)
      exact ihNarLoop _ _ _ _ (ok1.wfp' hw) (by omega)
    simp only [h7, if_false, Bool.false_eq_true]
    exact ⟨_, _, _, _, rfl⟩
  -- parseNorm
  · intro st hw hb
    rw [parseNorm_succ]
    dsimp only
    rcases hc : st.concludedMarker with ⟨concluded, st1⟩
    dsimp only
    have ok1 : ScanOk st st1 := by
      have := concludedMarker_scanOk st
      rwa [hc] at this
    have hw1 : Wf st1 := ok1.wfp' hw
    rcases hd : st1.matchT .DOLLAR with ⟨isDollar, st2⟩
    dsimp only
    have ok2 : ScanOk st1 st2 := by
      have := matchT_scanOk st1 .DOLLAR
      rwa [hd] at this
    have hw2 : Wf st2 := ok2.wfp' hw1
    by_cases hD : isDollar = true
    · rw [if_pos hD]
      obtain ⟨hckD, -⟩ := matchT_eq_true (hD ▸ hd)
      have hs2 : st1.pos < st2.pos := by
        have hs := matchT_strict hckD (by simp)
        rwa [hd] at hs
      have hlt2 : pm st2 < pm st := by
        have h5 := pm_lt_of hw1 ok2.tok' hs2
        have h6 := ok1.pmle'
        omega
      obtain ⟨r1, st3, hC⟩ := ihCcr st2 _ _ hw2 (by omega)
      refine ⟨r1, st3, hC, fun hg => ?_⟩
      have e3 : ExtOk st2 st3 := eCcr _ _ _ _ _ hC
      exact Nat.lt_of_le_of_lt ok1.les' (Nat.lt_of_lt_of_le hs2 e3.les)
    · rw [if_neg hD]
      have hst2 : st2 = st1 := matchT_eq_false (by
        have hD2 : isDollar = false := by
          revert hD
          cases isDollar <;> simp
        exact hD2 ▸ hd)
      rcases he : st2.expectT .PERCENT "規範には % が必要です" with ⟨tk, st3⟩
      dsimp only
      have ok3 : ExtOk st2 st3 := by
        have := expectT_extOk st2 .PERCENT "規範には % が必要です"
        rwa [he] at this
      have hw3 : Wf st3 := ok3.wfp hw2
      rcases hn : st3.scanAcc [.CARET, .ARROW_LEFT, .COLON, .AS, .SEMICOLON,
        .NEWLINE] " " with ⟨content, st4⟩
      dsimp only
      have ok4 : ScanOk st3 st4 := by
        have := scanAcc_scanOk st3 [.CARET, .ARROW_LEFT, .COLON, .AS,
          .SEMICOLON, .NEWLINE] " "
        rwa [hn] at this
      have hw4 : Wf st4 := ok4.wfp' hw3
      rcases hr : st4.optionalReference with ⟨reference, st5⟩
      dsimp only
      have ok5 : ScanOk st4 st5 := by
        have := optionalReference_scanOk st4
        rwa [hr] at this
      have hw5 : Wf st5 := ok5.wfp' hw4
      rcases hm : st5.matchT .COLON with ⟨hasColon, st6⟩
      dsimp only
      have ok6 : ScanOk st5 st6 := by
        have := matchT_scanOk st5 .COLON
        rwa [hm] at this
      have hw6 : Wf st6 := ok6.wfp' hw5
      have hpm6 : pm st6 ≤ pm st :=
        ok6.pmle'.trans (ok5.pmle'.trans (ok4.pmle'.trans (ok3.pmle.trans
          (ok2.pmle'.trans ok1.pmle'))))
      have hfirstN : (st.check .PERCENT || st.check .DOLLAR ||
          st.check .PLUS || st.check .EXCLAIM) = true →
          st.pos < st6.pos := by
        intro hg
        by_cases hPE : (st.check .PLUS || st.check .EXCLAIM) = true
        · have hor : st.check .PLUS = true ∨ st.check .EXCLAIM = true := by
            simpa only [Bool.or_eq_true] using hPE
          have h0 := concludedMarker_strict hor
          rw [hc] at h0
          exact Nat.lt_of_lt_of_le h0 (ok2.les'.trans (ok3.les.trans
            (ok4.les'.trans (ok5.les'.trans ok6.les'))))
        · have hP2 : st.check .PLUS = false := by
            revert hPE
            cases st.check .PLUS <;> simp
          have hE2 : st.check .EXCLAIM = false := by
            revert hPE
            cases st.check .EXCLAIM <;> simp
          have hid := concludedMarker_of_neither hP2 hE2
          rw [hid] at hc
          simp only [Prod.mk.injEq] at hc
          by_cases hDol : st.check .DOLLAR = true
          · have hD1 : st1.check .DOLLAR = true := hc.2 ▸ hDol
            rw [matchT_of_check hD1] at hd
            simp only [Prod.mk.injEq] at hd
            exact absurd hd.1.symm hD
          · have hDol2 : st.check .DOLLAR = false := by
              revert hDol
              cases st.check .DOLLAR <;> simp
            have hPerc : st.check .PERCENT = true := by
              have hg2 := hg
              rw [hDol2, hP2, hE2] at hg2
              simpa using hg2
            have hP1 : st2.check .PERCENT = true := by
              rw [hst2, ← hc.2]
              exact hPerc
            have h0 := @expectT_strict st2 TokenType.PERCENT
              "規範には % が必要です" hP1 (by simp)
            rw [he] at h0
            have hpos : st.pos = st2.pos := by
              rw [hc.2, hst2]
            rw [hpos]
            exact Nat.lt_of_lt_of_le h0 (ok4.les'.trans (ok5.les'.trans
              ok6.les'))
      by_cases hA : hasColon = true
      · rw [if_pos hA]
        obtain ⟨hckC, -⟩ := matchT_eq_true (hA ▸ hm)
        have hlt6 : pm st6 < pm st := by
          have hs := matchT_strict hckC (by simp)
          rw [hm] at hs
          have h5 := pm_lt_of hw5 ok6.tok' hs
          have h6 := ok5.pmle'
          have h7 := ok4.pmle'
          have h8 := ok3.pmle
          have h9 := ok2.pmle'
          have h10 := ok1.pmle'
          omega
        by_cases hB : (st6.check .PERCENT || st6.check .PLUS ||
            st6.check .EXCLAIM) = true
        · simp only [hB, if_true]
          obtain ⟨sn, st7, hPn, -⟩ := ihNorm st6 hw6 (by omega)
          rw [hPn]
          dsimp only
          have e7 : ExtOk st6 st7 := eNorm _ _ _ hPn
          have hw7 : Wf st7 := e7.wfp hw6
          have hpm7 : pm st7 ≤ pm st := e7.pmle.trans hpm6
          obtain ⟨fact2, st8, hAF⟩ := @arrowFactOpt_suff f st7
            (fun s2 w2 l2 => ihFact s2 w2 (by omega)) hw7 sn.fact
          rw [hAF]
          dsimp only
          have ok8 : ExtOk st7 st8 := arrowFactOpt_extOk eFact hAF
          have hw8 : Wf st8 := ok8.wfp hw7
          have hpm8 : pm st8 ≤ pm st := ok8.pmle.trans hpm7
          obtain ⟨r, st9, hNF⟩ := @normFinish_suff f st8
            (fun s2 w2 l2 => ihFact s2 w2 (by omega)) hw8 _ _ _ _ _ _
          have e9 : ExtOk st8 st9 := normFinish_extOk eFact hNF
          refine ⟨r, st9, hNF, fun hg => ?_⟩
          exact Nat.lt_of_lt_of_le (hfirstN hg) (e7.les.trans
            (ok8.les.trans e9.les))
        · simp only [hB, if_false, Bool.false_eq_true]
          obtain ⟨fact2, st8, hAF⟩ := @arrowFactOpt_suff f st6
            (fun s2 w2 l2 => ihFact s2 w2 (by omega)) hw6 none
          rw [hAF]
          dsimp only
          have ok8 : ExtOk st6 st8 := arrowFactOpt_extOk eFact hAF
          have hw8 : Wf st8 := ok8.wfp hw6
          have hpm8 : pm st8 ≤ pm st := ok8.pmle.trans hpm6
          obtain ⟨r, st9, hNF⟩ := @normFinish_suff f st8
            (fun s2 w2 l2 => ihFact s2 w2 (by omega)) hw8 _ _ _ _ _ _
          have e9 : ExtOk st8 st9 := normFinish_extOk eFact hNF
          refine ⟨r, st9, hNF, fun hg => ?_⟩
          exact Nat.lt_of_lt_of_le (hfirstN hg) (ok8.les.trans e9.les)
      · rw [if_neg hA]
        dsimp only
        obtain ⟨fact2, st8, hAF⟩ := @arrowFactOpt_suff f st6
          (fun s2 w2 l2 => ihFact s2 w2 (by omega)) hw6 none
        rw [hAF]
        dsimp only
        have ok8 : ExtOk st6 st8 := arrowFactOpt_extOk eFact hAF
        have hw8 : Wf st8 := ok8.wfp hw6
        have hpm8 : pm st8 ≤ pm st := ok8.pmle.trans hpm6
        obtain ⟨r, st9, hNF⟩ := @normFinish_suff f st8
          (fun s2 w2 l2 => ihFact s2 w2 (by omega)) hw8 _ _ _ _ _ _
        have e9 : ExtOk st8 st9 := normFinish_extOk eFact hNF
        refine ⟨r, st9, hNF, fun hg => ?_⟩
        exact Nat.lt_of_lt_of_le (hfirstN hg) (ok8.les.trans e9.les)
  -- parseConstantReference
  · intro st p c hw hb
    unfold parseConstantReference
    dsimp only
    rcases hn : st.scanAcc [.ARROW_LEFT, .COLON, .SEMICOLON, .NEWLINE] " "
      with ⟨constNameRaw, st1⟩
    dsimp only
    have ok1 : ScanOk st st1 := by
      have := scanAcc_scanOk st [.ARROW_LEFT, .COLON, .SEMICOLON, .NEWLINE] " "
      rwa [hn] at this
    have hw1 : Wf st1 := ok1.wfp' hw
    have hpm1 : pm st1 ≤ pm st := ok1.pmle'
    cases hg : mapGet st1.constants (trimJs constNameRaw) with
    | some constDef =>
      dsimp only
      obtain ⟨f2, st2, hAF⟩ := @arrowFactOpt_suff f st1
        (fun s2 w2 l2 => ihFact s2 w2 (by omega)) hw1 none
      rw [hAF]
      dsimp only
      exact ⟨_, _, rfl⟩
    | none =>
      dsimp only
      have hpmE : pm (st1.addErr ("定数 " ++ trimJs constNameRaw ++
        " が定義されていません")) = pm st1 := rfl
      obtain ⟨f2, st2, hAF⟩ := @arrowFactOpt_suff f
        (st1.addErr ("定数 " ++ trimJs constNameRaw ++
          " が定義されていません"))
        (fun s2 w2 l2 => ihFact s2 w2 (by omega))
        (addErr_wf hw1 _) none
      rw [hAF]
      dsimp only
      exact ⟨_, _, rfl⟩
  -- parseIssueAsRequirement
  · intro st hw hb
    unfold parseIssueAsRequirement
    dsimp only
    obtain ⟨iss, st1, hI, hIs⟩ := ihIss st hw (by omega)
    rw [hI]
    dsimp only
    exact ⟨_, _, rfl, fun hg => hIs hg⟩
  -- parseIssue
  · intro st hw hb
    unfold parseIssue
    dsimp only
    rcases he : st.expectT .QUESTION "論点には ? が必要です" with ⟨tk, st1⟩
    dsimp only
    have ok1 : ExtOk st st1 := by
      have := expectT_extOk st .QUESTION "論点には ? が必要です"
      rwa [he] at this
    have hw1 : Wf st1 := ok1.wfp hw
    rcases hn : st1.scanAcc [.TILDE_ARROW, .IMPLIES, .NEWLINE] " "
      with ⟨question, st2⟩
    dsimp only
    have ok2 : ScanOk st1 st2 := by
      have := scanAcc_scanOk st1 [.TILDE_ARROW, .IMPLIES, .NEWLINE] " "
      rwa [hn] at this
    have hw2 : Wf st2 := ok2.wfp' hw1
    rcases hrs : st2.optionalReasons with ⟨reasons, st3⟩
    dsimp only
    have ok3 : ExtOk st2 st3 := by
      have := optionalReasons_extOk st2
      rwa [hrs] at this
    have hw3 : Wf st3 := ok3.wfp hw2
    rcases he2 : st3.expectT .IMPLIES "論点には => が必要です" with ⟨tk2, st4⟩
    dsimp only
    have ok4 : ExtOk st3 st4 := by
      have := expectT_extOk st3 .IMPLIES "論点には => が必要です"
      rwa [he2] at this
    have hw4 : Wf st4 := ok4.wfp hw3
    have hpm4 : pm st4 ≤ pm st :=
      ok4.pmle.trans (ok3.pmle.trans (ok2.pmle'.trans ok1.pmle))
    obtain ⟨n1, st5, hN, -⟩ := ihNorm st4 hw4 (by omega)
    rw [hN]
    dsimp only
    have e5 : ExtOk st4 st5 := eNorm _ _ _ hN
    have hw5 : Wf st5 := e5.wfp hw4
    have ok6 : ScanOk st5 st5.skipNewlines := skipNewlines_scanOk st5
    have hw6 : Wf st5.skipNewlines := ok6.wfp' hw5
    have hpm6 : pm st5.skipNewlines ≤ pm st :=
      ok6.pmle'.trans (e5.pmle.trans hpm4)
    have hfirst : st.check .QUESTION = true → st.pos < st1.pos := by
      intro hg
      have h0 := @expectT_strict st TokenType.QUESTION "論点には ? が必要です"
        hg (by simp)
      rwa [he] at h0
    by_cases hI : (st5.skipNewlines).check .INDENT = true
    · simp only [hI, if_true]
      have ok7 : ScanOk st5.skipNewlines ((st5.skipNewlines).advanceT).2 :=
        advanceT_scanOk _
      have hw7 : Wf ((st5.skipNewlines).advanceT).2 := ok7.wfp' hw6
      have hlt7 : pm ((st5.skipNewlines).advanceT).2 < pm st := by
        have hstr := advanceT_strict (check_not_atEnd hI (by simp))
        have h5 := pm_lt_of hw6 ok7.tok' hstr
        omega
      obtain ⟨n2, st8, hIL⟩ := ihIssLoop _ n1 hw7 (by omega)
      rw [hIL]
      dsimp only
      have e8 : ExtOk _ st8 := eIssLoop _ _ _ _ hIL
      have ok8 : ScanOk st8 st8.consumeDedent := consumeDedent_scanOk st8
      refine ⟨_, _, rfl, fun hg => ?_⟩
      exact Nat.lt_of_lt_of_le (hfirst hg) (ok2.les'.trans (ok3.les.trans
        (ok4.les.trans (e5.les.trans (ok6.les'.trans (ok7.les'.trans
          (e8.les.trans ok8.les')))))))
    · simp only [hI, if_false, Bool.false_eq_true]
      refine ⟨_, _, rfl, fun hg => ?_⟩
      exact Nat.lt_of_lt_of_le (hfirst hg) (ok2.les'.trans (ok3.les.trans
        (ok4.les.trans (e5.les.trans ok6.les'))))
  -- issueLoop
  · intro st n hw hb
    unfold issueLoop
    by_cases h1 : (st.isAtEnd || st.check .DEDENT) = true
    · simp only [h1, if_true]
      exact ⟨_, _, rfl⟩
    simp only [h1, if_false, Bool.false_eq_true]
    by_cases h2 : (st.check .PERCENT || st.check .PLUS ||
        st.check .EXCLAIM) = true
    · simp only [h2, if_true]
      obtain ⟨r1, st1, hN, hNs⟩ := ihNar st hw (by omega)
      rw [hN]
      dsimp only
      have ok1 : ExtOk st st1 := eNar _ _ _ hN
      have hg4 : (st.check .PERCENT || st.check .DOLLAR ||
          st.check .PLUS || st.check .EXCLAIM) = true := by
        simp only [Bool.or_eq_true] at h2 ⊢
        tauto
      have hlt : pm st1 < pm st := pm_lt_of hw ok1.tok (hNs hg4)
      exact ihIssLoop st1 _ (ok1.wfp hw) (by omega)
    simp only [h2, if_false, Bool.false_eq_true]
    by_cases h3 : st.check .NEWLINE = true
    · simp only [h3, if_true]
      have h1f : st.isAtEnd = false := check_not_atEnd h3 (by simp)
      have ok1 : ScanOk st (st.advanceT).2 := advanceT_scanOk st
      have hlt : pm (st.advanceT).2 < pm st :=
        pm_lt_of hw ok1.tok' (advanceT_strict h1f)
      exact ihIssLoop _ _ (ok1.wfp' hw) (by omega)
    simp only [h3, if_false, Bool.false_eq_true]
    exact ⟨_, _, rfl⟩
  -- parseFact
  · intro st hw hb
    unfold parseFact
    dsimp only
    rcases hm : st.matchT .LPAREN with ⟨isL, st1⟩
    dsimp only
    have ok1 : ScanOk st st1 := by
      have := matchT_scanOk st .LPAREN
      rwa [hm] at this
    have hw1 : Wf st1 := ok1.wfp' hw
    by_cases hL : isL = true
    · rw [if_pos hL]
      obtain ⟨hck, -⟩ := matchT_eq_true (hL ▸ hm)
      have hlt1 : pm st1 < pm st := by
        have hs := matchT_strict hck (by simp)
        rw [hm] at hs
        exact pm_lt_of hw ok1.tok' hs
      obtain ⟨r1, st2, hC⟩ := ihCf st1 _ hw1 (by omega)
      exact ⟨_, _, hC⟩
    · rw [if_neg hL]
      rcases hf : st1.flatFactScan with ⟨content, evaluations, st2⟩
      dsimp only
      exact ⟨_, _, rfl⟩
  -- parseCompoundFact
  · intro st p hw hb
    unfold parseCompoundFact
    dsimp only
    obtain ⟨c1, st1, hF⟩ := ihFact st hw (by omega)
    rw [hF]
    dsimp only
    have e1 : ExtOk st st1 := eFact _ _ _ hF
    have hw1 : Wf st1 := e1.wfp hw
    obtain ⟨children, operator, st2, hCL⟩ := ihCfLoop st1 [c1] none hw1
      (by have h5 := e1.pmle; omega)
    rw [hCL]
    dsimp only
    rcases he : st2.expectT .RPAREN "閉じ括弧 ) が必要です" with ⟨tk, st3⟩
    dsimp only
    rcases hv : st3.optionalEvaluation with ⟨evaluation, st4⟩
    dsimp only
    exact ⟨_, _, rfl⟩
  -- cfLoop
  · intro st a b hw hb
    unfold cfLoop
    by_cases h1 : st.check .AND = true
    · simp only [h1, if_true]
      have ok1 : ScanOk st (st.advanceT).2 := advanceT_scanOk st
      have hw1 : Wf (st.advanceT).2 := ok1.wfp' hw
      have hlt1 : pm (st.advanceT).2 < pm st :=
        pm_lt_of hw ok1.tok' (advanceT_strict (check_not_atEnd h1 (by simp)))
      obtain ⟨c1, st2, hF⟩ := ihFact _ hw1 (by omega)
      rw [hF]
      dsimp only
      have e2 : ExtOk (st.advanceT).2 st2 := eFact _ _ _ hF
      have hlt2 : pm st2 < pm st := Nat.lt_of_le_of_lt e2.pmle hlt1
      exact ihCfLoop st2 _ _ (e2.wfp hw1) (by omega)
    simp only [h1, if_false, Bool.false_eq_true]
    by_cases h2 : st.check .OR = true
    · simp only [h2, if_true]
      have ok1 : ScanOk st (st.advanceT).2 := advanceT_scanOk st
      have hw1 : Wf (st.advanceT).2 := ok1.wfp' hw
      have hlt1 : pm (st.advanceT).2 < pm st :=
        pm_lt_of hw ok1.tok' (advanceT_strict (check_not_atEnd h2 (by simp)))
      obtain ⟨c1, st2, hF⟩ := ihFact _ hw1 (by omega)
      rw [hF]
      dsimp only
      have e2 : ExtOk (st.advanceT).2 st2 := eFact _ _ _ hF
      have hlt2 : pm st2 < pm st := Nat.lt_of_le_of_lt e2.pmle hlt1
      exact ihCfLoop st2 _ _ (e2.wfp hw1) (by omega)
    simp only [h2, if_false, Bool.false_eq_true]
    exact ⟨_, _, _, rfl⟩


/-! ## Lexer: indentation balance and EOF termination -/

/-- `countP` over a replicated list. -/
theorem countP_replicate_tok (p : Token → Bool) (tok : Token) (n : Nat) :
    (List.replicate n tok).countP p = if p tok then n else 0 := by
  induction n with
  | zero => simp
  | succ k ih =>
    rw [List.replicate_succ, List.countP_cons, ih]
    split <;> simp <;> omega

/-- A prefix-balance fact survives appending one non-INDENT/DEDENT
token. -/
theorem prefOk_append_other {ts : List Token} (tok : Token)
    (hI : (tok.type == TokenType.INDENT) = false)
    (hD : (tok.type == TokenType.DEDENT) = false)
    (hmain : cntD ts ≤ cntI ts)
    (hpre : ∀ k, cntD (ts.take k) ≤ cntI (ts.take k)) :
    ∀ k, cntD ((ts ++ [tok]).take k) ≤ cntI ((ts ++ [tok]).take k) := by
  intro k
  rw [List.take_append_eq_append_take]
  unfold cntD cntI at *
  rw [List.countP_append, List.countP_append]
  rcases Nat.eq_zero_or_pos (k - ts.length) with h0 | h0
  · rw [h0]
    simpa using hpre k
  · have hto : [tok].take (k - ts.length) = [tok] :=
      List.take_of_length_le (by simp; omega)
    rw [hto]
    have hts : ts.take k = ts := List.take_of_length_le (by omega)
    rw [hts]
    have hz1 : [tok].countP (fun t => t.type == TokenType.DEDENT) = 0 := by
      simp [List.countP_cons, hD]
    have hz2 : [tok].countP (fun t => t.type == TokenType.INDENT) ≤ 1 := by
      simp [List.countP_cons]
      split <;> omega
    omega

/-- A prefix-balance fact survives appending `n` DEDENT tokens, provided
`n` fits inside the INDENT surplus. -/
theorem prefOk_append_dedents {ts : List Token} {n : Nat} (tok : Token)
    (hI : (tok.type == TokenType.INDENT) = false)
    (hbound : cntD ts + n ≤ cntI ts)
    (hpre : ∀ k, cntD (ts.take k) ≤ cntI (ts.take k)) :
    ∀ k, cntD ((ts ++ List.replicate n tok).take k) ≤
      cntI ((ts ++ List.replicate n tok).take k) := by
  intro k
  rw [List.take_append_eq_append_take, List.take_replicate]
  unfold cntD cntI at *
  rw [List.countP_append, List.countP_append,
    countP_replicate_tok, countP_replicate_tok]
  simp only [hI, Bool.false_eq_true, if_false]
  rcases Nat.lt_or_ge k ts.length with hk | hk
  · have hmin : min (k - ts.length) n = 0 := by omega
    rw [hmin]
    have := hpre k
    split <;> omega
  · have hts : ts.take k = ts := List.take_of_length_le hk
    rw [hts]
    have hmin : min (k - ts.length) n ≤ n := Nat.min_le_right _ _
    split <;> omega

/-- Appending a non-INDENT/DEDENT/EOF token preserves the lexer
invariant. -/
theorem lexInv_other {ts : List Token} {stack : List Nat} (tok : Token)
    (hI : (tok.type == TokenType.INDENT) = false)
    (hD : (tok.type == TokenType.DEDENT) = false)
    (hE : (tok.type == TokenType.EOF) = false)
    (h : LexInv ts stack) : LexInv (ts ++ [tok]) stack := by
  obtain ⟨h1, h2, h3, h4⟩ := h
  refine ⟨h1, ?_, prefOk_append_other tok hI hD (by unfold cntI cntD at h2 ⊢; omega) h3, ?_⟩
  · unfold cntI cntD at *
    rw [List.countP_append, List.countP_append]
    simp [List.countP_cons, hI, hD, h2]
  · unfold cntE at *
    rw [List.countP_append]
    simp [List.countP_cons, hE, h4]

/-- Pushing a level and emitting one INDENT preserves the lexer
invariant. -/
theorem lexInv_push {ts : List Token} {stack : List Nat} {ind : Nat}
    (tok : Token) (hI : (tok.type == TokenType.INDENT) = true)
    (h : LexInv ts stack) : LexInv (ts ++ [tok]) (ind :: stack) := by
  obtain ⟨h1, h2, h3, h4⟩ := h
  have htI : tok.type = TokenType.INDENT := by simpa using hI
  have hD : (tok.type == TokenType.DEDENT) = false := by simp [htI]
  have hE : (tok.type == TokenType.EOF) = false := by simp [htI]
  refine ⟨by simp, ?_, ?_, ?_⟩
  · unfold cntI cntD at *
    rw [List.countP_append, List.countP_append]
    simp only [List.length_cons]
    simp [List.countP_cons, hI, hD]
    omega
  · intro k
    rw [List.take_append_eq_append_take]
    unfold cntI cntD at *
    rw [List.countP_append, List.countP_append]
    have hz1 : ∀ m, ([tok].take m).countP (fun t => t.type == TokenType.DEDENT) = 0 := by
      intro m
      cases m with
      | zero => simp
      | succ j => simp [List.countP_cons, hD]
    rw [hz1]
    have := h3 k
    have hz2 : 0 ≤ ([tok].take (k - ts.length)).countP
      (fun t => t.type == TokenType.INDENT) := Nat.zero_le _
    omega
  · unfold cntE at *
    rw [List.countP_append]
    simp [List.countP_cons, hE, h4]

/-- `dedentSteps` pops exactly as many levels as it counts, and never
empties a nonempty stack. -/
theorem dedentSteps_len : ∀ (s : List Nat) (ind : Nat),
    ((dedentSteps s ind).1).length + (dedentSteps s ind).2 = s.length ∧
    (1 ≤ s.length → 1 ≤ ((dedentSteps s ind).1).length) := by
  intro s
  induction s with
  | nil => intro ind; simp [dedentSteps]
  | cons top rest ih =>
    intro ind
    cases rest with
    | nil => simp [dedentSteps]
    | cons next rest2 =>
      by_cases hlt : ind < top
      · have heq : dedentSteps (top :: next :: rest2) ind =
            ((dedentSteps (next :: rest2) ind).1,
             (dedentSteps (next :: rest2) ind).2 + 1) := by
          conv_lhs => rw [dedentSteps]
          rw [if_pos hlt]
        rw [heq]
        have hih := ih ind
        constructor
        · simp only [List.length_cons] at hih ⊢
          omega
        · intro _
          exact hih.2 (by simp)
      · have heq : dedentSteps (top :: next :: rest2) ind =
            (top :: next :: rest2, 0) := by
          unfold dedentSteps
          rw [if_neg hlt]
        rw [heq]
        simp

/-- Popping levels and emitting the matching DEDENT run preserves the
lexer invariant. -/
theorem lexInv_dedents {ts : List Token} {stack stack2 : List Nat}
    {n ind : Nat} (tok : Token)
    (hD : (tok.type == TokenType.DEDENT) = true)
    (hds : dedentSteps stack ind = (stack2, n))
    (h : LexInv ts stack) : LexInv (ts ++ List.replicate n tok) stack2 := by
  obtain ⟨h1, h2, h3, h4⟩ := h
  have htD : tok.type = TokenType.DEDENT := by simpa using hD
  have hI : (tok.type == TokenType.INDENT) = false := by simp [htD]
  have hE : (tok.type == TokenType.EOF) = false := by simp [htD]
  have hlen := dedentSteps_len stack ind
  rw [hds] at hlen
  dsimp only at hlen
  have h1' : 1 ≤ stack2.length := hlen.2 h1
  have hnle : n ≤ stack.length - 1 := by omega
  refine ⟨h1', ?_, ?_, ?_⟩
  · unfold cntI cntD at *
    rw [List.countP_append, List.countP_append,
      countP_replicate_tok, countP_replicate_tok]
    simp only [hI, hD]
    simp
    omega
  · exact prefOk_append_dedents tok hI
      (by unfold cntI cntD at h2 ⊢; omega) h3
  · unfold cntE at *
    rw [List.countP_append, countP_replicate_tok]
    simp [hE, h4]

/-- `advanceChar` does not touch the token list. -/
theorem advanceChar_tokens (st : LexState) :
    ((st.advanceChar).2).tokens = st.tokens := by
  unfold LexState.advanceChar
  dsimp only
  split <;> rfl

/-- `advanceChar` does not touch the indent stack. -/
theorem advanceChar_stack (st : LexState) :
    ((st.advanceChar).2).indentStack = st.indentStack := by
  unfold LexState.advanceChar
  dsimp only
  split <;> rfl

/-- Transport of the lexer invariant across `advanceChar`. -/
theorem lexInv_advanceChar {st : LexState}
    (h : LexInv st.tokens st.indentStack) :
    LexInv ((st.advanceChar).2).tokens ((st.advanceChar).2).indentStack := by
  rw [advanceChar_tokens, advanceChar_stack]
  exact h

/-- `handleIndentation` preserves the lexer invariant. -/
theorem handleIndentation_inv {st : LexState}
    (h : LexInv st.tokens st.indentStack) :
    LexInv (handleIndentation st).tokens
      (handleIndentation st).indentStack := by
  unfold handleIndentation
  rcases hci : countIndentLoop (st.src.drop st.pos) with ⟨indent, k⟩
  try dsimp only
  split
  · exact h
  · dsimp only [LexState.bulk]
    split
    · exact lexInv_push _ rfl h
    · split
      · rcases hds : dedentSteps st.indentStack indent with ⟨stack2, n⟩
        dsimp only
        exact lexInv_dedents _ rfl hds h
      · exact h

/-- `scanComment` preserves the lexer invariant. -/
theorem scanComment_inv {st : LexState} {p : Position}
    (h : LexInv st.tokens st.indentStack) :
    LexInv (scanComment p st).tokens (scanComment p st).indentStack := by
  unfold scanComment
  exact lexInv_other _ rfl rfl rfl h

/-- `scanText` preserves the lexer invariant. -/
theorem scanText_inv {st : LexState} {p : Position} {ini : String}
    (h : LexInv st.tokens st.indentStack) :
    LexInv (scanText p ini st).tokens (scanText p ini st).indentStack := by
  unfold scanText
  dsimp only
  split
  · exact lexInv_other _ rfl rfl rfl h
  · split
    · exact lexInv_other _ rfl rfl rfl h
    · exact h

/-- One lexer step preserves the lexer invariant. -/
theorem scanToken_inv {st : LexState}
    (h : LexInv st.tokens st.indentStack) :
    LexInv (scanToken st).tokens (scanToken st).indentStack := by
  delta scanToken
  by_cases hLS : st.atLineStart = true
  · rw [if_pos hLS]
    exact handleIndentation_inv h
  rw [if_neg hLS]
  dsimp only
  rcases hav : st.advanceChar with ⟨c, st1⟩
  have ht : st1.tokens = st.tokens := by
    have := advanceChar_tokens st
    rw [hav] at this
    exact this
  have hstk : st1.indentStack = st.indentStack := by
    have := advanceChar_stack st
    rw [hav] at this
    exact this
  have h1 : LexInv st1.tokens st1.indentStack := by
    rw [ht, hstk]
    exact h
  dsimp only
  rcases hav2 : st1.advanceChar with ⟨c2, st2⟩
  have ht2 : st2.tokens = st1.tokens := by
    have := advanceChar_tokens st1
    rw [hav2] at this
    exact this
  have hstk2 : st2.indentStack = st1.indentStack := by
    have := advanceChar_stack st1
    rw [hav2] at this
    exact this
  have h2 : LexInv st2.tokens st2.indentStack := by
    rw [ht2, hstk2]
    exact h1
  dsimp only
  by_cases hc1 : c = ' ' ∨ c = '\t' ∨ c = '\u3000'
  · rw [if_pos hc1]
    exact h1
  rw [if_neg hc1]
  by_cases hc2 : c = '\n'
  · rw [if_pos hc2]
    exact lexInv_other _ rfl rfl rfl h1
  rw [if_neg hc2]
  by_cases hc3 : c = '\r'
  · rw [if_pos hc3]
    by_cases hd3 : st1.peekChar = '\n'
    · rw [if_pos hd3]
      exact lexInv_other _ rfl rfl rfl h2
    · rw [if_neg hd3]
      exact lexInv_other _ rfl rfl rfl h1
  rw [if_neg hc3]
  by_cases hc4 : c = '/'
  · rw [if_pos hc4]
    by_cases hd4 : st1.peekChar = '/'
    · rw [if_pos hd4]
      exact scanComment_inv h2
    · rw [if_neg hd4]
      exact h1
  rw [if_neg hc4]
  by_cases hc5 : c = '#' ∨ c = '＃'
  · rw [if_pos hc5]
    exact lexInv_other _ rfl rfl rfl h1
  rw [if_neg hc5]
  by_cases hc6 : c = '^'
  · rw [if_pos hc6]
    exact lexInv_other _ rfl rfl rfl h1
  rw [if_neg hc6]
  by_cases hc7 : c = ':'
  · rw [if_pos hc7]
    by_cases hd7 : st1.peekChar = ':'
    · rw [if_pos hd7]
      exact lexInv_other _ rfl rfl rfl h2
    · rw [if_neg hd7]
      exact lexInv_other _ rfl rfl rfl h1
  rw [if_neg hc7]
  by_cases hc8 : c = '：'
  · rw [if_pos hc8]
    by_cases hd8 : st1.peekChar = '：'
    · rw [if_pos hd8]
      exact lexInv_other _ rfl rfl rfl h2
    · rw [if_neg hd8]
      exact lexInv_other _ rfl rfl rfl h1
  rw [if_neg hc8]
  by_cases hc9 : c = '<'
  · rw [if_pos hc9]
    by_cases hd9 : st1.peekChar = '='
    · rw [if_pos hd9]
      exact lexInv_other _ rfl rfl rfl h2
    · rw [if_neg hd9]
      exact scanText_inv h1
  rw [if_neg hc9]
  by_cases hc10 : c = '>'
  · rw [if_pos hc10]
    by_cases hd10 : st1.peekChar = '>'
    · rw [if_pos hd10]
      exact lexInv_other _ rfl rfl rfl h2
    · rw [if_neg hd10]
      exact scanText_inv h1
  rw [if_neg hc10]
  by_cases hc11 : c = '?' ∨ c = '？'
  · rw [if_pos hc11]
    exact lexInv_other _ rfl rfl rfl h1
  rw [if_neg hc11]
  by_cases hc12 : c = '%' ∨ c = '％'
  · rw [if_pos hc12]
    exact lexInv_other _ rfl rfl rfl h1
  rw [if_neg hc12]
  by_cases hc13 : c = '@' ∨ c = '＠'
  · rw [if_pos hc13]
    exact lexInv_other _ rfl rfl rfl h1
  rw [if_neg hc13]
  by_cases hc14 : c = ';' ∨ c = '；'
  · rw [if_pos hc14]
    exact lexInv_other _ rfl rfl rfl h1
  rw [if_neg hc14]
  by_cases hc15 : c = '~'
  · rw [if_pos hc15]
    by_cases hd15 : st1.peekChar = '>'
    · rw [if_pos hd15]
      exact lexInv_other _ rfl rfl rfl h2
    · rw [if_neg hd15]
      exact scanText_inv h1
  rw [if_neg hc15]
  by_cases hc16 : c = '='
  · rw [if_pos hc16]
    by_cases hd16 : st1.peekChar = '>'
    · rw [if_pos hd16]
      exact lexInv_other _ rfl rfl rfl h2
    · rw [if_neg hd16]
      exact scanText_inv h1
  rw [if_neg hc16]
  by_cases hc17 : c = '&' ∨ c = '＆'
  · rw [if_pos hc17]
    exact lexInv_other _ rfl rfl rfl h1
  rw [if_neg hc17]
  by_cases hc18 : c = '|' ∨ c = '｜'
  · rw [if_pos hc18]
    exact lexInv_other _ rfl rfl rfl h1
  rw [if_neg hc18]
  by_cases hc19 : c = '+' ∨ c = '＋'
  · rw [if_pos hc19]
    exact lexInv_other _ rfl rfl rfl h1
  rw [if_neg hc19]
  by_cases hc20 : c = '!' ∨ c = '！'
  · rw [if_pos hc20]
    exact lexInv_other _ rfl rfl rfl h1
  rw [if_neg hc20]
  by_cases hc21 : c = '(' ∨ c = '（'
  · rw [if_pos hc21]
    exact lexInv_other _ rfl rfl rfl h1
  rw [if_neg hc21]
  by_cases hc22 : c = ')' ∨ c = '）'
  · rw [if_pos hc22]
    exact lexInv_other _ rfl rfl rfl h1
  rw [if_neg hc22]
  by_cases hc23 : c = '「'
  · rw [if_pos hc23]
    exact lexInv_other _ rfl rfl rfl h1
  rw [if_neg hc23]
  by_cases hc24 : c = '」'
  · rw [if_pos hc24]
    exact lexInv_other _ rfl rfl rfl h1
  rw [if_neg hc24]
  by_cases hc25 : c = '*' ∨ c = '＊'
  · rw [if_pos hc25]
    exact lexInv_other _ rfl rfl rfl h1
  rw [if_neg hc25]
  by_cases hc26 : c = '$' ∨ c = '＄'
  · rw [if_pos hc26]
    exact lexInv_other _ rfl rfl rfl h1
  rw [if_neg hc26]
  by_cases hc27 : c = '\\'
  · rw [if_pos hc27]
    by_cases hd27 : st1.isAtEnd = true
    · rw [if_pos hd27]
      exact h1
    · rw [if_neg hd27]
      by_cases he27 : c2 = '&'
      · rw [if_pos he27]
        exact lexInv_other _ rfl rfl rfl h2
      · rw [if_neg he27]
        exact scanText_inv h2
  rw [if_neg hc27]
  exact scanText_inv h1

/-- The lexer loop preserves the lexer invariant. -/
theorem lexLoop_inv : ∀ (fuel : Nat) (st : LexState),
    LexInv st.tokens st.indentStack →
    LexInv (lexLoop fuel st).tokens (lexLoop fuel st).indentStack := by
  intro fuel
  induction fuel with
  | zero => intro st h; exact h
  | succ f ih =>
    intro st h
    unfold lexLoop
    split
    · exact h
    · exact ih _ (scanToken_inv h)

/-- The token array produced by `tokenize` ends in an EOF token. -/
theorem tokenize_lastEOF (source : String) : LastEOF (tokenize source).1 := by
  unfold tokenize LexState.addToken
  dsimp only
  unfold LastEOF
  rw [List.getLast?_concat]
  rfl

/-- `tokenize` always produces at least one token. -/
theorem tokenize_length_pos (source : String) :
    0 < (tokenize source).1.length := by
  unfold tokenize LexState.addToken
  dsimp only
  simp

/-- Indentation balance of `tokenize` output: every prefix has at least
as many INDENTs as DEDENTs, the totals agree, and exactly one EOF token
is produced. -/
theorem tokenize_balanced (source : String) :
    (∀ k, cntD ((tokenize source).1.take k) ≤
      cntI ((tokenize source).1.take k)) ∧
    cntI (tokenize source).1 = cntD (tokenize source).1 ∧
    cntE (tokenize source).1 = 1 := by
  unfold tokenize LexState.addToken
  dsimp only
  have h0 : LexInv ([] : List Token) [0] := by
    refine ⟨by simp, by simp [cntI, cntD], ?_, by simp [cntE]⟩
    intro k
    simp [cntD, cntI]
  have h1 := lexLoop_inv
    (lexMeasure ⟨source.data, 0, 0, 0, [], [], [0], true⟩)
    ⟨source.data, 0, 0, 0, [], [], [0], true⟩ h0
  obtain ⟨l1, l2, l3, l4⟩ := h1
  refine ⟨?_, ?_, ?_⟩
  · apply prefOk_append_other
    · rfl
    · rfl
    · unfold cntI cntD at l2 ⊢
      rw [List.countP_append, List.countP_append,
        countP_replicate_tok, countP_replicate_tok]
      simp
      omega
    · apply prefOk_append_dedents
      · rfl
      · unfold cntI cntD at l2 ⊢
        omega
      · exact l3
  · unfold cntI cntD at *
    rw [List.countP_append, List.countP_append,
      List.countP_append, List.countP_append,
      countP_replicate_tok, countP_replicate_tok]
    simp [List.countP_cons]
    omega
  · unfold cntE at *
    rw [List.countP_append, List.countP_append, countP_replicate_tok]
    simp [List.countP_cons, l4]

/-! ## Totality of the parser entry point -/

/-- The optional entry point always returns a result: the fuel budget
`parserFuel` is sufficient. -/
theorem parseOpt_isSome (source : String) :
    ∃ r, parseOpt source = some r := by
  unfold parseOpt
  dsimp only
  rcases htk : tokenize source with ⟨tokens, lexerErrors⟩
  dsimp only
  have hw : Wf ⟨tokens, 0,
      lexerErrors.map (fun e => (⟨e.message, e.range⟩ : ParseError)), []⟩ := by
    constructor
    · have h1 := tokenize_lastEOF source
      rw [htk] at h1
      exact h1
    · have h1 := tokenize_length_pos source
      rw [htk] at h1
      simpa using h1
  obtain ⟨hDoc, -⟩ := suff_all (parserFuel tokens)
  obtain ⟨r, st', hD⟩ := hDoc _ hw (by
    have hpm : pm (⟨tokens, 0,
        lexerErrors.map (fun e => (⟨e.message, e.range⟩ : ParseError)),
        []⟩ : PState) = tokens.length := by
      unfold pm
      simp
    rw [hpm]
    unfold parserFuel
    omega)
  rw [hD]
  exact ⟨_, rfl⟩

/-- `parse` never reaches its fallback value: it returns exactly what the
optional entry point produced. -/
theorem parse_eq_of_parseOpt {source : String} {r : ParseResult}
    (h : parseOpt source = some r) : parse source = r := by
  unfold parse
  rw [h]
  rfl


/-- A malformed token under the cursor fails end-of-input and every
dispatch test of the document loop. -/
theorem malformed_checks {st : PState} (h : isMalformed st.peek = true) :
    st.isAtEnd = false ∧
    st.check .DOUBLE_COLON = false ∧ st.check .COMMENT = false ∧
    st.check .HASH = false ∧ st.check .PLUS = false ∧
    st.check .EXCLAIM = false ∧ st.check .NEWLINE = false ∧
    st.check .SEMICOLON = false ∧ st.check .INDENT = false ∧
    st.check .LPAREN = false ∧ st.check .PERCENT = false ∧
    st.check .QUESTION = false ∧ st.check .ARROW_RIGHT = false := by
  unfold isMalformed at h
  simp only [Bool.not_eq_true', Bool.or_eq_false_iff] at h
  obtain ⟨⟨⟨⟨⟨⟨⟨⟨⟨⟨⟨⟨h1, h2⟩, h3⟩, h4⟩, h5⟩, h6⟩, h7⟩, h8⟩, h9⟩, h10⟩,
    h11⟩, h12⟩, h13⟩ := h
  exact ⟨h13, h1, h2, h3, h4, h5, h6, h7, h8, h9, h10, h11, h12⟩

/-- `skipNewlines` does nothing when the cursor is not on a NEWLINE. -/
theorem skipNewlines_stop {st : PState} (h : st.check .NEWLINE = false) :
    st.skipNewlines = st := by
  unfold PState.skipNewlines
  cases hf : st.restFuel with
  | zero => rfl
  | succ k =>
    rw [skipNewlinesF]
    simp only [h, Bool.false_eq_true, if_false]

/-- When every remaining token up to the final EOF is matched by no
top-level production, the document loop adds no children and appends
exactly one unexpected-token error per remaining malformed token. -/
theorem docLoop_malformed (fuel : Nat) : ∀ (st : PState)
    (acc : List DocChild), Wf st → pm st ≤ fuel →
    (∀ i, st.pos ≤ i → i + 1 < st.tokens.length →
      isMalformed (st.tokens.getD i dummyToken) = true) →
    ∃ st', docLoop fuel st acc = some (acc, st') ∧
      st'.errors = st.errors ++
        ((st.tokens.drop st.pos).dropLast.map
          (fun t => (⟨"予期しないトークン: " ++ t.type.toName,
            t.range⟩ : ParseError))) := by
  induction fuel with
  | zero =>
    intro st acc hw hf hmal
    exact absurd hf (by have := pm_pos hw; omega)
  | succ fuel ih =>
    intro st acc hw hf hmal
    by_cases hEnd : st.isAtEnd = true
    · have hlast : ¬ st.pos + 1 < st.tokens.length := by
        intro hc
        have hm := hmal st.pos (le_refl _) hc
        have hpk : st.peek.type = .EOF := isAtEnd_iff.mp hEnd
        rw [← peek_of_wf hw] at hm
        unfold isMalformed at hm
        rw [hpk] at hm
        simp at hm
      have hnil : ((st.tokens.drop st.pos).dropLast) = [] := by
        have hlen : ((st.tokens.drop st.pos).dropLast).length = 0 := by
          rw [List.length_dropLast, List.length_drop]
          have := hw.2
          omega
        exact List.eq_nil_of_length_eq_zero hlen
      refine ⟨st, ?_, by rw [hnil]; simp⟩
      conv_lhs => rw [docLoop]
      rw [if_pos hEnd]
    · have hEnd2 : st.isAtEnd = false := by
        revert hEnd
        cases st.isAtEnd <;> simp
      have hsucc : st.pos + 1 < st.tokens.length := wf_succ hw hEnd2
      have hm := hmal st.pos (le_refl _) hsucc
      rw [← peek_of_wf hw] at hm
      obtain ⟨-, c1, c2, c3, c4, c5, c6, c7, c8, c9, c10, c11, c12⟩ :=
        malformed_checks hm
      have hstep : docLoop (fuel + 1) st acc =
          docLoop fuel
            (((st.addErr
              ("予期しないトークン: " ++ st.peek.type.toName)).advanceT).2)
            acc := by
        conv_lhs => rw [docLoop]
        simp only [hEnd2, c1, c2, c3, c4, c5, c6, c7, c8, c9, c10, c11, c12,
          Bool.false_eq_true, if_false, Bool.or_self]
      have hadv := advanceT_of_not_atEnd
        ((addErr_isAtEnd st ("予期しないトークン: " ++ st.peek.type.toName)).trans
          hEnd2)
      have ht2 : (((st.addErr
          ("予期しないトークン: " ++ st.peek.type.toName)).advanceT).2).tokens =
          st.tokens := by
        rw [hadv]
        rfl
      have hp2 : (((st.addErr
          ("予期しないトークン: " ++ st.peek.type.toName)).advanceT).2).pos =
          st.pos + 1 := by
        rw [hadv]
        rfl
      have he2 : (((st.addErr
          ("予期しないトークン: " ++ st.peek.type.toName)).advanceT).2).errors =
          st.errors ++
            [⟨"予期しないトークン: " ++ st.peek.type.toName, st.peek.range⟩] := by
        rw [hadv]
        rfl
      have hw2 : Wf (((st.addErr
          ("予期しないトークン: " ++ st.peek.type.toName)).advanceT).2) := by
        constructor
        · rw [ht2]
          exact hw.1
        · rw [hp2, ht2]
          exact hsucc
      have hf2 : pm (((st.addErr
          ("予期しないトークン: " ++ st.peek.type.toName)).advanceT).2) ≤ fuel := by
        unfold pm
        rw [ht2, hp2]
        unfold pm at hf
        omega
      have hmal2 : ∀ i, (((st.addErr
          ("予期しないトークン: " ++ st.peek.type.toName)).advanceT).2).pos ≤ i →
          i + 1 < (((st.addErr
            ("予期しないトークン: " ++ st.peek.type.toName)).advanceT).2).tokens.length →
          isMalformed ((((st.addErr
            ("予期しないトークン: " ++ st.peek.type.toName)).advanceT).2).tokens.getD
              i dummyToken) = true := by
        intro i hi hlen
        rw [ht2] at hlen ⊢
        rw [hp2] at hi
        exact hmal i (by omega) hlen
      obtain ⟨st', hdl, herr⟩ := ih (((st.addErr
        ("予期しないトークン: " ++ st.peek.type.toName)).advanceT).2) acc hw2 hf2
        hmal2
      refine ⟨st', by rw [hstep, hdl], ?_⟩
      rw [herr, he2, ht2, hp2]
      have hdrop : st.tokens.drop st.pos =
          st.peek :: st.tokens.drop (st.pos + 1) := by
        rw [peek_of_wf hw, List.getD_eq_getElem st.tokens dummyToken hw.2]
        exact List.drop_eq_getElem_cons hw.2
      rw [hdrop]
      rcases hnext : st.tokens.drop (st.pos + 1) with _ | ⟨b, l2⟩
      · exfalso
        have hlen := List.length_drop (st.pos + 1) st.tokens
        rw [hnext] at hlen
        simp at hlen
        omega
      · rw [List.dropLast_cons₂]
        simp [List.append_assoc]

/-! ## The verified claims -/

/-- Claim C1: for every input string, `parse` never throws: the optional
entry point always returns a result (the fuel budget suffices), `parse`
returns exactly that best-effort `ParseResult`, and the parser only ever
appends to the error list it starts from (the lexer errors). -/
theorem claim_C1 (source : String) :
    (∃ r, parseOpt source = some r ∧ parse source = r) ∧
    ∃ tail, (parse source).errors =
      ((tokenize source).2.map
        (fun e => (⟨e.message, e.range⟩ : ParseError))) ++ tail := by
  obtain ⟨r, hr⟩ := parseOpt_isSome source
  refine ⟨⟨r, hr, parse_eq_of_parseOpt hr⟩, ?_⟩
  rw [parse_eq_of_parseOpt hr]
  unfold parseOpt at hr
  rcases htk : tokenize source with ⟨tokens, les⟩
  rw [htk] at hr
  dsimp only at hr ⊢
  rcases hPD : parseDocument (parserFuel tokens)
      ⟨tokens, 0, les.map (fun e => (⟨e.message, e.range⟩ : ParseError)), []⟩
    with _ | ⟨doc, st2⟩
  · rw [hPD] at hr
    exact absurd hr (by simp)
  · rw [hPD] at hr
    simp only [Option.map_some', Option.some.injEq] at hr
    obtain ⟨hDocE, -⟩ := extOk_all (parserFuel tokens)
    obtain ⟨t, ht⟩ := (hDocE _ _ _ hPD).2.2.1
    rw [← hr]
    exact ⟨t, ht⟩

/-- Claim C2: `parse` terminates on every finite input: the optional entry
point always succeeds, a fuel budget linear in the token count suffices for
`parseDocument`, and the fallback branch of the document loop reports one
error and consumes the offending token, strictly advancing the cursor. -/
theorem claim_C2 :
    (∀ source, ∃ r, parseOpt source = some r) ∧
    (∀ fuel st, Wf st → 16 * pm st + 3 ≤ fuel →
      ∃ r st', parseDocument fuel st = some (r, st')) ∧
    (∀ fuel st acc,
      st.isAtEnd = false →
      st.check .DOUBLE_COLON = false → st.check .COMMENT = false →
      st.check .HASH = false → st.check .PLUS = false →
      st.check .EXCLAIM = false → st.check .NEWLINE = false →
      st.check .SEMICOLON = false → st.check .INDENT = false →
      st.check .LPAREN = false → st.check .PERCENT = false →
      st.check .QUESTION = false → st.check .ARROW_RIGHT = false →
      docLoop (fuel + 1) st acc =
        docLoop fuel
          (((st.addErr ("予期しないトークン: " ++ st.peek.type.toName)).advanceT).2)
          acc ∧
      st.pos <
        (((st.addErr ("予期しないトークン: " ++ st.peek.type.toName)).advanceT).2).pos ∧
      (((st.addErr ("予期しないトークン: " ++ st.peek.type.toName)).advanceT).2).errors =
        st.errors ++
          [⟨"予期しないトークン: " ++ st.peek.type.toName, st.peek.range⟩]) := by
  refine ⟨parseOpt_isSome, fun fuel => (suff_all fuel).1, ?_⟩
  intro fuel st acc hEnd hDC hCOM hH hP hEx hNL hSC hIN hLP hPC hQ hAR
  refine ⟨?_, ?_, ?_⟩
  · conv_lhs => rw [docLoop]
    simp only [hEnd, hDC, hCOM, hH, hP, hEx, hNL, hSC, hIN, hLP, hPC, hQ, hAR,
      Bool.false_eq_true, if_false, Bool.or_self]
  · exact advanceT_strict ((addErr_isAtEnd st _).trans hEnd)
  · exact (advanceT_scanOk _).2.2.1

/-- Closed instance of the fallback clauses of `claim_C2`: at a TEXT token
matched by no production, one loop step adds one error and consumes one
token; at an EOF-terminated state the linear fuel budget completes. -/
theorem claim_C2_witness :
    (∃ r st', parseDocument 32 eofSt = some (r, st')) ∧
    docLoop 2 textSt [] =
      docLoop 1
        (((textSt.addErr ("予期しないトークン: " ++ textSt.peek.type.toName)).advanceT).2)
        [] ∧
    textSt.pos <
      (((textSt.addErr ("予期しないトークン: " ++ textSt.peek.type.toName)).advanceT).2).pos ∧
    (((textSt.addErr ("予期しないトークン: " ++ textSt.peek.type.toName)).advanceT).2).errors =
      textSt.errors ++
        [⟨"予期しないトークン: " ++ textSt.peek.type.toName, textSt.peek.range⟩] :=
  ⟨claim_C2.2.1 32 eofSt ⟨rfl, by decide⟩ (by decide),
   claim_C2.2.2 1 textSt [] rfl rfl rfl rfl rfl rfl rfl rfl rfl rfl rfl rfl rfl⟩

/-- Claim C3: constant resolution is strictly sequential.  A `$name`
reference consults the constants map as populated at the moment it is
parsed: if the name is present the returned `Norm` copies the registered
content and reference; if it is absent the parser appends an
undefined-constant error and falls back to the raw name text with no
reference.  Concretely, a definition `%規範X as C` parsed before `$C`
resolves without error, while `$C` parsed before the definition yields the
undefined-constant error and a requirement named by the raw text `C`. -/
theorem claim_C3 :
    (∀ fuel st p c r st',
      parseConstantReference fuel st p c = some (r, st') →
      (∀ d, mapGet st.constants
          (trimJs ((st.scanAcc [TokenType.ARROW_LEFT, .COLON, .SEMICOLON,
            .NEWLINE] " ").1)) = some d →
        r.content = d.value.content ∧ r.reference = d.value.reference) ∧
      (mapGet st.constants
          (trimJs ((st.scanAcc [TokenType.ARROW_LEFT, .COLON, .SEMICOLON,
            .NEWLINE] " ").1)) = none →
        r.content = trimJs ((st.scanAcc [TokenType.ARROW_LEFT, .COLON,
          .SEMICOLON, .NEWLINE] " ").1) ∧
        r.reference = none ∧
        ∃ e tail, st'.errors = st.errors ++ e :: tail ∧
          e.message = "定数 " ++ trimJs ((st.scanAcc [TokenType.ARROW_LEFT,
            .COLON, .SEMICOLON, .NEWLINE] " ").1) ++
            " が定義されていません")) ∧
    ((parse "#a:\n    %規範X as C\n    $C").errors = [] ∧
     (firstClaim (parse "#a:\n    %規範X as C\n    $C")).map
        (fun c => c.requirements.map
          (fun q => (q.name, q.norm.map Norm.content,
            q.norm.bind Norm.constantReference))) =
      some [("規範X", some "規範X", none), ("規範X", some "規範X", some "C")]) ∧
    ((parse "#a:\n    $C\n    %規範X as C").errors.map ParseError.message =
      ["定数 C が定義されていません"] ∧
     (firstClaim (parse "#a:\n    $C\n    %規範X as C")).map
        (fun c => c.requirements.map
          (fun q => (q.name, q.norm.bind Norm.reference))) =
      some [("C", none), ("規範X", none)]) := by
  refine ⟨?_, ⟨rfl, rfl⟩, ⟨rfl, rfl⟩⟩
  intro fuel st p c r st' h
  cases fuel with
  | zero => exact Option.noConfusion h
  | succ f =>
    unfold parseConstantReference at h
    rcases hsa : st.scanAcc [TokenType.ARROW_LEFT, .COLON, .SEMICOLON,
        .NEWLINE] " " with ⟨raw, st1⟩
    dsimp only at h ⊢
    rw [hsa] at h
    have hcm : st1.constants = st.constants := by
      have h2 := (scanAcc_scanOk st [TokenType.ARROW_LEFT, .COLON, .SEMICOLON,
        .NEWLINE] " ").2.2.2.1
      rw [hsa] at h2
      exact h2
    have herr : st1.errors = st.errors := by
      have h2 := (scanAcc_scanOk st [TokenType.ARROW_LEFT, .COLON, .SEMICOLON,
        .NEWLINE] " ").2.2.1
      rw [hsa] at h2
      exact h2
    rw [hcm] at h
    obtain ⟨-, -, -, -, -, -, -, -, -, -, -, -, -, -, -, hFact, -, -⟩ :=
      extOk_all f
    constructor
    · intro d hd
      rw [hd] at h
      dsimp only at h
      rcases hAF : arrowFactOpt f st1 none with _ | ⟨fct, st3⟩
      · rw [hAF] at h
        exact Option.noConfusion h
      · rw [hAF] at h
        dsimp only at h
        simp only [Option.some.injEq, Prod.mk.injEq] at h
        obtain ⟨rfl, -⟩ := h
        exact ⟨rfl, rfl⟩
    · intro hd
      rw [hd] at h
      dsimp only at h
      rcases hAF : arrowFactOpt f
          (st1.addErr ("定数 " ++ trimJs raw ++ " が定義されていません")) none
        with _ | ⟨fct, st3⟩
      · rw [hAF] at h
        exact Option.noConfusion h
      · rw [hAF] at h
        dsimp only at h
        simp only [Option.some.injEq, Prod.mk.injEq] at h
        obtain ⟨rfl, rfl⟩ := h
        refine ⟨rfl, rfl, ⟨"定数 " ++ trimJs raw ++ " が定義されていません",
          st1.peek.range⟩, ?_⟩
        obtain ⟨t, ht⟩ := (arrowFactOpt_extOk hFact hAF).2.2.1
        refine ⟨t, ?_, rfl⟩
        rw [ht]
        show (st1.errors ++ [_]) ++ t = _
        rw [herr, List.append_assoc]
        rfl

/-- Closed instance of the absent-constant clause of `claim_C3`: resolving
`$C` against an empty constants map falls back to the raw name and appends
the undefined-constant error. -/
theorem claim_C3_witness :
    crWitPair.1.content =
      trimJs (((initSt "C").scanAcc [TokenType.ARROW_LEFT, .COLON, .SEMICOLON,
        .NEWLINE] " ").1) ∧
    crWitPair.1.reference = none ∧
    ∃ e tail, crWitPair.2.errors = (initSt "C").errors ++ e :: tail ∧
      e.message = "定数 " ++ trimJs (((initSt "C").scanAcc
        [TokenType.ARROW_LEFT, .COLON, .SEMICOLON, .NEWLINE] " ").1) ++
        " が定義されていません" :=
  (claim_C3.1 8 (initSt "C") ⟨0, 0, 0⟩ none crWitPair.1 crWitPair.2
    (by rfl)).2 (by rfl)

/-- Claim C4: when a requirement has no closing `)` before NEWLINE or EOF,
`closeBracket` appends an error whose range starts at the position it is
handed — the opening bracket token, not the cursor — and leaves the cursor
alone so parsing continues.  Concretely, `(foo` with no `)` reports its
error at the `(` (line 1, column 4) and the following requirement `(bar)`
is still parsed. -/
theorem claim_C4 :
    (∀ (st : PState) (a b : Position),
      (st.check .NEWLINE || st.isAtEnd) = true →
      (st.closeBracket a b).errors =
        st.errors ++ [⟨"閉じ括弧)が見つかりません", ⟨a, b⟩⟩] ∧
      (st.closeBracket a b).pos = st.pos) ∧
    (parse "#a:\n    (foo\n    (bar)").errors =
      [⟨"閉じ括弧)が見つかりません", ⟨⟨1, 4, 8⟩, ⟨1, 8, 12⟩⟩⟩] ∧
    (firstClaim (parse "#a:\n    (foo\n    (bar)")).map
        (fun c => c.requirements.map Requirement.name) =
      some ["foo", "bar"] := by
  refine ⟨?_, rfl, rfl⟩
  intro st a b h
  unfold PState.closeBracket
  rw [if_pos h]
  exact ⟨rfl, rfl⟩

/-- Closed instance of the missing-bracket clause of `claim_C4` at an EOF
state. -/
theorem claim_C4_witness :
    (eofSt.closeBracket ⟨0, 0, 0⟩ ⟨0, 0, 0⟩).errors =
      eofSt.errors ++ [⟨"閉じ括弧)が見つかりません", ⟨⟨0, 0, 0⟩, ⟨0, 0, 0⟩⟩⟩] ∧
    (eofSt.closeBracket ⟨0, 0, 0⟩ ⟨0, 0, 0⟩).pos = eofSt.pos :=
  claim_C4.1 eofSt ⟨0, 0, 0⟩ ⟨0, 0, 0⟩ rfl

/-- Claim C5: a flat (non-parenthesised) fact records only the first of the
`@evaluation` segments its scan collects: the scan loop accumulates every
evaluation in order, and the returned node keeps exactly the head of that
list.  Concretely `事実 @評価1 @評価2` scans two evaluations and the node
carries only `評価1`. -/
theorem claim_C5 :
    (∀ fuel st r st', parseFact (fuel + 1) st = some (r, st') →
      st.check .LPAREN = false →
      r.evaluation = ((st.flatFactScan).2.1).head?) ∧
    (∀ fuel st acc evs, ∃ more,
      ((flatFactScanF fuel st acc evs).2.1) = evs ++ more) ∧
    (firstClaim (parse "#a <= 事実 @評価1 @評価2")).map
        (fun c => c.fact.map
          (fun f => (f.content, f.evaluation.map Evaluation.content))) =
      some (some ("事実", some "評価1")) ∧
    ((flatFactScanF 20 (initSt "事実 @評価1 @評価2") "" []).2.1).map
        Evaluation.content = ["評価1", "評価2"] := by
  refine ⟨?_, ?_, rfl, rfl⟩
  · intro fuel st r st' h hL
    unfold parseFact at h
    rw [matchT_of_not_check hL] at h
    simp only [Bool.false_eq_true, if_false] at h
    rcases hfs : st.flatFactScan with ⟨content, evs, st3⟩
    rw [hfs] at h
    dsimp only at h
    simp only [Option.some.injEq, Prod.mk.injEq] at h
    obtain ⟨rfl, -⟩ := h
    rfl
  · intro fuel
    induction fuel with
    | zero =>
      intro st acc evs
      exact ⟨[], by rw [flatFactScanF]; simp⟩
    | succ f ih =>
      intro st acc evs
      by_cases hstop : st.isAtEnd = true ∨
        ([TokenType.COLON, .AND, .OR, .RPAREN, .ARROW_RIGHT, .SEMICOLON,
          .NEWLINE].contains st.peek.type) = true
      · rw [flatFactScanF, if_pos hstop]
        exact ⟨[], by simp⟩
      · rw [flatFactScanF, if_neg hstop]
        by_cases hAt : st.check .AT = true
        · simp only [hAt, if_true]
          rcases hpe : ((st.advanceT).2).parseEvaluation with ⟨ev, st3⟩
          dsimp only
          obtain ⟨more, hm⟩ := ih st3 acc (evs ++ [ev])
          exact ⟨ev :: more, by rw [hm, List.append_assoc]; rfl⟩
        · have hAt2 : st.check .AT = false := by
            revert hAt
            cases st.check .AT <;> simp
          simp only [hAt2, Bool.false_eq_true, if_false]
          rcases hadv : st.advanceT with ⟨t, st2⟩
          dsimp only
          exact ih st2 (acc ++ t.value ++ " ") evs

/-- Closed instance of the first-evaluation clause of `claim_C5` on the
flat fact `x @e`. -/
theorem claim_C5_witness :
    ffWitPair.1.evaluation = (((initSt "x @e").flatFactScan).2.1).head? :=
  claim_C5.1 7 (initSt "x @e") ffWitPair.1 ffWitPair.2 (by rfl) (by rfl)

/-- Claim C6: in a parenthesised compound fact the children accumulate in
source order while the single operator field is overwritten by every
operator token, so the operator consumed last wins: one loop step at an
operator token is independent of the operator accumulated so far, and the
loop exits returning the accumulator.  Concretely
`parse("#主張 <= (事実1 & 事実2)")` yields operator `and` with exactly the
two operand facts, and the mixed chain `(x & y | z)` collapses to `or`. -/
theorem claim_C6 :
    (∀ fuel st ch op op', (st.check .AND || st.check .OR) = true →
      cfLoop fuel st ch op = cfLoop fuel st ch op') ∧
    (∀ fuel st ch op, st.check .AND = false → st.check .OR = false →
      cfLoop (fuel + 1) st ch op = some (ch, op, st)) ∧
    (firstClaim (parse "#主張 <= (事実1 & 事実2)")).map
        (fun c => c.fact.map
          (fun f => (f.operator, (f.children.getD []).map Fact.content))) =
      some (some (some FactOp.and, ["事実1", "事実2"])) ∧
    (firstClaim (parse "#a <= (x & y | z)")).map
        (fun c => c.fact.map
          (fun f => (f.operator, (f.children.getD []).map Fact.content))) =
      some (some (some FactOp.or, ["x", "y", "z"])) := by
  refine ⟨?_, ?_, rfl, rfl⟩
  · intro fuel st ch op op' h
    cases fuel with
    | zero => rfl
    | succ f =>
      by_cases hA : st.check .AND = true
      · unfold cfLoop
        simp only [hA, if_true]
      · have hA2 : st.check .AND = false := by
          revert hA
          cases st.check .AND <;> simp
        have hO : st.check .OR = true := by
          rw [hA2] at h
          simpa using h
        unfold cfLoop
        simp only [hA2, Bool.false_eq_true, if_false, hO, if_true]
  · intro fuel st ch op hA hO
    unfold cfLoop
    simp only [hA, hO, Bool.false_eq_true, if_false]

/-- Closed instance of the loop clauses of `claim_C6`: at a non-operator
token the loop exits with its accumulator, and at an AND token the step is
independent of the accumulated operator. -/
theorem claim_C6_witness :
    cfLoop 1 textSt [] none = some ([], none, textSt) ∧
    cfLoop 3 andSt [] none = cfLoop 3 andSt [] (some FactOp.or) :=
  ⟨claim_C6.2.1 0 textSt [] none rfl rfl,
   claim_C6.1 3 andSt [] none (some FactOp.or) rfl⟩

/-- Claim C7 counterexample to the frozen wording: an indentation-only
line at the very end of the input (remainder empty, no newline) does
affect the indent stack — `handleIndentation` pushes a level and emits
INDENT, and `tokenize "  "` returns INDENT DEDENT EOF. -/
theorem claim_C7_counterexample :
    (handleIndentation ⟨"  ".data, 0, 0, 0, [], [], [0], true⟩).tokens.map
        Token.type = [TokenType.INDENT] ∧
    (handleIndentation ⟨"  ".data, 0, 0, 0, [], [], [0], true⟩).indentStack =
      [2, 0] ∧
    (tokenize "  ").1.map Token.type =
      [TokenType.INDENT, TokenType.DEDENT, TokenType.EOF] :=
  ⟨rfl, rfl, rfl⟩

/-- Claim C7 (amended): the lexer skips indent bookkeeping exactly when the
character after the counted indentation is a newline (`'\n'` or `'\r'`):
such lines emit no INDENT or DEDENT and leave the indent stack unchanged.
A line whose remainder is empty because the input ends does undergo the
comparison (see the counterexample), and comment-only lines undergo it too:
`a\n  //c` emits INDENT before the COMMENT token, while the blank interior
line of `a\n  \nb` emits nothing. -/
theorem claim_C7 (st : LexState)
    (h : (st.bulk (countIndentLoop (st.src.drop st.pos)).2).peekChar = '\n' ∨
         (st.bulk (countIndentLoop (st.src.drop st.pos)).2).peekChar = '\r') :
    ((handleIndentation st).tokens = st.tokens ∧
     (handleIndentation st).indentStack = st.indentStack) ∧
    (tokenize "a\n  \nb").1.map Token.type =
      [TokenType.TEXT, .NEWLINE, .NEWLINE, .TEXT, .EOF] ∧
    (tokenize "a\n  //c").1.map Token.type =
      [TokenType.TEXT, .NEWLINE, .INDENT, .COMMENT, .DEDENT, .EOF] := by
  refine ⟨?_, rfl, rfl⟩
  unfold handleIndentation
  rcases hci : countIndentLoop (st.src.drop st.pos) with ⟨ind, k⟩
  rw [hci] at h
  dsimp only at h ⊢
  split
  · exact ⟨rfl, rfl⟩
  · rename_i hneg
    exact absurd h hneg

/-- Closed instance of `claim_C7` on an indentation-only line followed by a
newline: the stack and token list are untouched. -/
theorem claim_C7_witness :
    ((handleIndentation c7WitSt).tokens = c7WitSt.tokens ∧
     (handleIndentation c7WitSt).indentStack = c7WitSt.indentStack) ∧
    (tokenize "a\n  \nb").1.map Token.type =
      [TokenType.TEXT, .NEWLINE, .NEWLINE, .TEXT, .EOF] ∧
    (tokenize "a\n  //c").1.map Token.type =
      [TokenType.TEXT, .NEWLINE, .INDENT, .COMMENT, .DEDENT, .EOF] :=
  claim_C7 c7WitSt (Or.inl rfl)

/-- Claim C8: every requirement built from the norm shorthand mirrors its
norm: the returned `Requirement` wraps some norm `n` with
`name = n.content`, `fact = n.fact` and `concluded = n.concluded` — also
when the indented sub-block updated the norm before the node was built,
since the node is constructed from the final norm. -/
theorem claim_C8 (fuel : Nat) (st : PState) (r : Requirement) (st' : PState)
    (h : parseNormAsRequirement fuel st = some (r, st')) :
    ∃ n, r.norm = some n ∧ r.name = n.content ∧ r.fact = n.fact ∧
      r.concluded = n.concluded := by
  cases fuel with
  | zero =>
    rw [parseNormAsRequirement_zero] at h
    exact Option.noConfusion h
  | succ f =>
    rw [parseNormAsRequirement_succ] at h
    unfold parseNormAsRequirementB at h
    dsimp only at h
    split at h
    next heq => exact Option.noConfusion h
    next norm st1 heq =>
      split at h
      next heq2 => exact Option.noConfusion h
      next norm2 subs rss st2 heq2 =>
        simp only [Option.some.injEq, Prod.mk.injEq] at h
        obtain ⟨rfl, -⟩ := h
        exact ⟨norm2, rfl, rfl, rfl, rfl⟩

/-- Closed instance of `claim_C8` on the shorthand requirement `%x`. -/
theorem claim_C8_witness :
    ∃ n, narWitPair.1.norm = some n ∧ narWitPair.1.name = n.content ∧
      narWitPair.1.fact = n.fact ∧ narWitPair.1.concluded = n.concluded :=
  claim_C8 16 (initSt "%x") narWitPair.1 narWitPair.2 (by rfl)

/-- Claim C9: an empty source parses to a document with no children and no
errors; and EVERY fully malformed source — one whose tokens up to the
final EOF all match no top-level production — parses to a document with no
children and, after the lexer's own errors, exactly one unexpected-token
error per malformed top-level token, in order.  The source `a b c` (three
TEXT tokens) instantiates the universal clause with three errors. -/
theorem claim_C9 :
    ((parse "").document.children = [] ∧ (parse "").errors = []) ∧
    (∀ source : String,
      (∀ i < (tokenize source).1.length - 1,
        isMalformed ((tokenize source).1.getD i dummyToken) = true) →
      (parse source).document.children = [] ∧
      (parse source).errors =
        ((tokenize source).2.map
          (fun e => (⟨e.message, e.range⟩ : ParseError))) ++
        ((tokenize source).1.dropLast.map
          (fun t => (⟨"予期しないトークン: " ++ t.type.toName,
            t.range⟩ : ParseError)))) ∧
    (tokenize "a b c").1.map Token.type =
      [TokenType.TEXT, .TEXT, .TEXT, .EOF] ∧
    (parse "a b c").document.children = [] ∧
    (parse "a b c").errors.map ParseError.message =
      ["予期しないトークン: TEXT", "予期しないトークン: TEXT",
       "予期しないトークン: TEXT"] := by
  refine ⟨⟨rfl, rfl⟩, ?_, rfl, rfl, rfl⟩
  intro source hmal
  rcases htk : tokenize source with ⟨tokens, les⟩
  dsimp only at hmal ⊢
  rw [htk] at hmal
  dsimp only at hmal
  have hw0 : Wf (⟨tokens, 0,
      les.map (fun e => (⟨e.message, e.range⟩ : ParseError)), []⟩ : PState) := by
    constructor
    · have h1 := tokenize_lastEOF source
      rw [htk] at h1
      exact h1
    · have h1 := tokenize_length_pos source
      rw [htk] at h1
      simpa using h1
  have hnl : (⟨tokens, 0,
      les.map (fun e => (⟨e.message, e.range⟩ : ParseError)), []⟩ : PState).check
        .NEWLINE = false := by
    by_cases hEnd : (⟨tokens, 0,
        les.map (fun e => (⟨e.message, e.range⟩ : ParseError)), []⟩ : PState).isAtEnd
          = true
    · have hpk := isAtEnd_iff.mp hEnd
      unfold PState.check
      rw [hpk]
      decide
    · have hEnd2 : (⟨tokens, 0,
          les.map (fun e => (⟨e.message, e.range⟩ : ParseError)), []⟩ : PState).isAtEnd
            = false := by
        revert hEnd
        cases (⟨tokens, 0,
          les.map (fun e => (⟨e.message, e.range⟩ : ParseError)), []⟩ : PState).isAtEnd <;>
          simp
      have hs := wf_succ hw0 hEnd2
      have hpe : (⟨tokens, 0,
          les.map (fun e => (⟨e.message, e.range⟩ : ParseError)), []⟩ : PState).peek =
          tokens.getD 0 dummyToken := peek_of_wf hw0
      have hm : isMalformed ((⟨tokens, 0,
          les.map (fun e => (⟨e.message, e.range⟩ : ParseError)), []⟩ : PState).peek)
            = true := by
        rw [hpe]
        exact hmal 0 (by simp at hs; omega)
      exact (malformed_checks hm).2.2.2.2.2.2.1
  have hmal2 : ∀ i, (⟨tokens, 0,
      les.map (fun e => (⟨e.message, e.range⟩ : ParseError)), []⟩ : PState).pos ≤ i →
      i + 1 < (⟨tokens, 0,
        les.map (fun e => (⟨e.message, e.range⟩ : ParseError)), []⟩ : PState).tokens.length →
      isMalformed ((⟨tokens, 0,
        les.map (fun e => (⟨e.message, e.range⟩ : ParseError)), []⟩ : PState).tokens.getD
          i dummyToken) = true := by
    dsimp only
    intro i _ hlen
    exact hmal i (by omega)
  obtain ⟨st', hdl, herr⟩ := docLoop_malformed (16 * tokens.length + 15)
    (⟨tokens, 0, les.map (fun e => (⟨e.message, e.range⟩ : ParseError)), []⟩ : PState)
    [] hw0 (by unfold pm; dsimp only; omega) hmal2
  have hfs : parserFuel tokens = (16 * tokens.length + 15) + 1 := by
    unfold parserFuel
    omega
  have hpd : parseDocument (parserFuel tokens)
      (⟨tokens, 0, les.map (fun e => (⟨e.message, e.range⟩ : ParseError)), []⟩ : PState) =
      some (⟨[], st'.constants,
        createRange ((⟨tokens, 0,
          les.map (fun e => (⟨e.message, e.range⟩ : ParseError)), []⟩ : PState).peek.range.start)
          (st'.peek.range.stop)⟩, st') := by
    rw [hfs]
    conv_lhs => rw [parseDocument]
    dsimp only
    rw [skipNewlines_stop hnl, hdl]
  have hpo : parseOpt source = some ⟨⟨[], st'.constants,
      createRange ((⟨tokens, 0,
        les.map (fun e => (⟨e.message, e.range⟩ : ParseError)), []⟩ : PState).peek.range.start)
        (st'.peek.range.stop)⟩, st'.errors⟩ := by
    unfold parseOpt
    rw [htk]
    dsimp only
    rw [hpd]
    rfl
  rw [parse_eq_of_parseOpt hpo]
  refine ⟨rfl, ?_⟩
  show st'.errors = _
  rw [herr]
  dsimp only
  rw [List.drop_zero]

/-- Closed instance of the universal clause of `claim_C9` at the fully
malformed source `a b c`. -/
theorem claim_C9_witness :
    (parse "a b c").document.children = [] ∧
    (parse "a b c").errors =
      ((tokenize "a b c").2.map
        (fun e => (⟨e.message, e.range⟩ : ParseError))) ++
      ((tokenize "a b c").1.dropLast.map
        (fun t => (⟨"予期しないトークン: " ++ t.type.toName,
          t.range⟩ : ParseError))) :=
  claim_C9.2.1 "a b c" (by decide)

/-- Claim C10: for every input the token stream is well bracketed and
terminated: every prefix has at most as many DEDENTs as INDENTs, the totals
agree, the stream contains exactly one EOF token, and it is the last
token. -/
theorem claim_C10 (source : String) :
    (∀ k, cntD ((tokenize source).1.take k) ≤
      cntI ((tokenize source).1.take k)) ∧
    cntI (tokenize source).1 = cntD (tokenize source).1 ∧
    cntE (tokenize source).1 = 1 ∧
    (tokenize source).1.getLast?.map Token.type = some TokenType.EOF := by
  obtain ⟨h1, h2, h3⟩ := tokenize_balanced source
  exact ⟨h1, h2, h3, tokenize_lastEOF source⟩

end Houjicha
